import Mathlib

/-!
# DynamicTable: a growable two-dimensional integer table

Shallow embedding of `src/src/DynamicTable.cpp` (class `DynamicTable`) together with the
counter it reports to (`src/include/OperationCounter.hpp`).

Modelling conventions.

* `std::size_t` quantities (`_rows`, `_cols`, the capacities, indices, the counter fields) are
  natural numbers.  A capacity is the length of an array that has been allocated, so the sizes of
  a table stay far below `2^64`; in the member functions wrap-around of `std::size_t` and
  failure of `new` are not modelled.  The doubling loop stays below twice the count it is asked
  for (`double_until_lt_two_mul`), so it does not wrap for counts up to `2^63`.
* Where the needed count is a free argument the loop is also given in the arithmetic of
  `std::size_t` (`double_until_size_t`, `ensure_row_capacity_for_size_t`,
  `ensure_col_capacity_for_size_t`): for counts up to `2^63` it is the loop on natural numbers
  (`double_until_size_t_eq`), beyond that it may wrap and never end
  (`double_until_size_t_stuck`).
* `int** _data` is a list of rows, each row a list of cells.  `Grid.read` is the r-value
  `_data[r][c]`, `Grid.write` the assignment `_data[r][c] = v`.  The theorems on cells assume
  `DynamicTable.WF`, under which `_data` has `_row_capacity` rows of `_col_capacity` cells; the
  constructor establishes it and every operation keeps it (`DynamicTable.reachable_WF`).
  `Grid.Allocated` says that a cell exists in the storage.
* A block returned by `new int[n]` is not initialised: each of its cells holds `INDETERMINATE`
  until a loop stores into it.  The fill loops overwrite every cell of a fresh block, whatever
  it holds (`DynamicTable.fill_row_spec`).
* `OperationCounter* _counter` is an optional counter value carried by the table; `none` is the
  null pointer.  `DynamicTable.tick` is the statement `if (_counter) <update>`.
* A `for` loop whose bound is not changed by its body is `forRange`.
* The `while` loop of `ensure_row_capacity_for` / `ensure_col_capacity_for` is `double_until`,
  run with fuel `needed + 1`; with a positive capacity this is enough for the loop to end
  (`double_until_total`), and with capacity `0` it never ends (`double_until_zero`).
* A member function that may throw returns a `Result` together with the table as it is when the
  call ends; a call that does not terminate is `none`.
-/

set_option autoImplicit false

/-! ## The operation counter -/

/-- The class `OperationCounter`: eleven public counters. -/
structure OperationCounter where
  row_inserts : Nat
  row_removes : Nat
  col_inserts : Nat
  col_removes : Nat
  element_writes : Nat
  element_assignments : Nat
  element_destroys : Nat
  row_resizes : Nat
  col_resizes : Nat
  row_capacity_changes : Nat
  col_capacity_changes : Nat
deriving DecidableEq

/-! ## Storage -/

/-- The backing store `int**`: a list of rows. -/
abbrev Grid := List (List Int)

/-- The r-value `_data[r][c]`. -/
def Grid.read (d : Grid) (r c : Nat) : Int := (d.getD r []).getD c 0

/-- The assignment `_data[r][c] = v`. -/
def Grid.write (d : Grid) (r c : Nat) (v : Int) : Grid := d.set r ((d.getD r []).set c v)

/-- What a cell of a block returned by `new int[n]` holds before the first store into it.  C++
leaves such a cell indeterminate; the model gives it a value different from
`DEFAULT_INIT_VALUE`, so a fresh cell reads as the default only after a loop has stored the
default in it. -/
def INDETERMINATE : Int := -559038737

/-- The statement `d[i] = new int[n]`: row `i` becomes a fresh block of `n` cells, none of them
initialised. -/
def Grid.alloc_row (d : Grid) (i n : Nat) : Grid := d.set i (List.replicate n INDETERMINATE)

/-- The number of cells of row `r` (`0` when there is no such row). -/
def Grid.width (d : Grid) (r : Nat) : Nat := (d.getD r []).length

/-- The grid has `R` rows of `C` cells each. -/
def Grid.Dim (d : Grid) (R C : Nat) : Prop := d.length = R ∧ ∀ r, r < R → d.width r = C

/-- The file-level constant `DEFAULT_INIT_VALUE`. -/
def DEFAULT_INIT_VALUE : Int := 0

/-- The loop `for (i = 0; i < n; ++i) body`, threading the state `s`. -/
def forRange {σ : Type} : Nat → (Nat → σ → σ) → σ → σ
  | 0, _, s => s
  | n + 1, body, s => body n (forRange n body s)

/-- The loop `while (cap < need) cap *= 2;` run for at most `fuel` tests of its condition;
`none` when the fuel is used up before the condition turns false. -/
def double_until : Nat → Nat → Nat → Option Nat
  | 0, _, _ => none
  | fuel + 1, cap, need => if cap < need then double_until fuel (cap * 2) need else some cap

/-! ## The table -/

/-- How a call ends: it returns a value, or it throws `std::out_of_range`. -/
inductive Result (α : Type) where
  | ok (value : α)
  | out_of_range
deriving DecidableEq

/-- The data members of the class `DynamicTable`. -/
structure DynamicTable where
  _data : Grid
  _rows : Nat
  _cols : Nat
  _row_capacity : Nat
  _col_capacity : Nat
  _counter : Option OperationCounter
deriving DecidableEq

namespace DynamicTable

/-- The statement `if (_counter) f(*_counter);`. -/
def tick (t : DynamicTable) (f : OperationCounter → OperationCounter) : DynamicTable :=
  { t with _counter := t._counter.map f }

/-- The statement `_data[r][c] = v;`. -/
def store (t : DynamicTable) (r c : Nat) (v : Int) : DynamicTable :=
  { t with _data := t._data.write r c v }

/-- The accessor `rows()`. -/
def rows (t : DynamicTable) : Nat := t._rows

/-- The accessor `cols()`. -/
def cols (t : DynamicTable) : Nat := t._cols

/-- The accessor `row_capacity()`. -/
def row_capacity (t : DynamicTable) : Nat := t._row_capacity

/-- The accessor `col_capacity()`. -/
def col_capacity (t : DynamicTable) : Nat := t._col_capacity

/-- The nested loops that fill a freshly allocated grid (constructor lines 15-21, `reallocate`
lines 40-46): row `i` is allocated, then each of its cells is set to `DEFAULT_INIT_VALUE`.
The state is the pair of the grid being filled and the object. -/
def fill_default (row_cap col_cap : Nat) (s : Grid × DynamicTable) : Grid × DynamicTable :=
  forRange row_cap
    (fun i s =>
      forRange col_cap
        (fun j s =>
          (s.1.write i j DEFAULT_INIT_VALUE,
            s.2.tick (fun k => { k with element_writes := k.element_writes + 1 })))
        (s.1.alloc_row i col_cap, s.2))
    s

/-- The constructor `DynamicTable(counter, initial_rows, initial_cols)`. -/
def new (counter : Option OperationCounter) (initial_rows initial_cols : Nat) : DynamicTable :=
  let t0 : DynamicTable :=
    { _data := [], _rows := 0, _cols := 0,
      _row_capacity := max 1 initial_rows, _col_capacity := max 1 initial_cols,
      _counter := counter }
  let s := fill_default t0._row_capacity t0._col_capacity (List.replicate t0._row_capacity [], t0)
  { s.2 with _data := s.1 }

/-- The copy loops of `reallocate` (lines 51-56): every cell below `min_rows` and `min_cols` is
copied from `_data` into `new_data`. -/
def copy_cells (min_rows min_cols : Nat) (s : Grid × DynamicTable) : Grid × DynamicTable :=
  forRange min_rows
    (fun r s =>
      forRange min_cols
        (fun c s =>
          (s.1.write r c (s.2._data.read r c),
            s.2.tick (fun k => { k with element_assignments := k.element_assignments + 1 })))
        s)
    s

/-- The member `reallocate(new_row_cap, new_col_cap)`. -/
def reallocate (t : DynamicTable) (new_row_cap new_col_cap : Nat) : DynamicTable :=
  let new_row_cap := if new_row_cap < 1 then 1 else new_row_cap
  let new_col_cap := if new_col_cap < 1 then 1 else new_col_cap
  let s1 := fill_default new_row_cap new_col_cap (List.replicate new_row_cap [], t)
  let min_rows := min s1.2._rows new_row_cap
  let min_cols := min s1.2._cols new_col_cap
  let s2 := copy_cells min_rows min_cols s1
  let t3 := s2.2.tick (fun k =>
    { k with
      row_resizes := k.row_resizes + 1,
      col_resizes := k.col_resizes + 1,
      row_capacity_changes := k.row_capacity_changes + 1,
      col_capacity_changes := k.col_capacity_changes + 1,
      element_destroys := k.element_destroys + s2.2._row_capacity * s2.2._col_capacity })
  { t3 with _data := s2.1, _row_capacity := new_row_cap, _col_capacity := new_col_cap }

/-- The member `ensure_row_capacity_for(min_rows)`; `none` when its loop does not end. -/
def ensure_row_capacity_for (t : DynamicTable) (min_rows : Nat) : Option DynamicTable :=
  if min_rows ≤ t._row_capacity then some t
  else
    match double_until (min_rows + 1) t._row_capacity min_rows with
    | none => none
    | some new_row_cap => some (t.reallocate new_row_cap t._col_capacity)

/-- The member `ensure_col_capacity_for(min_cols)`; `none` when its loop does not end. -/
def ensure_col_capacity_for (t : DynamicTable) (min_cols : Nat) : Option DynamicTable :=
  if min_cols ≤ t._col_capacity then some t
  else
    match double_until (min_cols + 1) t._col_capacity min_cols with
    | none => none
    | some new_col_cap => some (t.reallocate t._row_capacity new_col_cap)

/-- The block that ends each of the four row operations:
`if (_rows <= _row_capacity / 4 && _row_capacity > 1) reallocate(max(1, _row_capacity / 2), _col_capacity);` -/
def shrink_rows (t : DynamicTable) : DynamicTable :=
  if t._rows ≤ t._row_capacity / 4 ∧ t._row_capacity > 1 then
    t.reallocate (max 1 (t._row_capacity / 2)) t._col_capacity
  else t

/-- The block that ends each of the four column operations:
`if (_cols <= _col_capacity / 4 && _col_capacity > 1) reallocate(_row_capacity, max(1, _col_capacity / 2));` -/
def shrink_cols (t : DynamicTable) : DynamicTable :=
  if t._cols ≤ t._col_capacity / 4 ∧ t._col_capacity > 1 then
    t.reallocate t._row_capacity (max 1 (t._col_capacity / 2))
  else t

/-- The loop `for (c = 0; c < _col_capacity; ++c) { _data[r][c] = DEFAULT_INIT_VALUE; ... }`
of `push_row` (lines 94-97, `r = _rows`) and `insert_row_at` (lines 119-122, `r = idx`). -/
def init_row (t : DynamicTable) (r : Nat) : DynamicTable :=
  forRange t._col_capacity
    (fun c s =>
      (s.store r c DEFAULT_INIT_VALUE).tick
        (fun k => { k with element_writes := k.element_writes + 1 }))
    t

/-- The loop `for (c = 0; c < _col_capacity; ++c) { _data[dst][c] = _data[src][c]; ... }`
of `insert_row_at` (lines 113-116) and `remove_row_at` (lines 149-152). -/
def copy_row (t : DynamicTable) (dst src : Nat) : DynamicTable :=
  forRange t._col_capacity
    (fun c s =>
      (s.store dst c (s._data.read src c)).tick
        (fun k => { k with element_assignments := k.element_assignments + 1 }))
    t

/-- The loop `for (i = 0; i < n; ++i) { if (_counter) ++_counter->element_destroys; }` of
`pop_row`, `remove_row_at` (`n = _col_capacity`) and `pop_col` (`n = _row_capacity`). -/
def count_destroys (t : DynamicTable) (n : Nat) : DynamicTable :=
  forRange n
    (fun _ s => s.tick (fun k => { k with element_destroys := k.element_destroys + 1 }))
    t

/-- The member `push_row()`. -/
def push_row (t : DynamicTable) : Option (Result Unit × DynamicTable) :=
  match t.ensure_row_capacity_for (t._rows + 1) with
  | none => none
  | some t1 =>
    let t2 := t1.init_row t1._rows
    let t3 : DynamicTable := { t2 with _rows := t2._rows + 1 }
    let t4 := t3.tick (fun k => { k with row_inserts := k.row_inserts + 1 })
    some (Result.ok (), t4.shrink_rows)

/-- The member `insert_row_at(idx)`. -/
def insert_row_at (t : DynamicTable) (idx : Nat) : Option (Result Unit × DynamicTable) :=
  if idx > t._rows then some (Result.out_of_range, t)
  else
    match t.ensure_row_capacity_for (t._rows + 1) with
    | none => none
    | some t1 =>
      -- for (r = _rows; r > idx; --r): iteration number m has r = _rows - m
      let t2 := forRange (t1._rows - idx)
        (fun m s => s.copy_row (s._rows - m) (s._rows - m - 1))
        t1
      let t3 := t2.init_row idx
      let t4 : DynamicTable := { t3 with _rows := t3._rows + 1 }
      let t5 := t4.tick (fun k => { k with row_inserts := k.row_inserts + 1 })
      some (Result.ok (), t5.shrink_rows)

/-- The member `pop_row()`. -/
def pop_row (t : DynamicTable) : Option (Result Unit × DynamicTable) :=
  if t._rows = 0 then some (Result.out_of_range, t)
  else
    let t1 := t.count_destroys t._col_capacity
    let t2 : DynamicTable := { t1 with _rows := t1._rows - 1 }
    let t3 := t2.tick (fun k => { k with row_removes := k.row_removes + 1 })
    some (Result.ok (), t3.shrink_rows)

/-- The member `remove_row_at(idx)`. -/
def remove_row_at (t : DynamicTable) (idx : Nat) : Option (Result Unit × DynamicTable) :=
  if idx ≥ t._rows then some (Result.out_of_range, t)
  else
    -- for (r = idx; r + 1 < _rows; ++r): iteration number m has r = idx + m
    let t1 := forRange (t._rows - 1 - idx)
      (fun m s => s.copy_row (idx + m) (idx + m + 1))
      t
    let t2 := t1.count_destroys t1._col_capacity
    let t3 : DynamicTable := { t2 with _rows := t2._rows - 1 }
    let t4 := t3.tick (fun k => { k with row_removes := k.row_removes + 1 })
    some (Result.ok (), t4.shrink_rows)

/-- The member `push_col()`. -/
def push_col (t : DynamicTable) : Option (Result Unit × DynamicTable) :=
  match t.ensure_col_capacity_for (t._cols + 1) with
  | none => none
  | some t1 =>
    let t2 := forRange t1._row_capacity
      (fun r s =>
        (s.store r s._cols DEFAULT_INIT_VALUE).tick
          (fun k => { k with element_writes := k.element_writes + 1 }))
      t1
    let t3 : DynamicTable := { t2 with _cols := t2._cols + 1 }
    let t4 := t3.tick (fun k => { k with col_inserts := k.col_inserts + 1 })
    some (Result.ok (), t4.shrink_cols)

/-- The member `insert_col_at(idx)`. -/
def insert_col_at (t : DynamicTable) (idx : Nat) : Option (Result Unit × DynamicTable) :=
  if idx > t._cols then some (Result.out_of_range, t)
  else
    match t.ensure_col_capacity_for (t._cols + 1) with
    | none => none
    | some t1 =>
      let t2 := forRange t1._row_capacity
        (fun r s =>
          -- for (c = _cols; c > idx; --c): iteration number m has c = _cols - m
          let s1 := forRange (s._cols - idx)
            (fun m s =>
              (s.store r (s._cols - m) (s._data.read r (s._cols - m - 1))).tick
                (fun k => { k with element_assignments := k.element_assignments + 1 }))
            s
          (s1.store r idx DEFAULT_INIT_VALUE).tick
            (fun k => { k with element_writes := k.element_writes + 1 }))
        t1
      let t3 : DynamicTable := { t2 with _cols := t2._cols + 1 }
      let t4 := t3.tick (fun k => { k with col_inserts := k.col_inserts + 1 })
      some (Result.ok (), t4.shrink_cols)

/-- The member `pop_col()`. -/
def pop_col (t : DynamicTable) : Option (Result Unit × DynamicTable) :=
  if t._cols = 0 then some (Result.out_of_range, t)
  else
    let t1 := t.count_destroys t._row_capacity
    let t2 : DynamicTable := { t1 with _cols := t1._cols - 1 }
    let t3 := t2.tick (fun k => { k with col_removes := k.col_removes + 1 })
    some (Result.ok (), t3.shrink_cols)

/-- The member `remove_col_at(idx)`. -/
def remove_col_at (t : DynamicTable) (idx : Nat) : Option (Result Unit × DynamicTable) :=
  if idx ≥ t._cols then some (Result.out_of_range, t)
  else
    let t1 := forRange t._row_capacity
      (fun r s =>
        -- for (c = idx; c + 1 < _cols; ++c): iteration number m has c = idx + m
        let s1 := forRange (s._cols - 1 - idx)
          (fun m s =>
            (s.store r (idx + m) (s._data.read r (idx + m + 1))).tick
              (fun k => { k with element_assignments := k.element_assignments + 1 }))
          s
        s1.tick (fun k => { k with element_destroys := k.element_destroys + 1 }))
      t
    let t2 : DynamicTable := { t1 with _cols := t1._cols - 1 }
    let t3 := t2.tick (fun k => { k with col_removes := k.col_removes + 1 })
    some (Result.ok (), t3.shrink_cols)

/-- The member `get(r, c)`; it is `const`, so the table is not part of the result. -/
def get (t : DynamicTable) (r c : Nat) : Result Int :=
  if r ≥ t._rows ∨ c ≥ t._cols then Result.out_of_range
  else Result.ok (t._data.read r c)

/-- The member `set(r, c, value)`. -/
def set (t : DynamicTable) (r c : Nat) (value : Int) : Option (Result Unit × DynamicTable) :=
  if r ≥ t._rows ∨ c ≥ t._cols then some (Result.out_of_range, t)
  else
    let t1 := t.store r c value
    some (Result.ok (), t1.tick (fun k => { k with element_writes := k.element_writes + 1 }))

/-- The member `clear()`. -/
def clear (t : DynamicTable) : Option (Result Unit × DynamicTable) :=
  let t1 := t.tick (fun k =>
    { k with
      element_destroys := k.element_destroys + t._rows * t._cols,
      row_removes := k.row_removes + t._rows,
      col_removes := k.col_removes + t._cols })
  some (Result.ok (), { t1 with _rows := 0, _cols := 0 })

end DynamicTable

namespace DynamicTable

/-- The four sizes of a table: logical rows and columns, row and column capacity. -/
def sizes (t : DynamicTable) : Nat × Nat × Nat × Nat :=
  (t._rows, t._cols, t._row_capacity, t._col_capacity)

/-- The table without its counter: storage and sizes. -/
def core (t : DynamicTable) : Grid × Nat × Nat × Nat × Nat :=
  (t._data, t._rows, t._cols, t._row_capacity, t._col_capacity)

/-- The size invariants of the class. -/
structure Inv (t : DynamicTable) : Prop where
  rows_le : t._rows ≤ t._row_capacity
  cols_le : t._cols ≤ t._col_capacity
  row_cap_pos : 1 ≤ t._row_capacity
  col_cap_pos : 1 ≤ t._col_capacity

/-- The representation invariant: the size invariants, and `_data` is a grid of
`_row_capacity` rows of `_col_capacity` cells. -/
structure WF (t : DynamicTable) extends Inv t : Prop where
  dim : t._data.Dim t._row_capacity t._col_capacity

/-- The sizes and the layout of the storage: what the loops of the row and column operations
leave unchanged. -/
def frame (t : DynamicTable) : (Nat × Nat × Nat × Nat) × Nat × (Nat → Nat) :=
  (t.sizes, t._data.length, t._data.width)

/-- The capacity the shrink block leaves for logical size `n` and capacity `cap`. -/
def shrunk (n cap : Nat) : Nat :=
  if n ≤ cap / 4 ∧ cap > 1 then max 1 (cap / 2) else cap

/-- The capacity the growth step leaves when one more element is needed above `n`. -/
def grown (n cap : Nat) : Nat := if n + 1 ≤ cap then cap else 2 * cap

/-- A call of one of the mutating public member functions. -/
inductive Op where
  | push_row
  | insert_row_at (idx : Nat)
  | pop_row
  | remove_row_at (idx : Nat)
  | push_col
  | insert_col_at (idx : Nat)
  | pop_col
  | remove_col_at (idx : Nat)
  | set (r c : Nat) (value : Int)
  | clear
deriving DecidableEq

/-- The call `op` on the table `t`. -/
def apply (t : DynamicTable) : Op → Option (Result Unit × DynamicTable)
  | Op.push_row => t.push_row
  | Op.insert_row_at idx => t.insert_row_at idx
  | Op.pop_row => t.pop_row
  | Op.remove_row_at idx => t.remove_row_at idx
  | Op.push_col => t.push_col
  | Op.insert_col_at idx => t.insert_col_at idx
  | Op.pop_col => t.pop_col
  | Op.remove_col_at idx => t.remove_col_at idx
  | Op.set r c value => t.set r c value
  | Op.clear => t.clear

/-- A sequence of calls, one after the other; a call that throws is caught by the caller, who
goes on with the table as the call left it. -/
def run (t : DynamicTable) : List Op → Option DynamicTable
  | [] => some t
  | op :: ops =>
    match t.apply op with
    | none => none
    | some (_, t') => run t' ops

/-- The row capacity after `n` calls of `push_row()` on a table with `a` rows and row capacity
`cap`: each call grows for one more row, then applies the shrink test to the new row count. -/
def cap_after_pushes : Nat → Nat → Nat → Nat
  | 0, _, cap => cap
  | n + 1, a, cap => cap_after_pushes n (a + 1) (shrunk (a + 1) (grown a cap))

/-- A full 2x2 table holding `1 2 / 3 4`, with no counter attached. -/
def full_2x2 : DynamicTable :=
  { _data := [[1, 2], [3, 4]], _rows := 2, _cols := 2, _row_capacity := 2, _col_capacity := 2,
    _counter := none }

/-- A table of capacity 8x2 holding the three rows `1 2 / 3 4 / 5 6`; removing a row from it
makes the shrink test true. -/
def sparse_3x2 : DynamicTable :=
  { _data := [[1, 2], [3, 4], [5, 6], [0, 0], [0, 0], [0, 0], [0, 0], [0, 0]],
    _rows := 3, _cols := 2, _row_capacity := 8, _col_capacity := 2, _counter := none }

/-- The call `push_row()` made `n` times in a row. -/
def push_rows : Nat → DynamicTable → Option DynamicTable
  | 0, t => some t
  | n + 1, t =>
    match t.push_row with
    | none => none
    | some (_, t') => push_rows n t'

end DynamicTable


namespace DynamicTable

/-- A table with one logical row in a grid of two rows whose second row still holds the values
`8 9` of a row that was popped. -/
def popped_1x2 : DynamicTable :=
  { _data := [[1, 2], [8, 9]], _rows := 1, _cols := 2, _row_capacity := 2, _col_capacity := 2,
    _counter := none }

/-- The number of calls of `reallocate` the counter has recorded: its field `row_resizes`,
which `reallocate` increments once per call and nothing else changes; `none` when no counter is
attached. -/
def reallocations (t : DynamicTable) : Option Nat := t._counter.map (fun k => k.row_resizes)

/-- The full 2x2 table `1 2 / 3 4` with a counter attached, all of whose fields are `0`. -/
def counted_2x2 : DynamicTable :=
  { _data := [[1, 2], [3, 4]], _rows := 2, _cols := 2, _row_capacity := 2, _col_capacity := 2,
    _counter := some ⟨0, 0, 0, 0, 0, 0, 0, 0, 0, 0, 0⟩ }

/-- The table with the counter pointer `_counter` set to `counter`; `with_counter none` is the
table with no counter attached. -/
def with_counter (t : DynamicTable) (counter : Option OperationCounter) : DynamicTable :=
  { t with _counter := counter }

/-- A loop state of `reallocate` (the local `new_data` and the object) with no counter attached
to the object. -/
def detach_state (s : Grid × DynamicTable) : Grid × DynamicTable :=
  (s.1, s.2.with_counter none)

/-- The outcome of a call with the counter taken off the resulting table. -/
def detach_outcome (x : Option (Result Unit × DynamicTable)) :
    Option (Result Unit × DynamicTable) :=
  x.map (fun p => (p.1, p.2.with_counter none))

/-- The call is a `set`: the only operation that stores a value given by the caller. -/
def Op.is_set : Op → Bool
  | Op.set _ _ _ => true
  | _ => false

end DynamicTable

/-- Every cell of the grid reads as the default value. -/
def Grid.AllDefault (d : Grid) : Prop := ∀ r c, d.read r c = DEFAULT_INIT_VALUE

/-- The grid of `C` rows of `R` cells whose cell `(c, r)` is the cell `(r, c)` of `d`. -/
def Grid.transpose (d : Grid) (R C : Nat) : Grid :=
  (List.range C).map (fun c => (List.range R).map (fun r => d.read r c))

namespace DynamicTable

/-- The transposed table: `_rows` and `_cols` swapped, the two capacities swapped, the grid
transposed; the counter pointer is kept. -/
def transpose (t : DynamicTable) : DynamicTable :=
  { _data := t._data.transpose t._row_capacity t._col_capacity,
    _rows := t._cols, _cols := t._rows,
    _row_capacity := t._col_capacity, _col_capacity := t._row_capacity,
    _counter := t._counter }

/-- The outcome of a call with the resulting table transposed. -/
def transpose_outcome (x : Option (Result Unit × DynamicTable)) :
    Option (Result Unit × DynamicTable) :=
  x.map (fun p => (p.1, p.2.transpose))

/-- Two outcomes agree: both calls end, and they end the same way (both return or both throw)
with tables that have the same sizes and capacities and the same value in every logical
cell. -/
def Agree : Option (Result Unit × DynamicTable) → Option (Result Unit × DynamicTable) → Prop
  | some (ra, ta), some (rb, tb) =>
    ra = rb ∧ ta.sizes = tb.sizes ∧
      ∀ r c, r < ta._rows → c < ta._cols → ta.get r c = tb.get r c
  | _, _ => False

/-- A 2x3 table in a 2x4 grid, holding `1 2 3 / 4 5 6`; the slack column holds `7 8`. -/
def wide_2x3 : DynamicTable :=
  { _data := [[1, 2, 3, 7], [4, 5, 6, 8]], _rows := 2, _cols := 3, _row_capacity := 2,
    _col_capacity := 4, _counter := none }

end DynamicTable

namespace DynamicTable

/-- Two tables look the same to a caller: they have the same `_rows`, `_cols`, `_row_capacity`
and `_col_capacity` and the same value in every cell inside the logical bounds.  The cells
outside the logical bounds and the counters may differ. -/
def SameLogical (t u : DynamicTable) : Prop :=
  t.sizes = u.sizes ∧
    ∀ r c, r < t._rows → c < t._cols → t._data.read r c = u._data.read r c

/-- The table `wide_2x3` with other values in the slack column: `0 9` instead of `7 8`. -/
def wide_2x3_slack : DynamicTable :=
  { _data := [[1, 2, 3, 0], [4, 5, 6, 9]], _rows := 2, _cols := 3, _row_capacity := 2,
    _col_capacity := 4, _counter := none }

end DynamicTable

/-- The cell `_data[r][c]` exists: `r` is a row of the storage and `c` a cell of the block of
that row.  Only for such a cell is `Grid.read` the content of a memory cell. -/
def Grid.Allocated (d : Grid) (r c : Nat) : Prop := r < d.length ∧ c < d.width r

/-- The loop `while (new_cap < need) new_cap *= 2;` in the arithmetic of `std::size_t`, taken
64 bits wide: the product wraps modulo `2 ^ 64`.  It is run for at most `fuel` tests of its
condition; `none` when the fuel is used up before the condition turns false. -/
def double_until_size_t : Nat → Nat → Nat → Option Nat
  | 0, _, _ => none
  | fuel + 1, cap, need =>
    if cap < need then double_until_size_t fuel (cap * 2 % 2 ^ 64) need else some cap

namespace DynamicTable

end DynamicTable
/-! ## Loops -/

theorem forRange_induct {σ : Type} (P : Nat → σ → Prop) (n : Nat) (body : Nat → σ → σ) (s : σ)
    (h0 : P 0 s) (hstep : ∀ i x, i < n → P i x → P (i + 1) (body i x)) :
    P n (forRange n body s) := by
  induction n with
  | zero => exact h0
  | succ m ih =>
    exact hstep m _ (Nat.lt_succ_self m)
      (ih (fun i x hi hx => hstep i x (Nat.lt_succ_of_lt hi) hx))

theorem forRange_preserves {σ α : Type} (f : σ → α) (n : Nat) (body : Nat → σ → σ) (s : σ)
    (h : ∀ i x, f (body i x) = f x) : f (forRange n body s) = f s := by
  induction n with
  | zero => rfl
  | succ m ih => exact (h m _).trans ih

/-! ## The doubling loop -/

theorem double_until_spec (fuel cap need c : Nat) (h : double_until fuel cap need = some c) :
    ∃ k, c = cap * 2 ^ k ∧ need ≤ c ∧ ∀ j, j < k → cap * 2 ^ j < need := by
  induction fuel generalizing cap with
  | zero => simp [double_until] at h
  | succ f ih =>
    by_cases hlt : cap < need
    · simp only [double_until, hlt, if_true] at h
      obtain ⟨k, hk, hle, hmin⟩ := ih (cap * 2) h
      refine ⟨k + 1, ?_, hle, ?_⟩
      · rw [hk, pow_succ]; ring
      · intro j hj
        cases j with
        | zero => simpa using hlt
        | succ i =>
          have := hmin i (by omega)
          rw [pow_succ]
          calc cap * (2 ^ i * 2) = cap * 2 * 2 ^ i := by ring
            _ < need := this
    · simp only [double_until, hlt, if_false, Option.some.injEq] at h
      exact ⟨0, by simp [h], by omega, by intro j hj; omega⟩

theorem double_until_terminates (fuel cap need : Nat) (h : need ≤ cap * 2 ^ fuel) :
    ∃ c, double_until (fuel + 1) cap need = some c := by
  induction fuel generalizing cap with
  | zero =>
    have : ¬ cap < need := by simpa using h
    exact ⟨cap, by simp [double_until, this]⟩
  | succ f ih =>
    by_cases hlt : cap < need
    · have h2 : need ≤ cap * 2 * 2 ^ f := by
        calc need ≤ cap * 2 ^ (f + 1) := h
          _ = cap * 2 * 2 ^ f := by rw [pow_succ]; ring
      obtain ⟨c, hc⟩ := ih (cap * 2) h2
      exact ⟨c, by rw [double_until]; simp [hlt, hc]⟩
    · exact ⟨cap, by rw [double_until]; simp [hlt]⟩

theorem double_until_total (cap need : Nat) (hcap : 1 ≤ cap) :
    ∃ c, double_until (need + 1) cap need = some c := by
  apply double_until_terminates
  have h1 : need < 2 ^ need := Nat.lt_two_pow need
  calc need ≤ 1 * 2 ^ need := by omega
    _ ≤ cap * 2 ^ need := Nat.mul_le_mul_right _ hcap

theorem double_until_zero (fuel need : Nat) (h : 0 < need) : double_until fuel 0 need = none := by
  induction fuel with
  | zero => rfl
  | succ f ih => rw [double_until]; simp [h, ih]

namespace DynamicTable

@[simp] theorem sizes_tick (t : DynamicTable) (f : OperationCounter → OperationCounter) :
    (t.tick f).sizes = t.sizes := rfl

@[simp] theorem core_tick (t : DynamicTable) (f : OperationCounter → OperationCounter) :
    (t.tick f).core = t.core := rfl

@[simp] theorem sizes_store (t : DynamicTable) (r c : Nat) (v : Int) :
    (t.store r c v).sizes = t.sizes := rfl

end DynamicTable

/-! ## Storage lemmas -/

namespace Grid

theorem getD_set_row (d : Grid) (i j : Nat) (row : List Int) :
    (d.set i row).getD j [] = if j = i ∧ i < d.length then row else d.getD j [] := by
  simp only [List.getD_eq_getElem?_getD, List.getElem?_set]
  by_cases hij : i = j
  · subst hij
    by_cases hlt : i < d.length
    · simp [hlt]
    · simp [hlt, List.getElem?_eq_none (Nat.le_of_not_lt hlt)]
  · have hji : ¬ j = i := fun h => hij h.symm
    simp [hij, hji]

@[simp] theorem length_write (d : Grid) (r c : Nat) (v : Int) :
    (d.write r c v).length = d.length := by
  simp [write]

@[simp] theorem width_write (d : Grid) (r c : Nat) (v : Int) (r' : Nat) :
    (d.write r c v).width r' = d.width r' := by
  unfold width write
  rw [getD_set_row]
  by_cases h : r' = r ∧ r < d.length
  · rw [if_pos h, h.1, List.length_set]
  · rw [if_neg h]

theorem read_write (d : Grid) (r c : Nat) (v : Int) (r' c' : Nat) :
    (d.write r c v).read r' c' =
      if r' = r ∧ c' = c ∧ r < d.length ∧ c < d.width r then v else d.read r' c' := by
  unfold read write width
  rw [getD_set_row]
  by_cases hr : r' = r ∧ r < d.length
  · obtain ⟨h1, h2⟩ := hr
    subst h1
    simp only [h2, and_self, if_true, true_and, and_true]
    simp only [List.getD_eq_getElem?_getD, List.getElem?_set]
    by_cases hc : c = c'
    · subst hc
      by_cases hlt : c < (d[r']?.getD []).length
      · simp [hlt]
      · simp [hlt, List.getElem?_eq_none (Nat.le_of_not_lt hlt)]
    · have hc' : ¬ c' = c := fun h => hc h.symm
      simp [hc, hc']
  · have : ¬ (r' = r ∧ c' = c ∧ r < d.length ∧ c < (d.getD r []).length) := by
      intro h; exact hr ⟨h.1, h.2.2.1⟩
    rw [if_neg hr, if_neg this]

@[simp] theorem length_alloc_row (d : Grid) (i n : Nat) : (d.alloc_row i n).length = d.length := by
  simp [alloc_row]

theorem width_alloc_row (d : Grid) (i n r : Nat) :
    (d.alloc_row i n).width r = if r = i ∧ i < d.length then n else d.width r := by
  unfold width alloc_row
  rw [getD_set_row]
  by_cases h : r = i ∧ i < d.length <;> simp [h]

theorem read_alloc_row (d : Grid) (i n r c : Nat) :
    (d.alloc_row i n).read r c =
      if r = i ∧ i < d.length then (if c < n then INDETERMINATE else 0) else d.read r c := by
  unfold read alloc_row
  rw [getD_set_row]
  by_cases h : r = i ∧ i < d.length
  · simp only [h, and_self, if_true, List.getD_eq_getElem?_getD, List.getElem?_replicate]
    by_cases hc : c < n <;> simp [hc]
  · simp [h]

theorem width_replicate_nil (R r : Nat) : Grid.width (List.replicate R []) r = 0 := by
  unfold width
  simp only [List.getD_eq_getElem?_getD, List.getElem?_replicate]
  by_cases h : r < R <;> simp [h]

theorem read_replicate_nil (R r c : Nat) : Grid.read (List.replicate R []) r c = 0 := by
  unfold read
  simp only [List.getD_eq_getElem?_getD, List.getElem?_replicate]
  by_cases h : r < R <;> simp [h]

/-- Reading outside the grid gives the default of the model. -/
theorem read_of_width_le (d : Grid) (r c : Nat) (h : d.width r ≤ c) : d.read r c = 0 := by
  unfold read
  unfold width at h
  rw [List.getD_eq_getElem?_getD (d.getD r []), List.getElem?_eq_none h]
  rfl

end Grid

/-! ## Reallocation -/

namespace DynamicTable

theorem clamp_eq_max (n : Nat) : (if n < 1 then 1 else n) = max 1 n := by
  by_cases h : n < 1
  · rw [if_pos h]; omega
  · rw [if_neg h]; omega

/-- The loop that fills row `i` stores the default in each of its `C` cells, whatever the block
held before, and touches no other cell. -/
theorem fill_row_spec (i C : Nat) (s : Grid × DynamicTable) (hi : i < s.1.length)
    (hw : s.1.width i = C) :
    (forRange C
      (fun j s =>
        (s.1.write i j DEFAULT_INIT_VALUE,
          s.2.tick (fun k => { k with element_writes := k.element_writes + 1 })))
      s).2.core = s.2.core ∧
    (forRange C
      (fun j s =>
        (s.1.write i j DEFAULT_INIT_VALUE,
          s.2.tick (fun k => { k with element_writes := k.element_writes + 1 })))
      s).1.length = s.1.length ∧
    (∀ r, (forRange C
      (fun j s =>
        (s.1.write i j DEFAULT_INIT_VALUE,
          s.2.tick (fun k => { k with element_writes := k.element_writes + 1 })))
      s).1.width r = s.1.width r) ∧
    ∀ r c, (forRange C
      (fun j s =>
        (s.1.write i j DEFAULT_INIT_VALUE,
          s.2.tick (fun k => { k with element_writes := k.element_writes + 1 })))
      s).1.read r c = if r = i ∧ c < C then DEFAULT_INIT_VALUE else s.1.read r c := by
  have key := forRange_induct
    (fun j (x : Grid × DynamicTable) =>
      x.2.core = s.2.core ∧ x.1.length = s.1.length ∧ (∀ r, x.1.width r = s.1.width r) ∧
        ∀ r c, x.1.read r c = if r = i ∧ c < j then DEFAULT_INIT_VALUE else s.1.read r c)
    C
    (fun j s =>
      (s.1.write i j DEFAULT_INIT_VALUE,
        s.2.tick (fun k => { k with element_writes := k.element_writes + 1 })))
    s
    ⟨rfl, rfl, fun _ => rfl, fun r c => by rw [if_neg (by omega)]⟩
    (by
      intro j x hj ⟨hc, hl, hwid, hr⟩
      refine ⟨hc, by simpa using hl, fun r => by simpa using hwid r, ?_⟩
      intro r c
      show (x.1.write i j DEFAULT_INIT_VALUE).read r c = _
      rw [Grid.read_write, hr r c]
      by_cases h : r = i ∧ c = j
      · rw [if_pos ⟨h.1, h.2, by omega, by rw [hwid i]; omega⟩, if_pos ⟨h.1, by omega⟩]
      · rw [if_neg (fun h' => h ⟨h'.1, h'.2.1⟩)]
        by_cases h2 : r = i ∧ c < j
        · rw [if_pos h2, if_pos ⟨h2.1, by omega⟩]
        · rw [if_neg h2, if_neg (fun h' => by
            rcases Nat.lt_succ_iff_lt_or_eq.mp h'.2 with h3 | h3
            · exact h2 ⟨h'.1, h3⟩
            · exact h ⟨h'.1, h3⟩)])
  exact key

theorem fill_default_spec (R C : Nat) (t : DynamicTable) :
    (fill_default R C (List.replicate R [], t)).2.core = t.core ∧
    (fill_default R C (List.replicate R [], t)).1.Dim R C ∧
    ∀ r c, (fill_default R C (List.replicate R [], t)).1.read r c = 0 := by
  have key := forRange_induct
    (fun i (s : Grid × DynamicTable) =>
      s.2.core = t.core ∧ s.1.length = R ∧ (∀ r, r < i → s.1.width r = C) ∧
        ∀ r c, s.1.read r c = 0)
    R
    (fun i s =>
      forRange C
        (fun j s =>
          (s.1.write i j DEFAULT_INIT_VALUE,
            s.2.tick (fun k => { k with element_writes := k.element_writes + 1 })))
        (s.1.alloc_row i C, s.2))
    (List.replicate R [], t)
    ⟨rfl, by simp, by intro r hr; omega, fun r c => Grid.read_replicate_nil R r c⟩
    (by
      intro i s hi ⟨hcore, hlen, hwid, hread⟩
      have hil : i < (s.1.alloc_row i C, s.2).1.length := by
        show i < (s.1.alloc_row i C).length
        rw [Grid.length_alloc_row]; omega
      have hiw : (s.1.alloc_row i C, s.2).1.width i = C := by
        show (s.1.alloc_row i C).width i = C
        rw [Grid.width_alloc_row, if_pos ⟨rfl, by omega⟩]
      obtain ⟨f1, f2, f3, f4⟩ := fill_row_spec i C (s.1.alloc_row i C, s.2) hil hiw
      refine ⟨f1.trans hcore, ?_, ?_, ?_⟩
      · rw [f2]
        show (s.1.alloc_row i C).length = R
        rw [Grid.length_alloc_row]; exact hlen
      · intro r hr
        rw [f3 r]
        show (s.1.alloc_row i C).width r = C
        rw [Grid.width_alloc_row]
        by_cases h : r = i ∧ i < s.1.length
        · rw [if_pos h]
        · rw [if_neg h]
          have : r ≠ i := fun e => h ⟨e, by omega⟩
          exact hwid r (by omega)
      · intro r c
        rw [f4 r c]
        by_cases h : r = i ∧ c < C
        · rw [if_pos h]; rfl
        · rw [if_neg h]
          show (s.1.alloc_row i C).read r c = 0
          rw [Grid.read_alloc_row]
          by_cases h2 : r = i ∧ i < s.1.length
          · rw [if_pos h2, if_neg (fun h3 => h ⟨h2.1, h3⟩)]
          · rw [if_neg h2]; exact hread r c)
  exact ⟨key.1, ⟨key.2.1, key.2.2.1⟩, key.2.2.2⟩

theorem copy_cells_spec (R C mr mc : Nat) (g : Grid) (u : DynamicTable)
    (hdim : g.Dim R C) (hzero : ∀ r c, g.read r c = 0) (hmr : mr ≤ R) (hmc : mc ≤ C) :
    (copy_cells mr mc (g, u)).2.core = u.core ∧
    (copy_cells mr mc (g, u)).1.Dim R C ∧
    ∀ r c, (copy_cells mr mc (g, u)).1.read r c =
      if r < mr ∧ c < mc then u._data.read r c else 0 := by
  refine forRange_induct
    (fun i (s : Grid × DynamicTable) =>
      s.2.core = u.core ∧ s.1.Dim R C ∧
        ∀ r c, s.1.read r c = if r < i ∧ c < mc then u._data.read r c else 0)
    mr _ (g, u) ⟨rfl, hdim, ?_⟩ ?_
  · intro r c
    rw [if_neg (by omega)]; exact hzero r c
  · intro i s hi ⟨hcore, hd, hread⟩
    have inner := forRange_induct
      (fun j (x : Grid × DynamicTable) =>
        x.2.core = u.core ∧ x.1.Dim R C ∧
          ∀ r c, x.1.read r c =
            if (r < i ∧ c < mc) ∨ (r = i ∧ c < j) then u._data.read r c else 0)
      mc
      (fun c x =>
        (x.1.write i c (x.2._data.read i c),
          x.2.tick (fun k => { k with element_assignments := k.element_assignments + 1 })))
      s
      ⟨hcore, hd, by
        intro r c
        rw [hread r c]
        by_cases h : r < i ∧ c < mc
        · rw [if_pos h, if_pos (Or.inl h)]
        · rw [if_neg h, if_neg (by intro h'; rcases h' with h' | h'; exact h h'; omega)]⟩
      (by
        intro j x hj ⟨hc, hdx, hr⟩
        refine ⟨hc, ⟨by simpa using hdx.1, fun r h => by simpa using hdx.2 r h⟩, ?_⟩
        intro r c
        show (x.1.write i j (x.2._data.read i j)).read r c = _
        have hdat : x.2._data = u._data := congrArg Prod.fst hc
        rw [Grid.read_write, hdat, hdx.1, hdx.2 i (by omega), hr r c]
        by_cases h1 : r = i ∧ c = j ∧ i < R ∧ j < C
        · obtain ⟨e1, e2, _, _⟩ := h1
          subst e1; subst e2
          rw [if_pos (by omega), if_pos (Or.inr ⟨rfl, Nat.lt_succ_self _⟩)]
        · rw [if_neg h1]
          by_cases h2 : (r < i ∧ c < mc) ∨ (r = i ∧ c < j)
          · rw [if_pos h2, if_pos (by rcases h2 with h | h; exact Or.inl h; exact Or.inr ⟨h.1, by omega⟩)]
          · rw [if_neg h2, if_neg]
            intro h3
            rcases h3 with h | h
            · exact h2 (Or.inl h)
            · apply h2
              right
              refine ⟨h.1, ?_⟩
              by_contra hcj
              exact h1 ⟨h.1, by omega, by omega, by omega⟩)
    refine ⟨inner.1, inner.2.1, ?_⟩
    intro r c
    rw [inner.2.2 r c]
    by_cases h : r < i + 1 ∧ c < mc
    · rw [if_pos h, if_pos (by omega)]
    · rw [if_neg h, if_neg (by omega)]

theorem reallocate_core (t : DynamicTable) (R C : Nat) :
    (t.reallocate R C)._rows = t._rows ∧ (t.reallocate R C)._cols = t._cols ∧
    (t.reallocate R C)._row_capacity = max 1 R ∧ (t.reallocate R C)._col_capacity = max 1 C ∧
    (t.reallocate R C)._data.Dim (max 1 R) (max 1 C) ∧
    ∀ r c, (t.reallocate R C)._data.read r c =
      if r < min t._rows (max 1 R) ∧ c < min t._cols (max 1 C) then t._data.read r c else 0 := by
  unfold reallocate
  simp only [clamp_eq_max]
  obtain ⟨hf1, hf2, hf3⟩ := fill_default_spec (max 1 R) (max 1 C) t
  generalize fill_default (max 1 R) (max 1 C) (List.replicate (max 1 R) [], t) = s1 at hf1 hf2 hf3
  obtain ⟨g1, u1⟩ := s1
  have hrows : u1._rows = t._rows := congrArg (fun x => x.2.1) hf1
  have hcols : u1._cols = t._cols := congrArg (fun x => x.2.2.1) hf1
  have hdat : u1._data = t._data := congrArg (fun x => x.1) hf1
  obtain ⟨hc1, hc2, hc3⟩ := copy_cells_spec (max 1 R) (max 1 C)
    (min u1._rows (max 1 R)) (min u1._cols (max 1 C)) g1 u1 hf2 hf3
    (Nat.min_le_right _ _) (Nat.min_le_right _ _)
  generalize copy_cells (min u1._rows (max 1 R)) (min u1._cols (max 1 C)) (g1, u1) = s2
    at hc1 hc2 hc3
  obtain ⟨g2, u2⟩ := s2
  have hrows2 : u2._rows = u1._rows := congrArg (fun x => x.2.1) hc1
  have hcols2 : u2._cols = u1._cols := congrArg (fun x => x.2.2.1) hc1
  refine ⟨hrows2.trans hrows, hcols2.trans hcols, trivial, trivial, hc2, ?_⟩
  intro r c
  show g2.read r c = _
  rw [hc3 r c, hdat, hrows, hcols]

end DynamicTable

/-! ## Frames of the loops -/

namespace DynamicTable

@[simp] theorem frame_tick (t : DynamicTable) (f : OperationCounter → OperationCounter) :
    (t.tick f).frame = t.frame := rfl

@[simp] theorem frame_store (t : DynamicTable) (r c : Nat) (v : Int) :
    (t.store r c v).frame = t.frame := by
  unfold frame store
  have h : (t._data.write r c v).width = t._data.width := funext (Grid.width_write _ r c v)
  simp only [Grid.length_write, h]
  rfl

theorem init_row_frame (t : DynamicTable) (r : Nat) : (t.init_row r).frame = t.frame :=
  forRange_preserves frame _ _ t (fun _ x => by simp)

theorem copy_row_frame (t : DynamicTable) (dst src : Nat) :
    (t.copy_row dst src).frame = t.frame :=
  forRange_preserves frame _ _ t (fun _ x => by simp)

theorem count_destroys_core (t : DynamicTable) (n : Nat) : (t.count_destroys n).core = t.core :=
  forRange_preserves core _ _ t (fun _ x => by simp)

theorem frame_of_core {t u : DynamicTable} (h : t.core = u.core) : t.frame = u.frame := by
  obtain ⟨d, r, c, rc, cc, k⟩ := t
  obtain ⟨d', r', c', rc', cc', k'⟩ := u
  simp only [core, Prod.mk.injEq] at h
  obtain ⟨h1, h2, h3, h4, h5⟩ := h
  subst h1 h2 h3 h4 h5
  rfl

theorem frame_rows {t u : DynamicTable} (h : t.frame = u.frame) : t._rows = u._rows :=
  congrArg (fun x => x.1.1) h

theorem frame_cols {t u : DynamicTable} (h : t.frame = u.frame) : t._cols = u._cols :=
  congrArg (fun x => x.1.2.1) h

theorem frame_row_capacity {t u : DynamicTable} (h : t.frame = u.frame) :
    t._row_capacity = u._row_capacity :=
  congrArg (fun x => x.1.2.2.1) h

theorem frame_col_capacity {t u : DynamicTable} (h : t.frame = u.frame) :
    t._col_capacity = u._col_capacity :=
  congrArg (fun x => x.1.2.2.2) h

theorem frame_length {t u : DynamicTable} (h : t.frame = u.frame) :
    t._data.length = u._data.length :=
  congrArg (fun x => x.2.1) h

theorem frame_width {t u : DynamicTable} (h : t.frame = u.frame) (r : Nat) :
    t._data.width r = u._data.width r :=
  congrFun (congrArg (fun x => x.2.2) h) r

theorem WF_of_frame {t u : DynamicTable} (h : t.frame = u.frame) (hu : u.WF) : t.WF where
  rows_le := by rw [frame_rows h, frame_row_capacity h]; exact hu.rows_le
  cols_le := by rw [frame_cols h, frame_col_capacity h]; exact hu.cols_le
  row_cap_pos := by rw [frame_row_capacity h]; exact hu.row_cap_pos
  col_cap_pos := by rw [frame_col_capacity h]; exact hu.col_cap_pos
  dim := by
    refine ⟨?_, ?_⟩
    · rw [frame_length h, frame_row_capacity h]; exact hu.dim.1
    · intro r hr
      rw [frame_width h, frame_col_capacity h]
      rw [frame_row_capacity h] at hr
      exact hu.dim.2 r hr

end DynamicTable

/-! ## Sizes after each step of an operation -/

namespace DynamicTable

theorem sizes_of_frame {t u : DynamicTable} (h : t.frame = u.frame) : t.sizes = u.sizes :=
  congrArg Prod.fst h

theorem sizes_of_core {t u : DynamicTable} (h : t.core = u.core) : t.sizes = u.sizes :=
  sizes_of_frame (frame_of_core h)

theorem reallocate_sizes (t : DynamicTable) (R C : Nat) :
    (t.reallocate R C).sizes = (t._rows, t._cols, max 1 R, max 1 C) := by
  obtain ⟨h1, h2, h3, h4, _⟩ := reallocate_core t R C
  unfold sizes
  rw [h1, h2, h3, h4]

theorem shrink_rows_sizes (t : DynamicTable) (hc : 1 ≤ t._col_capacity) :
    t.shrink_rows.sizes = (t._rows, t._cols, shrunk t._rows t._row_capacity, t._col_capacity) := by
  unfold shrink_rows shrunk
  by_cases h : t._rows ≤ t._row_capacity / 4 ∧ t._row_capacity > 1
  · rw [if_pos h, if_pos h, reallocate_sizes, Nat.max_eq_right hc]
    simp
  · rw [if_neg h, if_neg h]; rfl

theorem shrink_cols_sizes (t : DynamicTable) (hr : 1 ≤ t._row_capacity) :
    t.shrink_cols.sizes = (t._rows, t._cols, t._row_capacity, shrunk t._cols t._col_capacity) := by
  unfold shrink_cols shrunk
  by_cases h : t._cols ≤ t._col_capacity / 4 ∧ t._col_capacity > 1
  · rw [if_pos h, if_pos h, reallocate_sizes, Nat.max_eq_right hr]
    simp
  · rw [if_neg h, if_neg h]; rfl

/-- The result of `ensure_row_capacity_for`: the loop ends when the capacity is positive, and the
new capacity is the first of `cap, 2 cap, 4 cap, ...` that reaches `n`. -/
theorem ensure_row_capacity_for_spec (t : DynamicTable) (n : Nat) (h : 1 ≤ t._row_capacity) :
    ∃ t1, t.ensure_row_capacity_for n = some t1 ∧
      ((n ≤ t._row_capacity ∧ t1 = t) ∨
        (t._row_capacity < n ∧ ∃ k, (∀ j, j < k → t._row_capacity * 2 ^ j < n) ∧
          n ≤ t._row_capacity * 2 ^ k ∧
          t1 = t.reallocate (t._row_capacity * 2 ^ k) t._col_capacity)) := by
  unfold ensure_row_capacity_for
  by_cases hn : n ≤ t._row_capacity
  · exact ⟨t, by rw [if_pos hn], Or.inl ⟨hn, rfl⟩⟩
  · obtain ⟨c, hc⟩ := double_until_total t._row_capacity n h
    obtain ⟨k, hk, hle, hmin⟩ := double_until_spec _ _ _ _ hc
    refine ⟨t.reallocate c t._col_capacity, by rw [if_neg hn, hc], Or.inr ⟨by omega, k, hmin, ?_, ?_⟩⟩
    · rw [← hk]; exact hle
    · rw [hk]

theorem ensure_col_capacity_for_spec (t : DynamicTable) (n : Nat) (h : 1 ≤ t._col_capacity) :
    ∃ t1, t.ensure_col_capacity_for n = some t1 ∧
      ((n ≤ t._col_capacity ∧ t1 = t) ∨
        (t._col_capacity < n ∧ ∃ k, (∀ j, j < k → t._col_capacity * 2 ^ j < n) ∧
          n ≤ t._col_capacity * 2 ^ k ∧
          t1 = t.reallocate t._row_capacity (t._col_capacity * 2 ^ k))) := by
  unfold ensure_col_capacity_for
  by_cases hn : n ≤ t._col_capacity
  · exact ⟨t, by rw [if_pos hn], Or.inl ⟨hn, rfl⟩⟩
  · obtain ⟨c, hc⟩ := double_until_total t._col_capacity n h
    obtain ⟨k, hk, hle, hmin⟩ := double_until_spec _ _ _ _ hc
    refine ⟨t.reallocate t._row_capacity c, by rw [if_neg hn, hc], Or.inr ⟨by omega, k, hmin, ?_, ?_⟩⟩
    · rw [← hk]; exact hle
    · rw [hk]

/-- Growing for one more element: the exponent of the doubling is `1`. -/
theorem one_doubling (cap n k : Nat) (hcap : 1 ≤ cap) (hn : n = cap + 1)
    (hmin : ∀ j, j < k → cap * 2 ^ j < n) (hle : n ≤ cap * 2 ^ k) : cap * 2 ^ k = 2 * cap := by
  have hk1 : k = 1 := by
    rcases Nat.lt_trichotomy k 1 with h | h | h
    · have : k = 0 := by omega
      subst this
      simp at hle
      omega
    · exact h
    · have := hmin 1 h
      simp at this
      omega
  subst hk1
  simp [Nat.mul_comm]

/-- The step `ensure_row_capacity_for(_rows + 1)` of `push_row` and `insert_row_at`. -/
theorem ensure_row_next (t : DynamicTable) (h1 : 1 ≤ t._row_capacity)
    (h2 : t._rows ≤ t._row_capacity) :
    ∃ t1, t.ensure_row_capacity_for (t._rows + 1) = some t1 ∧
      ((t._rows + 1 ≤ t._row_capacity ∧ t1 = t) ∨
        (t._rows = t._row_capacity ∧
          t1 = t.reallocate (2 * t._row_capacity) t._col_capacity)) := by
  obtain ⟨t1, he, hcase⟩ := ensure_row_capacity_for_spec t (t._rows + 1) h1
  refine ⟨t1, he, ?_⟩
  rcases hcase with ⟨hle, rfl⟩ | ⟨hlt, k, hmin, hle, rfl⟩
  · exact Or.inl ⟨hle, rfl⟩
  · have heq : t._rows = t._row_capacity := by omega
    rw [one_doubling t._row_capacity (t._rows + 1) k h1 (by omega) hmin hle]
    exact Or.inr ⟨heq, rfl⟩

/-- The step `ensure_col_capacity_for(_cols + 1)` of `push_col` and `insert_col_at`. -/
theorem ensure_col_next (t : DynamicTable) (h1 : 1 ≤ t._col_capacity)
    (h2 : t._cols ≤ t._col_capacity) :
    ∃ t1, t.ensure_col_capacity_for (t._cols + 1) = some t1 ∧
      ((t._cols + 1 ≤ t._col_capacity ∧ t1 = t) ∨
        (t._cols = t._col_capacity ∧
          t1 = t.reallocate t._row_capacity (2 * t._col_capacity))) := by
  obtain ⟨t1, he, hcase⟩ := ensure_col_capacity_for_spec t (t._cols + 1) h1
  refine ⟨t1, he, ?_⟩
  rcases hcase with ⟨hle, rfl⟩ | ⟨hlt, k, hmin, hle, rfl⟩
  · exact Or.inl ⟨hle, rfl⟩
  · have heq : t._cols = t._col_capacity := by omega
    rw [one_doubling t._col_capacity (t._cols + 1) k h1 (by omega) hmin hle]
    exact Or.inr ⟨heq, rfl⟩

theorem ensure_row_next_sizes (t : DynamicTable) (hinv : t.Inv) :
    ∃ t1, t.ensure_row_capacity_for (t._rows + 1) = some t1 ∧
      t1.sizes = (t._rows, t._cols, grown t._rows t._row_capacity, t._col_capacity) := by
  obtain ⟨t1, he, hcase⟩ := ensure_row_next t hinv.row_cap_pos hinv.rows_le
  refine ⟨t1, he, ?_⟩
  unfold grown
  rcases hcase with ⟨hle, rfl⟩ | ⟨heq, rfl⟩
  · rw [if_pos hle]; rfl
  · rw [if_neg (by omega), reallocate_sizes, Nat.max_eq_right hinv.col_cap_pos,
      Nat.max_eq_right (by have := hinv.row_cap_pos; omega)]

theorem ensure_col_next_sizes (t : DynamicTable) (hinv : t.Inv) :
    ∃ t1, t.ensure_col_capacity_for (t._cols + 1) = some t1 ∧
      t1.sizes = (t._rows, t._cols, t._row_capacity, grown t._cols t._col_capacity) := by
  obtain ⟨t1, he, hcase⟩ := ensure_col_next t hinv.col_cap_pos hinv.cols_le
  refine ⟨t1, he, ?_⟩
  unfold grown
  rcases hcase with ⟨hle, rfl⟩ | ⟨heq, rfl⟩
  · rw [if_pos hle]; rfl
  · rw [if_neg (by omega), reallocate_sizes, Nat.max_eq_right hinv.row_cap_pos,
      Nat.max_eq_right (by have := hinv.col_cap_pos; omega)]

end DynamicTable

/-! ## Sizes after each operation -/

namespace DynamicTable

theorem sizes_fields {t : DynamicTable} {a b c d : Nat} (h : t.sizes = (a, b, c, d)) :
    t._rows = a ∧ t._cols = b ∧ t._row_capacity = c ∧ t._col_capacity = d := by
  unfold sizes at h
  simp only [Prod.mk.injEq] at h
  exact h

theorem push_col_loop_frame (t : DynamicTable) :
    (forRange t._row_capacity
      (fun r s =>
        (s.store r s._cols DEFAULT_INIT_VALUE).tick
          (fun k => { k with element_writes := k.element_writes + 1 }))
      t).frame = t.frame :=
  forRange_preserves frame _ _ t (fun _ x => by simp)

theorem insert_col_loop_frame (t : DynamicTable) (idx : Nat) :
    (forRange t._row_capacity
      (fun r s =>
        let s1 := forRange (s._cols - idx)
          (fun m s =>
            (s.store r (s._cols - m) (s._data.read r (s._cols - m - 1))).tick
              (fun k => { k with element_assignments := k.element_assignments + 1 }))
          s
        (s1.store r idx DEFAULT_INIT_VALUE).tick
          (fun k => { k with element_writes := k.element_writes + 1 }))
      t).frame = t.frame :=
  forRange_preserves frame _ _ t (fun r x => by
    simp only [frame_tick, frame_store]
    exact forRange_preserves frame _ _ x (fun _ y => by simp))

theorem remove_col_loop_frame (t : DynamicTable) (idx : Nat) :
    (forRange t._row_capacity
      (fun r s =>
        let s1 := forRange (s._cols - 1 - idx)
          (fun m s =>
            (s.store r (idx + m) (s._data.read r (idx + m + 1))).tick
              (fun k => { k with element_assignments := k.element_assignments + 1 }))
          s
        s1.tick (fun k => { k with element_destroys := k.element_destroys + 1 }))
      t).frame = t.frame :=
  forRange_preserves frame _ _ t (fun r x => by
    simp only [frame_tick]
    exact forRange_preserves frame _ _ x (fun _ y => by simp))

theorem shift_down_frame (t : DynamicTable) (n : Nat) :
    (forRange n (fun m s => s.copy_row (s._rows - m) (s._rows - m - 1)) t).frame = t.frame :=
  forRange_preserves frame _ _ t (fun _ x => copy_row_frame x _ _)

theorem shift_up_frame (t : DynamicTable) (idx n : Nat) :
    (forRange n (fun m s => s.copy_row (idx + m) (idx + m + 1)) t).frame = t.frame :=
  forRange_preserves frame _ _ t (fun _ x => copy_row_frame x _ _)

theorem push_row_sizes (t : DynamicTable) (hinv : t.Inv) :
    ∃ t', t.push_row = some (Result.ok (), t') ∧
      t'.sizes = (t._rows + 1, t._cols,
        shrunk (t._rows + 1) (grown t._rows t._row_capacity), t._col_capacity) := by
  obtain ⟨t1, he, hs⟩ := ensure_row_next_sizes t hinv
  obtain ⟨h1, h2, h3, h4⟩ := sizes_fields hs
  obtain ⟨f1, f2, f3, f4⟩ := sizes_fields ((sizes_of_frame (init_row_frame t1 t1._rows)).trans hs)
  refine ⟨_, by unfold push_row; rw [he], ?_⟩
  rw [shrink_rows_sizes _ (by show 1 ≤ (t1.init_row t1._rows)._col_capacity; rw [f4]; exact hinv.col_cap_pos)]
  show ((t1.init_row t1._rows)._rows + 1, (t1.init_row t1._rows)._cols,
    shrunk ((t1.init_row t1._rows)._rows + 1) (t1.init_row t1._rows)._row_capacity,
    (t1.init_row t1._rows)._col_capacity) = _
  rw [f1, f2, f3, f4]

theorem insert_row_at_sizes (t : DynamicTable) (hinv : t.Inv) (idx : Nat) (hidx : idx ≤ t._rows) :
    ∃ t', t.insert_row_at idx = some (Result.ok (), t') ∧
      t'.sizes = (t._rows + 1, t._cols,
        shrunk (t._rows + 1) (grown t._rows t._row_capacity), t._col_capacity) := by
  obtain ⟨t1, he, hs⟩ := ensure_row_next_sizes t hinv
  have hfr := (init_row_frame (forRange (t1._rows - idx)
    (fun m s => s.copy_row (s._rows - m) (s._rows - m - 1)) t1) idx).trans
      (shift_down_frame t1 (t1._rows - idx))
  generalize hu : (forRange (t1._rows - idx)
    (fun m s => s.copy_row (s._rows - m) (s._rows - m - 1)) t1).init_row idx = u at hfr
  obtain ⟨f1, f2, f3, f4⟩ := sizes_fields ((sizes_of_frame hfr).trans hs)
  refine ⟨_, by unfold insert_row_at; rw [if_neg (by omega), he], ?_⟩
  simp only [hu]
  rw [shrink_rows_sizes _ (by show 1 ≤ u._col_capacity; rw [f4]; exact hinv.col_cap_pos)]
  show (u._rows + 1, u._cols, shrunk (u._rows + 1) u._row_capacity, u._col_capacity) = _
  rw [f1, f2, f3, f4]

theorem pop_row_sizes (t : DynamicTable) (hinv : t.Inv) (hpos : t._rows ≠ 0) :
    ∃ t', t.pop_row = some (Result.ok (), t') ∧
      t'.sizes = (t._rows - 1, t._cols, shrunk (t._rows - 1) t._row_capacity, t._col_capacity) := by
  have hs := sizes_of_core (count_destroys_core t t._col_capacity)
  generalize hu : t.count_destroys t._col_capacity = u at hs
  obtain ⟨f1, f2, f3, f4⟩ := sizes_fields hs
  refine ⟨_, by unfold pop_row; rw [if_neg hpos], ?_⟩
  simp only [hu]
  rw [shrink_rows_sizes _ (by show 1 ≤ u._col_capacity; rw [f4]; exact hinv.col_cap_pos)]
  show (u._rows - 1, u._cols, shrunk (u._rows - 1) u._row_capacity, u._col_capacity) = _
  rw [f1, f2, f3, f4]

theorem remove_row_at_sizes (t : DynamicTable) (hinv : t.Inv) (idx : Nat) (hidx : idx < t._rows) :
    ∃ t', t.remove_row_at idx = some (Result.ok (), t') ∧
      t'.sizes = (t._rows - 1, t._cols, shrunk (t._rows - 1) t._row_capacity, t._col_capacity) := by
  have hs1 := sizes_of_frame (shift_up_frame t idx (t._rows - 1 - idx))
  generalize hu1 : forRange (t._rows - 1 - idx)
    (fun m s => s.copy_row (idx + m) (idx + m + 1)) t = u1 at hs1
  have hs := (sizes_of_core (count_destroys_core u1 u1._col_capacity)).trans hs1
  generalize hu : u1.count_destroys u1._col_capacity = u at hs
  obtain ⟨f1, f2, f3, f4⟩ := sizes_fields hs
  refine ⟨_, by unfold remove_row_at; rw [if_neg (by omega)], ?_⟩
  simp only [hu1, hu]
  rw [shrink_rows_sizes _ (by show 1 ≤ u._col_capacity; rw [f4]; exact hinv.col_cap_pos)]
  show (u._rows - 1, u._cols, shrunk (u._rows - 1) u._row_capacity, u._col_capacity) = _
  rw [f1, f2, f3, f4]

theorem push_col_sizes (t : DynamicTable) (hinv : t.Inv) :
    ∃ t', t.push_col = some (Result.ok (), t') ∧
      t'.sizes = (t._rows, t._cols + 1, t._row_capacity,
        shrunk (t._cols + 1) (grown t._cols t._col_capacity)) := by
  obtain ⟨t1, he, hs⟩ := ensure_col_next_sizes t hinv
  have hfr := (sizes_of_frame (push_col_loop_frame t1)).trans hs
  generalize hu : forRange t1._row_capacity
      (fun r s =>
        (s.store r s._cols DEFAULT_INIT_VALUE).tick
          (fun k => { k with element_writes := k.element_writes + 1 }))
      t1 = u at hfr
  obtain ⟨f1, f2, f3, f4⟩ := sizes_fields hfr
  refine ⟨_, by unfold push_col; rw [he], ?_⟩
  simp only [hu]
  rw [shrink_cols_sizes _ (by show 1 ≤ u._row_capacity; rw [f3]; exact hinv.row_cap_pos)]
  show (u._rows, u._cols + 1, u._row_capacity, shrunk (u._cols + 1) u._col_capacity) = _
  rw [f1, f2, f3, f4]

theorem insert_col_at_sizes (t : DynamicTable) (hinv : t.Inv) (idx : Nat) (hidx : idx ≤ t._cols) :
    ∃ t', t.insert_col_at idx = some (Result.ok (), t') ∧
      t'.sizes = (t._rows, t._cols + 1, t._row_capacity,
        shrunk (t._cols + 1) (grown t._cols t._col_capacity)) := by
  obtain ⟨t1, he, hs⟩ := ensure_col_next_sizes t hinv
  have hfr := (sizes_of_frame (insert_col_loop_frame t1 idx)).trans hs
  simp only at hfr
  generalize hu : forRange t1._row_capacity
      (fun r s =>
        ((forRange (s._cols - idx)
          (fun m s =>
            (s.store r (s._cols - m) (s._data.read r (s._cols - m - 1))).tick
              (fun k => { k with element_assignments := k.element_assignments + 1 }))
          s).store r idx DEFAULT_INIT_VALUE).tick
          (fun k => { k with element_writes := k.element_writes + 1 }))
      t1 = u at hfr
  obtain ⟨f1, f2, f3, f4⟩ := sizes_fields hfr
  refine ⟨_, by unfold insert_col_at; rw [if_neg (by omega), he], ?_⟩
  simp only [hu]
  rw [shrink_cols_sizes _ (by show 1 ≤ u._row_capacity; rw [f3]; exact hinv.row_cap_pos)]
  show (u._rows, u._cols + 1, u._row_capacity, shrunk (u._cols + 1) u._col_capacity) = _
  rw [f1, f2, f3, f4]

theorem pop_col_sizes (t : DynamicTable) (hinv : t.Inv) (hpos : t._cols ≠ 0) :
    ∃ t', t.pop_col = some (Result.ok (), t') ∧
      t'.sizes = (t._rows, t._cols - 1, t._row_capacity, shrunk (t._cols - 1) t._col_capacity) := by
  have hs := sizes_of_core (count_destroys_core t t._row_capacity)
  generalize hu : t.count_destroys t._row_capacity = u at hs
  obtain ⟨f1, f2, f3, f4⟩ := sizes_fields hs
  refine ⟨_, by unfold pop_col; rw [if_neg hpos], ?_⟩
  simp only [hu]
  rw [shrink_cols_sizes _ (by show 1 ≤ u._row_capacity; rw [f3]; exact hinv.row_cap_pos)]
  show (u._rows, u._cols - 1, u._row_capacity, shrunk (u._cols - 1) u._col_capacity) = _
  rw [f1, f2, f3, f4]

theorem remove_col_at_sizes (t : DynamicTable) (hinv : t.Inv) (idx : Nat) (hidx : idx < t._cols) :
    ∃ t', t.remove_col_at idx = some (Result.ok (), t') ∧
      t'.sizes = (t._rows, t._cols - 1, t._row_capacity, shrunk (t._cols - 1) t._col_capacity) := by
  have hs := sizes_of_frame (remove_col_loop_frame t idx)
  simp only at hs
  generalize hu : forRange t._row_capacity
      (fun r s =>
        (forRange (s._cols - 1 - idx)
          (fun m s =>
            (s.store r (idx + m) (s._data.read r (idx + m + 1))).tick
              (fun k => { k with element_assignments := k.element_assignments + 1 }))
          s).tick (fun k => { k with element_destroys := k.element_destroys + 1 }))
      t = u at hs
  obtain ⟨f1, f2, f3, f4⟩ := sizes_fields hs
  refine ⟨_, by unfold remove_col_at; rw [if_neg (by omega)], ?_⟩
  simp only [hu]
  rw [shrink_cols_sizes _ (by show 1 ≤ u._row_capacity; rw [f3]; exact hinv.row_cap_pos)]
  show (u._rows, u._cols - 1, u._row_capacity, shrunk (u._cols - 1) u._col_capacity) = _
  rw [f1, f2, f3, f4]

end DynamicTable

/-! ## The size invariants -/

namespace DynamicTable

theorem Inv_of_sizes {t : DynamicTable} {a b c d : Nat} (h : t.sizes = (a, b, c, d))
    (h1 : a ≤ c) (h2 : b ≤ d) (h3 : 1 ≤ c) (h4 : 1 ≤ d) : t.Inv := by
  obtain ⟨f1, f2, f3, f4⟩ := sizes_fields h
  exact ⟨by omega, by omega, by omega, by omega⟩

theorem le_shrunk (n cap : Nat) (h : n ≤ cap) : n ≤ shrunk n cap := by
  unfold shrunk
  by_cases hc : n ≤ cap / 4 ∧ cap > 1
  · rw [if_pos hc]; omega
  · rw [if_neg hc]; exact h

theorem one_le_shrunk (n cap : Nat) (h : 1 ≤ cap) : 1 ≤ shrunk n cap := by
  unfold shrunk
  by_cases hc : n ≤ cap / 4 ∧ cap > 1
  · rw [if_pos hc]; omega
  · rw [if_neg hc]; exact h

theorem succ_le_grown (n cap : Nat) (h : n ≤ cap) (hc : 1 ≤ cap) : n + 1 ≤ grown n cap := by
  unfold grown
  by_cases hle : n + 1 ≤ cap
  · rw [if_pos hle]; exact hle
  · rw [if_neg hle]; omega

theorem one_le_grown (n cap : Nat) (hc : 1 ≤ cap) : 1 ≤ grown n cap := by
  unfold grown
  by_cases hle : n + 1 ≤ cap
  · rw [if_pos hle]; exact hc
  · rw [if_neg hle]; omega

theorem fill_default_fresh (t0 : DynamicTable) (R C : Nat) :
    ({ (fill_default R C (List.replicate R [], t0)).2 with
        _data := (fill_default R C (List.replicate R [], t0)).1 } : DynamicTable).sizes
      = t0.sizes ∧
    (fill_default R C (List.replicate R [], t0)).1.Dim R C ∧
    ∀ r c, (fill_default R C (List.replicate R [], t0)).1.read r c = 0 := by
  obtain ⟨h1, h2, h3⟩ := fill_default_spec R C t0
  have hs : (fill_default R C (List.replicate R [], t0)).2.sizes = t0.sizes := sizes_of_core h1
  exact ⟨hs, h2, h3⟩

theorem new_core (k : Option OperationCounter) (ir ic : Nat) :
    (new k ir ic).sizes = (0, 0, max 1 ir, max 1 ic) ∧
    (new k ir ic)._data.Dim (max 1 ir) (max 1 ic) ∧
    ∀ r c, (new k ir ic)._data.read r c = 0 :=
  fill_default_fresh
    { _data := [], _rows := 0, _cols := 0, _row_capacity := max 1 ir,
      _col_capacity := max 1 ic, _counter := k }
    (max 1 ir) (max 1 ic)

theorem new_Inv (k : Option OperationCounter) (ir ic : Nat) : (new k ir ic).Inv :=
  Inv_of_sizes (new_core k ir ic).1 (Nat.zero_le _) (Nat.zero_le _)
    (Nat.le_max_left _ _) (Nat.le_max_left _ _)

theorem set_sizes (t : DynamicTable) (r c : Nat) (v : Int) :
    ∃ res t', t.set r c v = some (res, t') ∧ t'.sizes = t.sizes := by
  unfold set
  by_cases h : r ≥ t._rows ∨ c ≥ t._cols
  · exact ⟨Result.out_of_range, t, by rw [if_pos h], rfl⟩
  · refine ⟨Result.ok (),
      (t.store r c v).tick (fun k => { k with element_writes := k.element_writes + 1 }), ?_, rfl⟩
    rw [if_neg h]

/-- Every call ends, and it keeps the size invariants. -/
theorem apply_Inv (t : DynamicTable) (op : Op) (hinv : t.Inv) :
    ∃ res t', t.apply op = some (res, t') ∧ t'.Inv := by
  have hr := hinv.rows_le
  have hc := hinv.cols_le
  have hrp := hinv.row_cap_pos
  have hcp := hinv.col_cap_pos
  cases op with
  | push_row =>
    obtain ⟨t', h, hs⟩ := push_row_sizes t hinv
    exact ⟨_, t', h, Inv_of_sizes hs
      (le_shrunk _ _ (succ_le_grown _ _ hr hrp)) hc
      (one_le_shrunk _ _ (one_le_grown _ _ hrp)) hcp⟩
  | insert_row_at idx =>
    by_cases hidx : idx ≤ t._rows
    · obtain ⟨t', h, hs⟩ := insert_row_at_sizes t hinv idx hidx
      exact ⟨_, t', h, Inv_of_sizes hs
        (le_shrunk _ _ (succ_le_grown _ _ hr hrp)) hc
        (one_le_shrunk _ _ (one_le_grown _ _ hrp)) hcp⟩
    · exact ⟨Result.out_of_range, t, by
        show t.insert_row_at idx = _
        unfold insert_row_at; rw [if_pos (by omega)], hinv⟩
  | pop_row =>
    by_cases hpos : t._rows = 0
    · exact ⟨Result.out_of_range, t, by
        show t.pop_row = _
        unfold pop_row; rw [if_pos hpos], hinv⟩
    · obtain ⟨t', h, hs⟩ := pop_row_sizes t hinv hpos
      exact ⟨_, t', h, Inv_of_sizes hs (le_shrunk _ _ (by omega)) hc
        (one_le_shrunk _ _ hrp) hcp⟩
  | remove_row_at idx =>
    by_cases hidx : idx < t._rows
    · obtain ⟨t', h, hs⟩ := remove_row_at_sizes t hinv idx hidx
      exact ⟨_, t', h, Inv_of_sizes hs (le_shrunk _ _ (by omega)) hc
        (one_le_shrunk _ _ hrp) hcp⟩
    · exact ⟨Result.out_of_range, t, by
        show t.remove_row_at idx = _
        unfold remove_row_at; rw [if_pos (by omega)], hinv⟩
  | push_col =>
    obtain ⟨t', h, hs⟩ := push_col_sizes t hinv
    exact ⟨_, t', h, Inv_of_sizes hs hr
      (le_shrunk _ _ (succ_le_grown _ _ hc hcp)) hrp
      (one_le_shrunk _ _ (one_le_grown _ _ hcp))⟩
  | insert_col_at idx =>
    by_cases hidx : idx ≤ t._cols
    · obtain ⟨t', h, hs⟩ := insert_col_at_sizes t hinv idx hidx
      exact ⟨_, t', h, Inv_of_sizes hs hr
        (le_shrunk _ _ (succ_le_grown _ _ hc hcp)) hrp
        (one_le_shrunk _ _ (one_le_grown _ _ hcp))⟩
    · exact ⟨Result.out_of_range, t, by
        show t.insert_col_at idx = _
        unfold insert_col_at; rw [if_pos (by omega)], hinv⟩
  | pop_col =>
    by_cases hpos : t._cols = 0
    · exact ⟨Result.out_of_range, t, by
        show t.pop_col = _
        unfold pop_col; rw [if_pos hpos], hinv⟩
    · obtain ⟨t', h, hs⟩ := pop_col_sizes t hinv hpos
      exact ⟨_, t', h, Inv_of_sizes hs hr (le_shrunk _ _ (by omega)) hrp
        (one_le_shrunk _ _ hcp)⟩
  | remove_col_at idx =>
    by_cases hidx : idx < t._cols
    · obtain ⟨t', h, hs⟩ := remove_col_at_sizes t hinv idx hidx
      exact ⟨_, t', h, Inv_of_sizes hs hr (le_shrunk _ _ (by omega)) hrp
        (one_le_shrunk _ _ hcp)⟩
    · exact ⟨Result.out_of_range, t, by
        show t.remove_col_at idx = _
        unfold remove_col_at; rw [if_pos (by omega)], hinv⟩
  | set r c v =>
    obtain ⟨res, t', h, hs⟩ := set_sizes t r c v
    exact ⟨res, t', h, Inv_of_sizes hs hr hc hrp hcp⟩
  | clear =>
    exact ⟨Result.ok (), _, rfl, ⟨Nat.zero_le _, Nat.zero_le _, hrp, hcp⟩⟩

theorem run_Inv (ops : List Op) (t : DynamicTable) (hinv : t.Inv) :
    ∃ t', t.run ops = some t' ∧ t'.Inv := by
  induction ops generalizing t with
  | nil => exact ⟨t, rfl, hinv⟩
  | cons op ops ih =>
    obtain ⟨res, t1, h1, hinv1⟩ := apply_Inv t op hinv
    obtain ⟨t', h2, hinv'⟩ := ih t1 hinv1
    exact ⟨t', by rw [run, h1]; exact h2, hinv'⟩

end DynamicTable

/-! ## Cells after reallocation and after the row loops -/

namespace DynamicTable

theorem reallocate_WF (t : DynamicTable) (R C : Nat) (hR : t._rows ≤ max 1 R)
    (hC : t._cols ≤ max 1 C) :
    (t.reallocate R C).WF ∧
    ∀ r c, r < t._rows → c < t._cols →
      (t.reallocate R C)._data.read r c = t._data.read r c := by
  obtain ⟨h1, h2, h3, h4, h5, h6⟩ := reallocate_core t R C
  refine ⟨⟨⟨?_, ?_, ?_, ?_⟩, ?_⟩, ?_⟩
  · rw [h1, h3]; exact hR
  · rw [h2, h4]; exact hC
  · rw [h3]; exact Nat.le_max_left _ _
  · rw [h4]; exact Nat.le_max_left _ _
  · rw [h3, h4]; exact h5
  · intro r c hr hc
    rw [h6 r c, if_pos ⟨by omega, by omega⟩]

theorem shrink_rows_WF (t : DynamicTable) (hwf : t.WF) :
    t.shrink_rows.WF ∧
    ∀ r c, r < t._rows → c < t._cols → t.shrink_rows._data.read r c = t._data.read r c := by
  unfold shrink_rows
  by_cases h : t._rows ≤ t._row_capacity / 4 ∧ t._row_capacity > 1
  · rw [if_pos h]
    exact reallocate_WF t _ _ (by omega) (by have := hwf.cols_le; omega)
  · rw [if_neg h]
    exact ⟨hwf, fun _ _ _ _ => rfl⟩

theorem shrink_cols_WF (t : DynamicTable) (hwf : t.WF) :
    t.shrink_cols.WF ∧
    ∀ r c, r < t._rows → c < t._cols → t.shrink_cols._data.read r c = t._data.read r c := by
  unfold shrink_cols
  by_cases h : t._cols ≤ t._col_capacity / 4 ∧ t._col_capacity > 1
  · rw [if_pos h]
    exact reallocate_WF t _ _ (by have := hwf.rows_le; omega) (by omega)
  · rw [if_neg h]
    exact ⟨hwf, fun _ _ _ _ => rfl⟩

/-- The step `ensure_row_capacity_for(_rows + 1)` on a well-formed table: there is room for one
more row, and the logical cells are the same. -/
theorem ensure_row_next_WF (t : DynamicTable) (hwf : t.WF) :
    ∃ t1, t.ensure_row_capacity_for (t._rows + 1) = some t1 ∧ t1.WF ∧
      t1._rows = t._rows ∧ t1._cols = t._cols ∧ t._rows + 1 ≤ t1._row_capacity ∧
      ∀ r c, r < t._rows → c < t._cols → t1._data.read r c = t._data.read r c := by
  obtain ⟨t1, he, hcase⟩ := ensure_row_next t hwf.row_cap_pos hwf.rows_le
  refine ⟨t1, he, ?_⟩
  rcases hcase with ⟨hle, rfl⟩ | ⟨heq, rfl⟩
  · exact ⟨hwf, rfl, rfl, hle, fun _ _ _ _ => rfl⟩
  · obtain ⟨hw, hr⟩ := reallocate_WF t (2 * t._row_capacity) t._col_capacity
      (by have := hwf.row_cap_pos; omega) (by have := hwf.cols_le; omega)
    obtain ⟨h1, h2, h3, _⟩ := reallocate_core t (2 * t._row_capacity) t._col_capacity
    refine ⟨hw, h1, h2, ?_, hr⟩
    rw [h3]
    have := hwf.row_cap_pos
    omega

theorem init_row_read (t : DynamicTable) (r : Nat) (hr : r < t._data.length)
    (hw : t._data.width r = t._col_capacity) :
    ∀ r' c', (t.init_row r)._data.read r' c' =
      if r' = r ∧ c' < t._col_capacity then 0 else t._data.read r' c' := by
  have key := forRange_induct
    (fun j (s : DynamicTable) =>
      s.frame = t.frame ∧
        ∀ r' c', s._data.read r' c' = if r' = r ∧ c' < j then 0 else t._data.read r' c')
    t._col_capacity
    (fun c s =>
      (s.store r c DEFAULT_INIT_VALUE).tick
        (fun k => { k with element_writes := k.element_writes + 1 }))
    t
    ⟨rfl, fun r' c' => by rw [if_neg (by omega)]⟩
    (by
      intro j s hj ⟨hf, hread⟩
      refine ⟨by simpa using hf, ?_⟩
      intro r' c'
      show (s._data.write r j DEFAULT_INIT_VALUE).read r' c' = _
      rw [Grid.read_write, frame_length hf, frame_width hf, hw, hread r' c']
      by_cases h1 : r' = r ∧ c' = j ∧ r < t._data.length ∧ j < t._col_capacity
      · rw [if_pos h1, if_pos ⟨h1.1, by omega⟩]; rfl
      · rw [if_neg h1]
        by_cases h2 : r' = r ∧ c' < j
        · rw [if_pos h2, if_pos ⟨h2.1, by omega⟩]
        · rw [if_neg h2, if_neg]
          intro h3
          have : c' ≠ j := fun e => h1 ⟨h3.1, e, hr, hj⟩
          exact h2 ⟨h3.1, by omega⟩)
  exact key.2

theorem copy_row_read (t : DynamicTable) (dst src : Nat) (hd : dst < t._data.length)
    (hw : t._data.width dst = t._col_capacity) :
    ∀ r' c', (t.copy_row dst src)._data.read r' c' =
      if r' = dst ∧ c' < t._col_capacity then t._data.read src c' else t._data.read r' c' := by
  have key := forRange_induct
    (fun j (s : DynamicTable) =>
      s.frame = t.frame ∧
        ∀ r' c', s._data.read r' c' =
          if r' = dst ∧ c' < j then t._data.read src c' else t._data.read r' c')
    t._col_capacity
    (fun c s =>
      (s.store dst c (s._data.read src c)).tick
        (fun k => { k with element_assignments := k.element_assignments + 1 }))
    t
    ⟨rfl, fun r' c' => by rw [if_neg (by omega)]⟩
    (by
      intro j s hj ⟨hf, hread⟩
      refine ⟨by simpa using hf, ?_⟩
      intro r' c'
      show (s._data.write dst j (s._data.read src j)).read r' c' = _
      have hsrc : s._data.read src j = t._data.read src j := by
        rw [hread src j]
        by_cases h : src = dst ∧ j < j
        · omega
        · rw [if_neg h]
      rw [Grid.read_write, frame_length hf, frame_width hf, hw, hread r' c', hsrc]
      by_cases h1 : r' = dst ∧ c' = j ∧ dst < t._data.length ∧ j < t._col_capacity
      · rw [if_pos h1, if_pos ⟨h1.1, by omega⟩, h1.2.1]
      · rw [if_neg h1]
        by_cases h2 : r' = dst ∧ c' < j
        · rw [if_pos h2, if_pos ⟨h2.1, by omega⟩]
        · rw [if_neg h2, if_neg]
          intro h3
          have : c' ≠ j := fun e => h1 ⟨h3.1, e, hd, hj⟩
          exact h2 ⟨h3.1, by omega⟩)
  exact key.2

/-- The loop of `insert_row_at` that moves the rows `idx .. _rows - 1` one place down. -/
theorem shift_down_read (t : DynamicTable) (idx : Nat) (hwf : t.WF)
    (hroom : t._rows + 1 ≤ t._row_capacity) :
    ∀ r c, (forRange (t._rows - idx)
        (fun m s => s.copy_row (s._rows - m) (s._rows - m - 1)) t)._data.read r c =
      if idx < r ∧ r ≤ t._rows ∧ c < t._col_capacity then t._data.read (r - 1) c
      else t._data.read r c := by
  have key := forRange_induct
    (fun m (s : DynamicTable) =>
      s.frame = t.frame ∧
        ∀ r c, s._data.read r c =
          if t._rows - m < r ∧ r ≤ t._rows ∧ c < t._col_capacity then t._data.read (r - 1) c
          else t._data.read r c)
    (t._rows - idx)
    (fun m s => s.copy_row (s._rows - m) (s._rows - m - 1))
    t
    ⟨rfl, fun r c => by rw [if_neg (by omega)]⟩
    (by
      intro m s hm ⟨hf, hread⟩
      have hrows := frame_rows hf
      have hlen : s._data.length = t._row_capacity := (frame_length hf).trans hwf.dim.1
      have hwid : s._data.width (s._rows - m) = s._col_capacity := by
        rw [frame_width hf, frame_col_capacity hf]
        exact hwf.dim.2 _ (by omega)
      refine ⟨(copy_row_frame s _ _).trans hf, ?_⟩
      intro r c
      rw [copy_row_read s _ _ (by omega) hwid, hrows, frame_col_capacity hf, hread r c,
        hread (t._rows - m - 1) c]
      rw [if_neg (show ¬ (t._rows - m < t._rows - m - 1 ∧ t._rows - m - 1 ≤ t._rows ∧
        c < t._col_capacity) by omega)]
      by_cases h1 : r = t._rows - m ∧ c < t._col_capacity
      · rw [if_pos h1, if_pos ⟨by omega, by omega, h1.2⟩, h1.1]
      · rw [if_neg h1]
        by_cases h2 : t._rows - m < r ∧ r ≤ t._rows ∧ c < t._col_capacity
        · rw [if_pos h2, if_pos ⟨by omega, h2.2.1, h2.2.2⟩]
        · rw [if_neg h2, if_neg]
          intro h3
          have : r ≠ t._rows - m := fun e => h1 ⟨e, h3.2.2⟩
          exact h2 ⟨by omega, h3.2.1, h3.2.2⟩)
  intro r c
  rw [key.2 r c]
  by_cases h : idx < r ∧ r ≤ t._rows ∧ c < t._col_capacity
  · rw [if_pos h, if_pos ⟨by omega, h.2.1, h.2.2⟩]
  · rw [if_neg h, if_neg]
    intro h3
    exact h ⟨by omega, h3.2.1, h3.2.2⟩

/-- The loop of `remove_row_at` that moves the rows `idx + 1 .. _rows - 1` one place up. -/
theorem shift_up_read (t : DynamicTable) (idx : Nat) (hwf : t.WF) (hidx : idx < t._rows) :
    ∀ r c, (forRange (t._rows - 1 - idx)
        (fun m s => s.copy_row (idx + m) (idx + m + 1)) t)._data.read r c =
      if idx ≤ r ∧ r + 1 < t._rows ∧ c < t._col_capacity then t._data.read (r + 1) c
      else t._data.read r c := by
  have hrl := hwf.rows_le
  have key := forRange_induct
    (fun m (s : DynamicTable) =>
      s.frame = t.frame ∧
        ∀ r c, s._data.read r c =
          if idx ≤ r ∧ r < idx + m ∧ c < t._col_capacity then t._data.read (r + 1) c
          else t._data.read r c)
    (t._rows - 1 - idx)
    (fun m s => s.copy_row (idx + m) (idx + m + 1))
    t
    ⟨rfl, fun r c => by rw [if_neg (by omega)]⟩
    (by
      intro m s hm ⟨hf, hread⟩
      have hlen : s._data.length = t._row_capacity := (frame_length hf).trans hwf.dim.1
      have hwid : s._data.width (idx + m) = s._col_capacity := by
        rw [frame_width hf, frame_col_capacity hf]
        exact hwf.dim.2 _ (by omega)
      refine ⟨(copy_row_frame s _ _).trans hf, ?_⟩
      intro r c
      rw [copy_row_read s _ _ (by omega) hwid, frame_col_capacity hf, hread r c,
        hread (idx + m + 1) c]
      rw [if_neg (show ¬ (idx ≤ idx + m + 1 ∧ idx + m + 1 < idx + m ∧
        c < t._col_capacity) by omega)]
      by_cases h1 : r = idx + m ∧ c < t._col_capacity
      · rw [if_pos h1, if_pos ⟨by omega, by omega, h1.2⟩, h1.1]
      · rw [if_neg h1]
        by_cases h2 : idx ≤ r ∧ r < idx + m ∧ c < t._col_capacity
        · rw [if_pos h2, if_pos ⟨h2.1, by omega, h2.2.2⟩]
        · rw [if_neg h2, if_neg]
          intro h3
          have : r ≠ idx + m := fun e => h1 ⟨e, h3.2.2⟩
          exact h2 ⟨h3.1, by omega, h3.2.2⟩)
  intro r c
  rw [key.2 r c]
  by_cases h : idx ≤ r ∧ r + 1 < t._rows ∧ c < t._col_capacity
  · rw [if_pos h, if_pos ⟨h.1, by omega, h.2.2⟩]
  · rw [if_neg h, if_neg]
    intro h3
    exact h ⟨h3.1, by omega, h3.2.2⟩

end DynamicTable

/-! ## Cells after the row operations and after `set` -/

namespace DynamicTable

theorem WF_bump_rows {u t : DynamicTable} (hf : u.frame = t.frame) (hwf : t.WF)
    (hroom : t._rows + 1 ≤ t._row_capacity) (f : OperationCounter → OperationCounter) :
    (({ u with _rows := u._rows + 1 } : DynamicTable).tick f).WF := by
  have hu := WF_of_frame hf hwf
  have h1 := frame_rows hf
  have h2 := frame_row_capacity hf
  exact ⟨⟨by show u._rows + 1 ≤ u._row_capacity; omega, hu.cols_le, hu.row_cap_pos,
    hu.col_cap_pos⟩, hu.dim⟩

theorem WF_drop_rows {u t : DynamicTable} (hf : u.frame = t.frame) (hwf : t.WF)
    (f : OperationCounter → OperationCounter) :
    (({ u with _rows := u._rows - 1 } : DynamicTable).tick f).WF := by
  have hu := WF_of_frame hf hwf
  have h1 := hu.rows_le
  exact ⟨⟨by show u._rows - 1 ≤ u._row_capacity; omega, hu.cols_le, hu.row_cap_pos,
    hu.col_cap_pos⟩, hu.dim⟩

theorem insert_row_at_cells (t : DynamicTable) (hwf : t.WF) (idx : Nat) (hidx : idx ≤ t._rows) :
    ∃ t', t.insert_row_at idx = some (Result.ok (), t') ∧ t'.WF ∧
      t'._rows = t._rows + 1 ∧ t'._cols = t._cols ∧
      ∀ r c, r ≤ t._rows → c < t._cols →
        t'._data.read r c =
          if r < idx then t._data.read r c
          else if r = idx then 0 else t._data.read (r - 1) c := by
  obtain ⟨t1, he, hwf1, hr1, hc1, hroom, hread1⟩ := ensure_row_next_WF t hwf
  have hroom1 : t1._rows + 1 ≤ t1._row_capacity := by omega
  have hf2 := shift_down_frame t1 (t1._rows - idx)
  have hread2 := shift_down_read t1 idx hwf1 hroom1
  generalize hu2 : forRange (t1._rows - idx)
    (fun m s => s.copy_row (s._rows - m) (s._rows - m - 1)) t1 = u2 at hf2 hread2
  have hf3 := (init_row_frame u2 idx).trans hf2
  have hread3 := init_row_read u2 idx
    (by rw [frame_length hf2, hwf1.dim.1]; omega)
    (by rw [frame_width hf2, frame_col_capacity hf2]; exact hwf1.dim.2 idx (by omega))
  generalize hu3 : u2.init_row idx = u3 at hf3 hread3
  have hwf5 := WF_bump_rows hf3 hwf1 hroom1
    (fun k => { k with row_inserts := k.row_inserts + 1 })
  obtain ⟨hwf', hread'⟩ := shrink_rows_WF _ hwf5
  have hsz := shrink_rows_sizes _ hwf5.col_cap_pos
  obtain ⟨s1, s2, _, _⟩ := sizes_fields hsz
  refine ⟨_, by unfold insert_row_at; rw [if_neg (by omega), he], ?_⟩
  simp only [hu2, hu3]
  refine ⟨hwf', ?_, ?_, ?_⟩
  · rw [s1]
    show u3._rows + 1 = _
    rw [frame_rows hf3, hr1]
  · rw [s2]
    show u3._cols = _
    rw [frame_cols hf3, hc1]
  · intro r c hr hc
    have hcc : c < t1._col_capacity := by have := hwf1.cols_le; omega
    rw [hread' r c (by show r < u3._rows + 1; rw [frame_rows hf3, hr1]; omega)
      (by show c < u3._cols; rw [frame_cols hf3, hc1]; exact hc)]
    show u3._data.read r c = _
    rw [hread3 r c, frame_col_capacity hf2, hread2 r c]
    by_cases h1 : r < idx
    · rw [if_pos h1, if_neg (by omega), if_neg (by omega)]
      exact hread1 r c (by omega) hc
    · rw [if_neg h1]
      by_cases h2 : r = idx
      · rw [if_pos h2, if_pos ⟨h2, hcc⟩]
      · rw [if_neg h2, if_neg (by omega), if_pos ⟨by omega, by omega, hcc⟩]
        exact hread1 (r - 1) c (by omega) hc

theorem remove_row_at_cells (t : DynamicTable) (hwf : t.WF) (idx : Nat) (hidx : idx < t._rows) :
    ∃ t', t.remove_row_at idx = some (Result.ok (), t') ∧ t'.WF ∧
      t'._rows = t._rows - 1 ∧ t'._cols = t._cols ∧
      ∀ r c, r + 1 < t._rows → c < t._cols →
        t'._data.read r c = if r < idx then t._data.read r c else t._data.read (r + 1) c := by
  have hf1 := shift_up_frame t idx (t._rows - 1 - idx)
  have hread1 := shift_up_read t idx hwf hidx
  generalize hu1 : forRange (t._rows - 1 - idx)
    (fun m s => s.copy_row (idx + m) (idx + m + 1)) t = u1 at hf1 hread1
  have hc2 := count_destroys_core u1 u1._col_capacity
  have hf2 := (frame_of_core hc2).trans hf1
  have hd2 : (u1.count_destroys u1._col_capacity)._data = u1._data := congrArg Prod.fst hc2
  generalize hu2 : u1.count_destroys u1._col_capacity = u2 at hf2 hd2
  have hwf4 := WF_drop_rows hf2 hwf (fun k => { k with row_removes := k.row_removes + 1 })
  obtain ⟨hwf', hread'⟩ := shrink_rows_WF _ hwf4
  have hsz := shrink_rows_sizes _ hwf4.col_cap_pos
  obtain ⟨s1, s2, _, _⟩ := sizes_fields hsz
  refine ⟨_, by unfold remove_row_at; rw [if_neg (by omega)], ?_⟩
  simp only [hu1, hu2]
  refine ⟨hwf', ?_, ?_, ?_⟩
  · rw [s1]
    show u2._rows - 1 = _
    rw [frame_rows hf2]
  · rw [s2]
    show u2._cols = _
    rw [frame_cols hf2]
  · intro r c hr hc
    have hcc : c < t._col_capacity := by have := hwf.cols_le; omega
    rw [hread' r c (by show r < u2._rows - 1; rw [frame_rows hf2]; omega)
      (by show c < u2._cols; rw [frame_cols hf2]; exact hc)]
    show u2._data.read r c = _
    rw [hd2, hread1 r c]
    by_cases h1 : r < idx
    · rw [if_pos h1, if_neg (by omega)]
    · rw [if_neg h1, if_pos ⟨by omega, hr, hcc⟩]

theorem set_cells (t : DynamicTable) (hwf : t.WF) (r c : Nat) (v : Int) (hr : r < t._rows)
    (hc : c < t._cols) :
    ∃ t', t.set r c v = some (Result.ok (), t') ∧ t'.WF ∧ t'.sizes = t.sizes ∧
      ∀ r' c', t'._data.read r' c' = if r' = r ∧ c' = c then v else t._data.read r' c' := by
  refine ⟨(t.store r c v).tick (fun k => { k with element_writes := k.element_writes + 1 }),
    by unfold set; rw [if_neg (by omega)], ?_, rfl, ?_⟩
  · exact WF_of_frame (by simp) hwf
  · intro r' c'
    show (t._data.write r c v).read r' c' = _
    have hrl := hwf.rows_le
    have hcl := hwf.cols_le
    rw [Grid.read_write, hwf.dim.1, hwf.dim.2 r (by omega)]
    by_cases h : r' = r ∧ c' = c
    · rw [if_pos h, if_pos ⟨h.1, h.2, by omega, by omega⟩]
    · rw [if_neg h, if_neg (fun h' => h ⟨h'.1, h'.2.1⟩)]

theorem get_eq_read (t : DynamicTable) (r c : Nat) (hr : r < t._rows) (hc : c < t._cols) :
    t.get r c = Result.ok (t._data.read r c) := by
  unfold get
  rw [if_neg (by omega)]

end DynamicTable

/-! ## Well-formedness in every reachable state -/

namespace DynamicTable

theorem WF_bump_cols {u t : DynamicTable} (hf : u.frame = t.frame) (hwf : t.WF)
    (hroom : t._cols + 1 ≤ t._col_capacity) (f : OperationCounter → OperationCounter) :
    (({ u with _cols := u._cols + 1 } : DynamicTable).tick f).WF := by
  have hu := WF_of_frame hf hwf
  have h1 := frame_cols hf
  have h2 := frame_col_capacity hf
  exact ⟨⟨hu.rows_le, by show u._cols + 1 ≤ u._col_capacity; omega, hu.row_cap_pos,
    hu.col_cap_pos⟩, hu.dim⟩

theorem WF_drop_cols {u t : DynamicTable} (hf : u.frame = t.frame) (hwf : t.WF)
    (f : OperationCounter → OperationCounter) :
    (({ u with _cols := u._cols - 1 } : DynamicTable).tick f).WF := by
  have hu := WF_of_frame hf hwf
  have h1 := hu.cols_le
  exact ⟨⟨hu.rows_le, by show u._cols - 1 ≤ u._col_capacity; omega, hu.row_cap_pos,
    hu.col_cap_pos⟩, hu.dim⟩

/-- The step `ensure_col_capacity_for(_cols + 1)` on a well-formed table: there is room for one
more column, and the logical cells are the same. -/
theorem ensure_col_next_WF (t : DynamicTable) (hwf : t.WF) :
    ∃ t1, t.ensure_col_capacity_for (t._cols + 1) = some t1 ∧ t1.WF ∧
      t1._rows = t._rows ∧ t1._cols = t._cols ∧ t._cols + 1 ≤ t1._col_capacity ∧
      ∀ r c, r < t._rows → c < t._cols → t1._data.read r c = t._data.read r c := by
  obtain ⟨t1, he, hcase⟩ := ensure_col_next t hwf.col_cap_pos hwf.cols_le
  refine ⟨t1, he, ?_⟩
  rcases hcase with ⟨hle, rfl⟩ | ⟨heq, rfl⟩
  · exact ⟨hwf, rfl, rfl, hle, fun _ _ _ _ => rfl⟩
  · obtain ⟨hw, hr⟩ := reallocate_WF t t._row_capacity (2 * t._col_capacity)
      (by have := hwf.rows_le; omega) (by have := hwf.col_cap_pos; omega)
    obtain ⟨h1, h2, _, h4, _⟩ := reallocate_core t t._row_capacity (2 * t._col_capacity)
    refine ⟨hw, h1, h2, ?_, hr⟩
    rw [h4]
    have := hwf.col_cap_pos
    omega

theorem push_row_WF (t : DynamicTable) (hwf : t.WF) :
    ∃ t', t.push_row = some (Result.ok (), t') ∧ t'.WF := by
  obtain ⟨t1, he, hwf1, hr1, _, hroom, _⟩ := ensure_row_next_WF t hwf
  exact ⟨_, by unfold push_row; rw [he],
    (shrink_rows_WF _ (WF_bump_rows (init_row_frame t1 t1._rows) hwf1 (by omega) _)).1⟩

theorem pop_row_WF (t : DynamicTable) (hwf : t.WF) (hpos : t._rows ≠ 0) :
    ∃ t', t.pop_row = some (Result.ok (), t') ∧ t'.WF :=
  ⟨_, by unfold pop_row; rw [if_neg hpos],
    (shrink_rows_WF _ (WF_drop_rows (frame_of_core (count_destroys_core t _)) hwf _)).1⟩

theorem push_col_WF (t : DynamicTable) (hwf : t.WF) :
    ∃ t', t.push_col = some (Result.ok (), t') ∧ t'.WF := by
  obtain ⟨t1, he, hwf1, _, hc1, hroom, _⟩ := ensure_col_next_WF t hwf
  exact ⟨_, by unfold push_col; rw [he],
    (shrink_cols_WF _ (WF_bump_cols (push_col_loop_frame t1) hwf1 (by omega) _)).1⟩

theorem insert_col_at_WF (t : DynamicTable) (hwf : t.WF) (idx : Nat) (hidx : idx ≤ t._cols) :
    ∃ t', t.insert_col_at idx = some (Result.ok (), t') ∧ t'.WF := by
  obtain ⟨t1, he, hwf1, _, hc1, hroom, _⟩ := ensure_col_next_WF t hwf
  exact ⟨_, by unfold insert_col_at; rw [if_neg (by omega), he],
    (shrink_cols_WF _ (WF_bump_cols (insert_col_loop_frame t1 idx) hwf1 (by omega) _)).1⟩

theorem pop_col_WF (t : DynamicTable) (hwf : t.WF) (hpos : t._cols ≠ 0) :
    ∃ t', t.pop_col = some (Result.ok (), t') ∧ t'.WF :=
  ⟨_, by unfold pop_col; rw [if_neg hpos],
    (shrink_cols_WF _ (WF_drop_cols (frame_of_core (count_destroys_core t _)) hwf _)).1⟩

theorem remove_col_at_WF (t : DynamicTable) (hwf : t.WF) (idx : Nat) (hidx : idx < t._cols) :
    ∃ t', t.remove_col_at idx = some (Result.ok (), t') ∧ t'.WF :=
  ⟨_, by unfold remove_col_at; rw [if_neg (by omega)],
    (shrink_cols_WF _ (WF_drop_cols (remove_col_loop_frame t idx) hwf _)).1⟩

theorem new_WF (k : Option OperationCounter) (ir ic : Nat) : (new k ir ic).WF := by
  obtain ⟨hs, hd, _⟩ := new_core k ir ic
  obtain ⟨_, _, f3, f4⟩ := sizes_fields hs
  refine ⟨new_Inv k ir ic, ?_⟩
  rw [f3, f4]
  exact hd

/-- Every call ends, and it keeps the table well-formed. -/
theorem apply_WF (t : DynamicTable) (op : Op) (hwf : t.WF) :
    ∃ res t', t.apply op = some (res, t') ∧ t'.WF := by
  cases op with
  | push_row =>
    obtain ⟨t', h, hw⟩ := push_row_WF t hwf
    exact ⟨_, t', h, hw⟩
  | insert_row_at idx =>
    by_cases hidx : idx ≤ t._rows
    · obtain ⟨t', h, hw, _⟩ := insert_row_at_cells t hwf idx hidx
      exact ⟨_, t', h, hw⟩
    · exact ⟨Result.out_of_range, t, by
        show t.insert_row_at idx = _
        unfold insert_row_at; rw [if_pos (by omega)], hwf⟩
  | pop_row =>
    by_cases hpos : t._rows = 0
    · exact ⟨Result.out_of_range, t, by
        show t.pop_row = _
        unfold pop_row; rw [if_pos hpos], hwf⟩
    · obtain ⟨t', h, hw⟩ := pop_row_WF t hwf hpos
      exact ⟨_, t', h, hw⟩
  | remove_row_at idx =>
    by_cases hidx : idx < t._rows
    · obtain ⟨t', h, hw, _⟩ := remove_row_at_cells t hwf idx hidx
      exact ⟨_, t', h, hw⟩
    · exact ⟨Result.out_of_range, t, by
        show t.remove_row_at idx = _
        unfold remove_row_at; rw [if_pos (by omega)], hwf⟩
  | push_col =>
    obtain ⟨t', h, hw⟩ := push_col_WF t hwf
    exact ⟨_, t', h, hw⟩
  | insert_col_at idx =>
    by_cases hidx : idx ≤ t._cols
    · obtain ⟨t', h, hw⟩ := insert_col_at_WF t hwf idx hidx
      exact ⟨_, t', h, hw⟩
    · exact ⟨Result.out_of_range, t, by
        show t.insert_col_at idx = _
        unfold insert_col_at; rw [if_pos (by omega)], hwf⟩
  | pop_col =>
    by_cases hpos : t._cols = 0
    · exact ⟨Result.out_of_range, t, by
        show t.pop_col = _
        unfold pop_col; rw [if_pos hpos], hwf⟩
    · obtain ⟨t', h, hw⟩ := pop_col_WF t hwf hpos
      exact ⟨_, t', h, hw⟩
  | remove_col_at idx =>
    by_cases hidx : idx < t._cols
    · obtain ⟨t', h, hw⟩ := remove_col_at_WF t hwf idx hidx
      exact ⟨_, t', h, hw⟩
    · exact ⟨Result.out_of_range, t, by
        show t.remove_col_at idx = _
        unfold remove_col_at; rw [if_pos (by omega)], hwf⟩
  | set r c v =>
    by_cases hb : r ≥ t._rows ∨ c ≥ t._cols
    · exact ⟨Result.out_of_range, t, by
        show t.set r c v = _
        unfold set; rw [if_pos hb], hwf⟩
    · obtain ⟨t', h, hw, _⟩ := set_cells t hwf r c v (by omega) (by omega)
      exact ⟨_, t', h, hw⟩
  | clear =>
    exact ⟨Result.ok (), _, rfl,
      ⟨⟨Nat.zero_le _, Nat.zero_le _, hwf.row_cap_pos, hwf.col_cap_pos⟩, hwf.dim⟩⟩

/-- Every table reached from a fresh one by a sequence of calls is well-formed: the hypothesis
`WF` of the theorems on cells holds for every table a caller can have. -/
theorem run_WF (ops : List Op) (t : DynamicTable) (hwf : t.WF) :
    ∃ t', t.run ops = some t' ∧ t'.WF := by
  induction ops generalizing t with
  | nil => exact ⟨t, rfl, hwf⟩
  | cons op ops ih =>
    obtain ⟨res, t1, h1, hwf1⟩ := apply_WF t op hwf
    obtain ⟨t', h2, hwf'⟩ := ih t1 hwf1
    exact ⟨t', by rw [run, h1]; exact h2, hwf'⟩

theorem reachable_WF (k : Option OperationCounter) (ir ic : Nat) (ops : List Op) :
    ∃ t, (new k ir ic).run ops = some t ∧ t.WF :=
  run_WF ops _ (new_WF k ir ic)

end DynamicTable

/-! ## Auxiliary facts -/

namespace DynamicTable

theorem push_row_step (t : DynamicTable) (a b c d : Nat) (hs : t.sizes = (a, b, c, d))
    (h1 : a ≤ c) (h2 : b ≤ d) (h3 : 1 ≤ c) (h4 : 1 ≤ d) :
    ∃ t', t.push_row = some (Result.ok (), t') ∧
      t'.sizes = (a + 1, b, shrunk (a + 1) (grown a c), d) := by
  obtain ⟨f1, f2, f3, f4⟩ := sizes_fields hs
  obtain ⟨t', h, hs'⟩ := push_row_sizes t (Inv_of_sizes hs h1 h2 h3 h4)
  rw [f1, f2, f3, f4] at hs'
  exact ⟨t', h, hs'⟩

theorem pop_row_step (t : DynamicTable) (a b c d : Nat) (hs : t.sizes = (a, b, c, d))
    (h0 : a ≠ 0) (h1 : a ≤ c) (h2 : b ≤ d) (h3 : 1 ≤ c) (h4 : 1 ≤ d) :
    ∃ t', t.pop_row = some (Result.ok (), t') ∧
      t'.sizes = (a - 1, b, shrunk (a - 1) c, d) := by
  obtain ⟨f1, f2, f3, f4⟩ := sizes_fields hs
  obtain ⟨t', h, hs'⟩ := pop_row_sizes t (Inv_of_sizes hs h1 h2 h3 h4) (by omega)
  rw [f1, f2, f3, f4] at hs'
  exact ⟨t', h, hs'⟩

theorem full_2x2_WF : full_2x2.WF :=
  ⟨⟨by decide, by decide, by decide, by decide⟩, ⟨by decide, by decide⟩⟩

theorem sparse_3x2_WF : sparse_3x2.WF :=
  ⟨⟨by decide, by decide, by decide, by decide⟩, ⟨by decide, by decide⟩⟩

theorem shrunk_le (n cap : Nat) : shrunk n cap ≤ cap := by
  unfold shrunk
  by_cases h : n ≤ cap / 4 ∧ cap > 1
  · rw [if_pos h]; omega
  · rw [if_neg h]

theorem grown_le (a cap : Nat) : grown a cap ≤ max cap (2 * a) := by
  unfold grown
  by_cases h : a + 1 ≤ cap
  · rw [if_pos h]; exact Nat.le_max_left _ _
  · rw [if_neg h]; omega

theorem push_rows_sizes (n : Nat) (t : DynamicTable) (hinv : t.Inv) :
    ∃ t', push_rows n t = some t' ∧
      t'.sizes = (t._rows + n, t._cols, cap_after_pushes n t._rows t._row_capacity,
        t._col_capacity) := by
  induction n generalizing t with
  | zero => exact ⟨t, rfl, rfl⟩
  | succ n ih =>
    obtain ⟨t1, h1, hs1⟩ := push_row_sizes t hinv
    have hinv1 : t1.Inv := Inv_of_sizes hs1
      (le_shrunk _ _ (succ_le_grown _ _ hinv.rows_le hinv.row_cap_pos)) hinv.cols_le
      (one_le_shrunk _ _ (one_le_grown _ _ hinv.row_cap_pos)) hinv.col_cap_pos
    obtain ⟨f1, f2, f3, f4⟩ := sizes_fields hs1
    obtain ⟨t', h', hs'⟩ := ih t1 hinv1
    refine ⟨t', by rw [push_rows, h1]; exact h', ?_⟩
    rw [hs', f1, f2, f3, f4, cap_after_pushes, Nat.add_right_comm, Nat.add_assoc]

theorem cap_after_pushes_lower (n a cap : Nat) (h : a ≤ cap) (hc : 1 ≤ cap) :
    a + n ≤ cap_after_pushes n a cap := by
  induction n generalizing a cap with
  | zero => exact h
  | succ n ih =>
    have := ih (a + 1) (shrunk (a + 1) (grown a cap))
      (le_shrunk _ _ (succ_le_grown _ _ h hc)) (one_le_shrunk _ _ (one_le_grown _ _ hc))
    rw [cap_after_pushes]
    omega

theorem cap_after_pushes_upper (n a cap : Nat) :
    cap_after_pushes n a cap ≤ max cap (2 * (a + n) - 2) := by
  induction n generalizing a cap with
  | zero => exact Nat.le_max_left _ _
  | succ n ih =>
    have h1 := ih (a + 1) (shrunk (a + 1) (grown a cap))
    have h2 := shrunk_le (a + 1) (grown a cap)
    have h3 := grown_le a cap
    rw [cap_after_pushes]
    omega

theorem shrunk_pow_two (n e : Nat) : ∃ e', shrunk n (2 ^ e) = 2 ^ e' := by
  unfold shrunk
  by_cases h : n ≤ 2 ^ e / 4 ∧ 2 ^ e > 1
  · rw [if_pos h]
    cases e with
    | zero => exact absurd h.2 (by simp)
    | succ d =>
      refine ⟨d, ?_⟩
      have hpos : 0 < 2 ^ d := Nat.pow_pos (by decide)
      rw [pow_succ, Nat.mul_div_cancel _ (by decide : 0 < 2)]
      omega
  · rw [if_neg h]; exact ⟨e, rfl⟩

theorem grown_pow_two (a e : Nat) : ∃ e', grown a (2 ^ e) = 2 ^ e' := by
  unfold grown
  by_cases h : a + 1 ≤ 2 ^ e
  · rw [if_pos h]; exact ⟨e, rfl⟩
  · rw [if_neg h]; exact ⟨e + 1, by rw [pow_succ, Nat.mul_comm]⟩

theorem cap_after_pushes_pow_two (n a e : Nat) :
    ∃ e', cap_after_pushes n a (2 ^ e) = 2 ^ e' := by
  induction n generalizing a e with
  | zero => exact ⟨e, rfl⟩
  | succ n ih =>
    obtain ⟨e1, h1⟩ := grown_pow_two a e
    obtain ⟨e2, h2⟩ := shrunk_pow_two (a + 1) e1
    obtain ⟨e3, h3⟩ := ih (a + 1) e2
    exact ⟨e3, by rw [cap_after_pushes, h1, h2, h3]⟩

/-- After `c + 1` pushes on a fresh table of row capacity `c` the capacity is `2 c` when `c` is
at most 3 or a power of two. -/
theorem cap_after_pushes_exact (c : Nat) (hc : 1 ≤ c) (h : c ≤ 3 ∨ ∃ m, c = 2 ^ m) :
    cap_after_pushes (c + 1) 0 c = 2 * c := by
  rcases h with h | ⟨m, rfl⟩
  · interval_cases c <;> decide
  · obtain ⟨e, he⟩ := cap_after_pushes_pow_two (2 ^ m + 1) 0 m
    have hlo := cap_after_pushes_lower (2 ^ m + 1) 0 (2 ^ m) (Nat.zero_le _) hc
    have hup := cap_after_pushes_upper (2 ^ m + 1) 0 (2 ^ m)
    rw [he] at hlo hup ⊢
    have hlt : 2 ^ m < 2 ^ e := by omega
    have hme : m < e := (Nat.pow_lt_pow_iff_right (by decide : 1 < 2)).mp hlt
    have hge : 2 ^ (m + 1) ≤ 2 ^ e := Nat.pow_le_pow_right (by decide) hme
    rw [pow_succ] at hge
    omega

end DynamicTable

/-! ## Cells after `push_row` and `pop_row` -/

namespace DynamicTable

theorem popped_1x2_WF : popped_1x2.WF :=
  ⟨⟨by decide, by decide, by decide, by decide⟩, ⟨by decide, by decide⟩⟩

theorem push_row_cells (t : DynamicTable) (hwf : t.WF) :
    ∃ t', t.push_row = some (Result.ok (), t') ∧ t'.WF ∧
      t'._rows = t._rows + 1 ∧ t'._cols = t._cols ∧
      ∀ r c, r ≤ t._rows → c < t._cols →
        t'._data.read r c = if r < t._rows then t._data.read r c else 0 := by
  obtain ⟨t1, he, hwf1, hr1, hc1, hroom, hread1⟩ := ensure_row_next_WF t hwf
  have hroom1 : t1._rows + 1 ≤ t1._row_capacity := by omega
  have hf3 := init_row_frame t1 t1._rows
  have hread3 := init_row_read t1 t1._rows (by rw [hwf1.dim.1]; omega)
    (hwf1.dim.2 _ (by omega))
  generalize hu3 : t1.init_row t1._rows = u3 at hf3 hread3
  have hwf5 := WF_bump_rows hf3 hwf1 hroom1
    (fun k => { k with row_inserts := k.row_inserts + 1 })
  obtain ⟨hwf', hread'⟩ := shrink_rows_WF _ hwf5
  have hsz := shrink_rows_sizes _ hwf5.col_cap_pos
  obtain ⟨s1, s2, _, _⟩ := sizes_fields hsz
  refine ⟨_, by unfold push_row; rw [he], ?_⟩
  simp only [hu3]
  refine ⟨hwf', ?_, ?_, ?_⟩
  · rw [s1]
    show u3._rows + 1 = _
    rw [frame_rows hf3, hr1]
  · rw [s2]
    show u3._cols = _
    rw [frame_cols hf3, hc1]
  · intro r c hr hc
    have hcc : c < t1._col_capacity := by have := hwf1.cols_le; omega
    rw [hread' r c (by show r < u3._rows + 1; rw [frame_rows hf3, hr1]; omega)
      (by show c < u3._cols; rw [frame_cols hf3, hc1]; exact hc)]
    show u3._data.read r c = _
    rw [hread3 r c, hr1]
    by_cases h1 : r < t._rows
    · rw [if_pos h1, if_neg (by omega)]
      exact hread1 r c h1 hc
    · rw [if_neg h1, if_pos ⟨by omega, hcc⟩]

theorem pop_row_cells (t : DynamicTable) (hwf : t.WF) (hpos : t._rows ≠ 0) :
    ∃ t', t.pop_row = some (Result.ok (), t') ∧ t'.WF ∧
      t'._rows = t._rows - 1 ∧ t'._cols = t._cols ∧
      ∀ r c, r + 1 < t._rows → c < t._cols → t'._data.read r c = t._data.read r c := by
  have hc2 := count_destroys_core t t._col_capacity
  have hf2 := frame_of_core hc2
  have hd2 : (t.count_destroys t._col_capacity)._data = t._data := congrArg Prod.fst hc2
  generalize hu2 : t.count_destroys t._col_capacity = u2 at hf2 hd2
  have hwf4 := WF_drop_rows hf2 hwf (fun k => { k with row_removes := k.row_removes + 1 })
  obtain ⟨hwf', hread'⟩ := shrink_rows_WF _ hwf4
  have hsz := shrink_rows_sizes _ hwf4.col_cap_pos
  obtain ⟨s1, s2, _, _⟩ := sizes_fields hsz
  refine ⟨_, by unfold pop_row; rw [if_neg hpos], ?_⟩
  simp only [hu2]
  refine ⟨hwf', ?_, ?_, ?_⟩
  · rw [s1]
    show u2._rows - 1 = _
    rw [frame_rows hf2]
  · rw [s2]
    show u2._cols = _
    rw [frame_cols hf2]
  · intro r c hr hc
    rw [hread' r c (by show r < u2._rows - 1; rw [frame_rows hf2]; omega)
      (by show c < u2._cols; rw [frame_cols hf2]; exact hc)]
    show u2._data.read r c = _
    rw [hd2]

end DynamicTable

/-! ## Insertion at the end -/

theorem forRange_congr {σ : Type} (I : σ → Prop) (n : Nat) (b1 b2 : Nat → σ → σ) (s : σ)
    (h0 : I s) (hstep : ∀ i x, I x → b1 i x = b2 i x ∧ I (b2 i x)) :
    forRange n b1 s = forRange n b2 s ∧ I (forRange n b2 s) := by
  induction n with
  | zero => exact ⟨rfl, h0⟩
  | succ m ih =>
    obtain ⟨heq, hI⟩ := ih
    show b1 m (forRange m b1 s) = b2 m (forRange m b2 s) ∧ I (b2 m (forRange m b2 s))
    rw [heq]
    exact hstep m _ hI

namespace DynamicTable

theorem ensure_row_capacity_for_shape (t t1 : DynamicTable) (n : Nat)
    (h : t.ensure_row_capacity_for n = some t1) : t1._rows = t._rows ∧ t1._cols = t._cols := by
  unfold ensure_row_capacity_for at h
  by_cases hn : n ≤ t._row_capacity
  · rw [if_pos hn] at h
    cases h
    exact ⟨rfl, rfl⟩
  · rw [if_neg hn] at h
    cases hd : double_until (n + 1) t._row_capacity n with
    | none => rw [hd] at h; cases h
    | some c =>
      rw [hd] at h
      cases h
      exact ⟨(reallocate_core t c _).1, (reallocate_core t c _).2.1⟩

theorem ensure_col_capacity_for_shape (t t1 : DynamicTable) (n : Nat)
    (h : t.ensure_col_capacity_for n = some t1) : t1._rows = t._rows ∧ t1._cols = t._cols := by
  unfold ensure_col_capacity_for at h
  by_cases hn : n ≤ t._col_capacity
  · rw [if_pos hn] at h
    cases h
    exact ⟨rfl, rfl⟩
  · rw [if_neg hn] at h
    cases hd : double_until (n + 1) t._col_capacity n with
    | none => rw [hd] at h; cases h
    | some c =>
      rw [hd] at h
      cases h
      exact ⟨(reallocate_core t _ c).1, (reallocate_core t _ c).2.1⟩

/-- With `idx = _rows` the shift loop of `insert_row_at` has no iteration, and what is left is
the body of `push_row`. -/
theorem insert_row_at_end (t : DynamicTable) : t.insert_row_at t._rows = t.push_row := by
  unfold insert_row_at push_row
  rw [if_neg (Nat.lt_irrefl _)]
  cases he : t.ensure_row_capacity_for (t._rows + 1) with
  | none => rfl
  | some t1 =>
    have hr := (ensure_row_capacity_for_shape t t1 _ he).1
    simp only [hr, Nat.sub_self, forRange]

/-- With `idx = _cols` the shift loop of `insert_col_at` has no iteration in any row, and what is
left is the body of `push_col`. -/
theorem insert_col_at_end (t : DynamicTable) : t.insert_col_at t._cols = t.push_col := by
  unfold insert_col_at push_col
  rw [if_neg (Nat.lt_irrefl _)]
  cases he : t.ensure_col_capacity_for (t._cols + 1) with
  | none => rfl
  | some t1 =>
    have hc := (ensure_col_capacity_for_shape t t1 _ he).2
    have key := forRange_congr (fun (x : DynamicTable) => x._cols = t._cols) t1._row_capacity
      (fun r s =>
        ((forRange (s._cols - t._cols)
          (fun m s =>
            (s.store r (s._cols - m) (s._data.read r (s._cols - m - 1))).tick
              (fun k => { k with element_assignments := k.element_assignments + 1 }))
          s).store r t._cols DEFAULT_INIT_VALUE).tick
          (fun k => { k with element_writes := k.element_writes + 1 }))
      (fun r s =>
        (s.store r s._cols DEFAULT_INIT_VALUE).tick
          (fun k => { k with element_writes := k.element_writes + 1 }))
      t1 hc
      (by
        intro i x hx
        refine ⟨?_, hx⟩
        simp only [hx, Nat.sub_self, forRange])
    simp only [key.1]

end DynamicTable

/-! ## Counting the reallocations -/

namespace DynamicTable

theorem counted_2x2_WF : counted_2x2.WF :=
  ⟨⟨by decide, by decide, by decide, by decide⟩, ⟨by decide, by decide⟩⟩

theorem reallocations_tick (t : DynamicTable) (f : OperationCounter → OperationCounter)
    (hf : ∀ k, (f k).row_resizes = k.row_resizes) :
    (t.tick f).reallocations = t.reallocations := by
  unfold reallocations tick
  cases t._counter with
  | none => rfl
  | some k => exact congrArg some (hf k)

theorem reallocations_tick_succ (t : DynamicTable) (f : OperationCounter → OperationCounter)
    (hf : ∀ k, (f k).row_resizes = k.row_resizes + 1) :
    (t.tick f).reallocations = t.reallocations.map (· + 1) := by
  unfold reallocations tick
  cases t._counter with
  | none => rfl
  | some k => exact congrArg some (hf k)

theorem fill_default_reallocations (R C : Nat) (s : Grid × DynamicTable) :
    (fill_default R C s).2.reallocations = s.2.reallocations :=
  forRange_preserves (fun x : Grid × DynamicTable => x.2.reallocations) _ _ s
    (fun _ _ => forRange_preserves (fun y : Grid × DynamicTable => y.2.reallocations) _ _ _
      (fun _ y => reallocations_tick y.2 _ (fun _ => rfl)))

theorem copy_cells_reallocations (mr mc : Nat) (s : Grid × DynamicTable) :
    (copy_cells mr mc s).2.reallocations = s.2.reallocations :=
  forRange_preserves (fun x : Grid × DynamicTable => x.2.reallocations) _ _ s
    (fun _ _ => forRange_preserves (fun y : Grid × DynamicTable => y.2.reallocations) _ _ _
      (fun _ y => reallocations_tick y.2 _ (fun _ => rfl)))

/-- Each call of `reallocate` is recorded once. -/
theorem reallocate_reallocations (t : DynamicTable) (R C : Nat) :
    (t.reallocate R C).reallocations = t.reallocations.map (· + 1) := by
  unfold reallocate
  simp only
  have h1 := fill_default_reallocations (if R < 1 then 1 else R) (if C < 1 then 1 else C)
    (List.replicate (if R < 1 then 1 else R) [], t)
  generalize fill_default (if R < 1 then 1 else R) (if C < 1 then 1 else C)
    (List.replicate (if R < 1 then 1 else R) [], t) = s1 at h1
  have h2 := copy_cells_reallocations (min s1.2._rows (if R < 1 then 1 else R))
    (min s1.2._cols (if C < 1 then 1 else C)) s1
  generalize copy_cells (min s1.2._rows (if R < 1 then 1 else R))
    (min s1.2._cols (if C < 1 then 1 else C)) s1 = s2 at h2
  have h3 := reallocations_tick_succ s2.2 (fun k =>
    { k with
      row_resizes := k.row_resizes + 1,
      col_resizes := k.col_resizes + 1,
      row_capacity_changes := k.row_capacity_changes + 1,
      col_capacity_changes := k.col_capacity_changes + 1,
      element_destroys := k.element_destroys + s2.2._row_capacity * s2.2._col_capacity })
    (fun _ => rfl)
  rw [h2, h1] at h3
  exact h3

theorem init_row_reallocations (t : DynamicTable) (r : Nat) :
    (t.init_row r).reallocations = t.reallocations :=
  forRange_preserves reallocations _ _ t
    (fun c x => reallocations_tick (x.store r c DEFAULT_INIT_VALUE) _ (fun _ => rfl))

theorem copy_row_reallocations (t : DynamicTable) (dst src : Nat) :
    (t.copy_row dst src).reallocations = t.reallocations :=
  forRange_preserves reallocations _ _ t
    (fun c x => reallocations_tick (x.store dst c (x._data.read src c)) _ (fun _ => rfl))

theorem shift_down_reallocations (t : DynamicTable) (n : Nat) :
    (forRange n (fun m s => s.copy_row (s._rows - m) (s._rows - m - 1)) t).reallocations
      = t.reallocations :=
  forRange_preserves reallocations _ _ t (fun _ x => copy_row_reallocations x _ _)

theorem push_col_loop_reallocations (t : DynamicTable) :
    (forRange t._row_capacity
      (fun r s =>
        (s.store r s._cols DEFAULT_INIT_VALUE).tick
          (fun k => { k with element_writes := k.element_writes + 1 }))
      t).reallocations = t.reallocations :=
  forRange_preserves reallocations _ _ t
    (fun r x => reallocations_tick (x.store r x._cols DEFAULT_INIT_VALUE) _ (fun _ => rfl))

theorem insert_col_loop_reallocations (t : DynamicTable) (idx : Nat) :
    (forRange t._row_capacity
      (fun r s =>
        let s1 := forRange (s._cols - idx)
          (fun m s =>
            (s.store r (s._cols - m) (s._data.read r (s._cols - m - 1))).tick
              (fun k => { k with element_assignments := k.element_assignments + 1 }))
          s
        (s1.store r idx DEFAULT_INIT_VALUE).tick
          (fun k => { k with element_writes := k.element_writes + 1 }))
      t).reallocations = t.reallocations :=
  forRange_preserves reallocations _ _ t (fun r x => by
    dsimp only
    rw [reallocations_tick]
    · exact forRange_preserves reallocations _ _ x
        (fun m y => reallocations_tick
          (y.store r (y._cols - m) (y._data.read r (y._cols - m - 1))) _ (fun _ => rfl))
    · intro k; rfl)

theorem shrink_rows_eq_self (t : DynamicTable)
    (h : ¬ (t._rows ≤ t._row_capacity / 4 ∧ t._row_capacity > 1)) : t.shrink_rows = t := by
  unfold shrink_rows
  rw [if_neg h]

theorem shrink_cols_eq_self (t : DynamicTable)
    (h : ¬ (t._cols ≤ t._col_capacity / 4 ∧ t._col_capacity > 1)) : t.shrink_cols = t := by
  unfold shrink_cols
  rw [if_neg h]

theorem shrink_rows_reallocations (t : DynamicTable) :
    t.shrink_rows.reallocations = t.reallocations ∨
      t.shrink_rows.reallocations = t.reallocations.map (· + 1) := by
  unfold shrink_rows
  by_cases h : t._rows ≤ t._row_capacity / 4 ∧ t._row_capacity > 1
  · rw [if_pos h]; exact Or.inr (reallocate_reallocations t _ _)
  · rw [if_neg h]; exact Or.inl rfl

theorem shrink_cols_reallocations (t : DynamicTable) :
    t.shrink_cols.reallocations = t.reallocations ∨
      t.shrink_cols.reallocations = t.reallocations.map (· + 1) := by
  unfold shrink_cols
  by_cases h : t._cols ≤ t._col_capacity / 4 ∧ t._col_capacity > 1
  · rw [if_pos h]; exact Or.inr (reallocate_reallocations t _ _)
  · rw [if_neg h]; exact Or.inl rfl

/-- The end of a row insertion: `t1` is the table after the growth step, `u` the table after
the loops and the increment of `_rows`.  If the growth step reallocated, the shrink block does
nothing, so the call reallocates at most once. -/
theorem grow_then_shrink_rows (t t1 u : DynamicTable) (hinv : t.Inv)
    (hcase : (t._rows + 1 ≤ t._row_capacity ∧ t1 = t) ∨
      (t._rows = t._row_capacity ∧ t1 = t.reallocate (2 * t._row_capacity) t._col_capacity))
    (hs : u.sizes = (t1._rows + 1, t1._cols, t1._row_capacity, t1._col_capacity))
    (hre : u.reallocations = t1.reallocations) :
    (t._row_capacity < t1._row_capacity → u.shrink_rows = u) ∧
    (u.shrink_rows.reallocations = t.reallocations ∨
      u.shrink_rows.reallocations = t.reallocations.map (· + 1)) := by
  obtain ⟨f1, _, f3, _⟩ := sizes_fields hs
  rcases hcase with ⟨_, rfl⟩ | ⟨hfull, rfl⟩
  · refine ⟨fun h => absurd h (Nat.lt_irrefl _), ?_⟩
    rw [← hre]
    exact shrink_rows_reallocations u
  · obtain ⟨h1, _, h3, _⟩ := reallocate_core t (2 * t._row_capacity) t._col_capacity
    have hpos := hinv.row_cap_pos
    have hself : u.shrink_rows = u := shrink_rows_eq_self u (by rw [f1, f3, h1, h3]; omega)
    refine ⟨fun _ => hself, Or.inr ?_⟩
    rw [hself, hre, reallocate_reallocations]

/-- The end of a column insertion, as `grow_then_shrink_rows`. -/
theorem grow_then_shrink_cols (t t1 u : DynamicTable) (hinv : t.Inv)
    (hcase : (t._cols + 1 ≤ t._col_capacity ∧ t1 = t) ∨
      (t._cols = t._col_capacity ∧ t1 = t.reallocate t._row_capacity (2 * t._col_capacity)))
    (hs : u.sizes = (t1._rows, t1._cols + 1, t1._row_capacity, t1._col_capacity))
    (hre : u.reallocations = t1.reallocations) :
    (t._col_capacity < t1._col_capacity → u.shrink_cols = u) ∧
    (u.shrink_cols.reallocations = t.reallocations ∨
      u.shrink_cols.reallocations = t.reallocations.map (· + 1)) := by
  obtain ⟨_, f2, _, f4⟩ := sizes_fields hs
  rcases hcase with ⟨_, rfl⟩ | ⟨hfull, rfl⟩
  · refine ⟨fun h => absurd h (Nat.lt_irrefl _), ?_⟩
    rw [← hre]
    exact shrink_cols_reallocations u
  · obtain ⟨_, h2, _, h4, _⟩ := reallocate_core t t._row_capacity (2 * t._col_capacity)
    have hpos := hinv.col_cap_pos
    have hself : u.shrink_cols = u := shrink_cols_eq_self u (by rw [f2, f4, h2, h4]; omega)
    refine ⟨fun _ => hself, Or.inr ?_⟩
    rw [hself, hre, reallocate_reallocations]

end DynamicTable

/-! ## At most one reallocation in an insertion -/

namespace DynamicTable

theorem push_row_once (t : DynamicTable) (hinv : t.Inv) :
    ∃ t1 t', t.ensure_row_capacity_for (t._rows + 1) = some t1 ∧
      t.push_row = some (Result.ok (), t') ∧
      (t._row_capacity < t1._row_capacity → t'._row_capacity = t1._row_capacity) ∧
      (t'.reallocations = t.reallocations ∨
        t'.reallocations = t.reallocations.map (· + 1)) := by
  obtain ⟨t1, he, hcase⟩ := ensure_row_next t hinv.row_cap_pos hinv.rows_le
  have hf := init_row_frame t1 t1._rows
  have hre := init_row_reallocations t1 t1._rows
  generalize hu : t1.init_row t1._rows = u at hf hre
  obtain ⟨f1, f2, f3, f4⟩ := sizes_fields ((sizes_of_frame hf).trans rfl)
  have key := grow_then_shrink_rows t t1
    (({ u with _rows := u._rows + 1 } : DynamicTable).tick
      (fun k => { k with row_inserts := k.row_inserts + 1 }))
    hinv hcase
    (by show (u._rows + 1, u._cols, u._row_capacity, u._col_capacity) = _
        rw [f1, f2, f3, f4])
    (by
      rw [reallocations_tick]
      · exact hre
      · intro k; rfl)
  refine ⟨t1, _, he, by unfold push_row; rw [he], ?_, ?_⟩
  · intro hg
    simp only [hu]
    rw [key.1 hg]
    exact f3
  · simp only [hu]
    exact key.2

theorem insert_row_at_once (t : DynamicTable) (hinv : t.Inv) (idx : Nat)
    (hidx : idx ≤ t._rows) :
    ∃ t1 t', t.ensure_row_capacity_for (t._rows + 1) = some t1 ∧
      t.insert_row_at idx = some (Result.ok (), t') ∧
      (t._row_capacity < t1._row_capacity → t'._row_capacity = t1._row_capacity) ∧
      (t'.reallocations = t.reallocations ∨
        t'.reallocations = t.reallocations.map (· + 1)) := by
  obtain ⟨t1, he, hcase⟩ := ensure_row_next t hinv.row_cap_pos hinv.rows_le
  have hf := (init_row_frame (forRange (t1._rows - idx)
    (fun m s => s.copy_row (s._rows - m) (s._rows - m - 1)) t1) idx).trans
      (shift_down_frame t1 (t1._rows - idx))
  have hre := (init_row_reallocations (forRange (t1._rows - idx)
    (fun m s => s.copy_row (s._rows - m) (s._rows - m - 1)) t1) idx).trans
      (shift_down_reallocations t1 (t1._rows - idx))
  generalize hu : (forRange (t1._rows - idx)
    (fun m s => s.copy_row (s._rows - m) (s._rows - m - 1)) t1).init_row idx = u at hf hre
  obtain ⟨f1, f2, f3, f4⟩ := sizes_fields ((sizes_of_frame hf).trans rfl)
  have key := grow_then_shrink_rows t t1
    (({ u with _rows := u._rows + 1 } : DynamicTable).tick
      (fun k => { k with row_inserts := k.row_inserts + 1 }))
    hinv hcase
    (by show (u._rows + 1, u._cols, u._row_capacity, u._col_capacity) = _
        rw [f1, f2, f3, f4])
    (by
      rw [reallocations_tick]
      · exact hre
      · intro k; rfl)
  refine ⟨t1, _, he, by unfold insert_row_at; rw [if_neg (by omega), he], ?_, ?_⟩
  · intro hg
    simp only [hu]
    rw [key.1 hg]
    exact f3
  · simp only [hu]
    exact key.2

theorem push_col_once (t : DynamicTable) (hinv : t.Inv) :
    ∃ t1 t', t.ensure_col_capacity_for (t._cols + 1) = some t1 ∧
      t.push_col = some (Result.ok (), t') ∧
      (t._col_capacity < t1._col_capacity → t'._col_capacity = t1._col_capacity) ∧
      (t'.reallocations = t.reallocations ∨
        t'.reallocations = t.reallocations.map (· + 1)) := by
  obtain ⟨t1, he, hcase⟩ := ensure_col_next t hinv.col_cap_pos hinv.cols_le
  have hf := push_col_loop_frame t1
  have hre := push_col_loop_reallocations t1
  generalize hu : forRange t1._row_capacity
      (fun r s =>
        (s.store r s._cols DEFAULT_INIT_VALUE).tick
          (fun k => { k with element_writes := k.element_writes + 1 }))
      t1 = u at hf hre
  obtain ⟨f1, f2, f3, f4⟩ := sizes_fields ((sizes_of_frame hf).trans rfl)
  have key := grow_then_shrink_cols t t1
    (({ u with _cols := u._cols + 1 } : DynamicTable).tick
      (fun k => { k with col_inserts := k.col_inserts + 1 }))
    hinv hcase
    (by show (u._rows, u._cols + 1, u._row_capacity, u._col_capacity) = _
        rw [f1, f2, f3, f4])
    (by
      rw [reallocations_tick]
      · exact hre
      · intro k; rfl)
  refine ⟨t1, _, he, by unfold push_col; rw [he], ?_, ?_⟩
  · intro hg
    simp only [hu]
    rw [key.1 hg]
    exact f4
  · simp only [hu]
    exact key.2

theorem insert_col_at_once (t : DynamicTable) (hinv : t.Inv) (idx : Nat)
    (hidx : idx ≤ t._cols) :
    ∃ t1 t', t.ensure_col_capacity_for (t._cols + 1) = some t1 ∧
      t.insert_col_at idx = some (Result.ok (), t') ∧
      (t._col_capacity < t1._col_capacity → t'._col_capacity = t1._col_capacity) ∧
      (t'.reallocations = t.reallocations ∨
        t'.reallocations = t.reallocations.map (· + 1)) := by
  obtain ⟨t1, he, hcase⟩ := ensure_col_next t hinv.col_cap_pos hinv.cols_le
  have hf := insert_col_loop_frame t1 idx
  have hre := insert_col_loop_reallocations t1 idx
  simp only at hf hre
  generalize hu : forRange t1._row_capacity
      (fun r s =>
        ((forRange (s._cols - idx)
          (fun m s =>
            (s.store r (s._cols - m) (s._data.read r (s._cols - m - 1))).tick
              (fun k => { k with element_assignments := k.element_assignments + 1 }))
          s).store r idx DEFAULT_INIT_VALUE).tick
          (fun k => { k with element_writes := k.element_writes + 1 }))
      t1 = u at hf hre
  obtain ⟨f1, f2, f3, f4⟩ := sizes_fields ((sizes_of_frame hf).trans rfl)
  have key := grow_then_shrink_cols t t1
    (({ u with _cols := u._cols + 1 } : DynamicTable).tick
      (fun k => { k with col_inserts := k.col_inserts + 1 }))
    hinv hcase
    (by show (u._rows, u._cols + 1, u._row_capacity, u._col_capacity) = _
        rw [f1, f2, f3, f4])
    (by
      rw [reallocations_tick]
      · exact hre
      · intro k; rfl)
  refine ⟨t1, _, he, by unfold insert_col_at; rw [if_neg (by omega), he], ?_, ?_⟩
  · intro hg
    simp only [hu]
    rw [key.1 hg]
    exact f4
  · simp only [hu]
    exact key.2

/-- After a growth for one more row the shrink test is false. -/
theorem no_shrink_after_row_growth (t t1 : DynamicTable) (hinv : t.Inv)
    (he : t.ensure_row_capacity_for (t._rows + 1) = some t1)
    (hg : t._row_capacity < t1._row_capacity) :
    ¬ (t._rows + 1 ≤ t1._row_capacity / 4 ∧ t1._row_capacity > 1) := by
  obtain ⟨t1', he', hcase⟩ := ensure_row_next t hinv.row_cap_pos hinv.rows_le
  rw [he] at he'
  cases he'
  rcases hcase with ⟨_, rfl⟩ | ⟨hfull, rfl⟩
  · exact absurd hg (Nat.lt_irrefl _)
  · rw [(reallocate_core t _ _).2.2.1]
    have := hinv.row_cap_pos
    omega

/-- After a growth for one more column the shrink test is false. -/
theorem no_shrink_after_col_growth (t t1 : DynamicTable) (hinv : t.Inv)
    (he : t.ensure_col_capacity_for (t._cols + 1) = some t1)
    (hg : t._col_capacity < t1._col_capacity) :
    ¬ (t._cols + 1 ≤ t1._col_capacity / 4 ∧ t1._col_capacity > 1) := by
  obtain ⟨t1', he', hcase⟩ := ensure_col_next t hinv.col_cap_pos hinv.cols_le
  rw [he] at he'
  cases he'
  rcases hcase with ⟨_, rfl⟩ | ⟨hfull, rfl⟩
  · exact absurd hg (Nat.lt_irrefl _)
  · rw [(reallocate_core t _ _).2.2.2.1]
    have := hinv.col_cap_pos
    omega

end DynamicTable

/-! ## Tables that hold only default values -/

namespace DynamicTable

theorem store_allDefault (t : DynamicTable) (r c : Nat) (v : Int) (h : t._data.AllDefault)
    (hv : v = DEFAULT_INIT_VALUE) : (t.store r c v)._data.AllDefault := by
  intro r' c'
  show (t._data.write r c v).read r' c' = _
  rw [Grid.read_write]
  by_cases hc : r' = r ∧ c' = c ∧ r < t._data.length ∧ c < t._data.width r
  · rw [if_pos hc]; exact hv
  · rw [if_neg hc]; exact h r' c'

theorem reallocate_allDefault (t : DynamicTable) (R C : Nat) (h : t._data.AllDefault) :
    (t.reallocate R C)._data.AllDefault := by
  intro r c
  rw [(reallocate_core t R C).2.2.2.2.2 r c]
  by_cases hc : r < min t._rows (max 1 R) ∧ c < min t._cols (max 1 C)
  · rw [if_pos hc]; exact h r c
  · rw [if_neg hc]; rfl

theorem new_allDefault (k : Option OperationCounter) (ir ic : Nat) :
    (new k ir ic)._data.AllDefault :=
  (new_core k ir ic).2.2

theorem init_row_allDefault (t : DynamicTable) (r : Nat) (h : t._data.AllDefault) :
    (t.init_row r)._data.AllDefault :=
  forRange_induct (fun _ (s : DynamicTable) => s._data.AllDefault) _ _ t h
    (fun c x _ hx => store_allDefault x r c _ hx rfl)

theorem copy_row_allDefault (t : DynamicTable) (dst src : Nat) (h : t._data.AllDefault) :
    (t.copy_row dst src)._data.AllDefault :=
  forRange_induct (fun _ (s : DynamicTable) => s._data.AllDefault) _ _ t h
    (fun c x _ hx => store_allDefault x dst c _ hx (hx src c))

theorem count_destroys_data (t : DynamicTable) (n : Nat) : (t.count_destroys n)._data = t._data :=
  congrArg Prod.fst (count_destroys_core t n)

theorem shrink_rows_allDefault (t : DynamicTable) (h : t._data.AllDefault) :
    t.shrink_rows._data.AllDefault := by
  unfold shrink_rows
  by_cases hc : t._rows ≤ t._row_capacity / 4 ∧ t._row_capacity > 1
  · rw [if_pos hc]; exact reallocate_allDefault t _ _ h
  · rw [if_neg hc]; exact h

theorem shrink_cols_allDefault (t : DynamicTable) (h : t._data.AllDefault) :
    t.shrink_cols._data.AllDefault := by
  unfold shrink_cols
  by_cases hc : t._cols ≤ t._col_capacity / 4 ∧ t._col_capacity > 1
  · rw [if_pos hc]; exact reallocate_allDefault t _ _ h
  · rw [if_neg hc]; exact h

theorem ensure_row_allDefault (t t1 : DynamicTable) (n : Nat)
    (he : t.ensure_row_capacity_for n = some t1) (h : t._data.AllDefault) :
    t1._data.AllDefault := by
  unfold ensure_row_capacity_for at he
  by_cases hn : n ≤ t._row_capacity
  · rw [if_pos hn] at he
    cases he
    exact h
  · rw [if_neg hn] at he
    cases hd : double_until (n + 1) t._row_capacity n with
    | none => rw [hd] at he; cases he
    | some c =>
      rw [hd] at he
      cases he
      exact reallocate_allDefault t _ _ h

theorem ensure_col_allDefault (t t1 : DynamicTable) (n : Nat)
    (he : t.ensure_col_capacity_for n = some t1) (h : t._data.AllDefault) :
    t1._data.AllDefault := by
  unfold ensure_col_capacity_for at he
  by_cases hn : n ≤ t._col_capacity
  · rw [if_pos hn] at he
    cases he
    exact h
  · rw [if_neg hn] at he
    cases hd : double_until (n + 1) t._col_capacity n with
    | none => rw [hd] at he; cases he
    | some c =>
      rw [hd] at he
      cases he
      exact reallocate_allDefault t _ _ h

theorem push_row_allDefault (t t' : DynamicTable) (res : Result Unit)
    (hop : t.push_row = some (res, t')) (h : t._data.AllDefault) : t'._data.AllDefault := by
  unfold push_row at hop
  cases he : t.ensure_row_capacity_for (t._rows + 1) with
  | none => rw [he] at hop; cases hop
  | some t1 =>
    rw [he] at hop
    cases hop
    exact shrink_rows_allDefault _
      (init_row_allDefault t1 _ (ensure_row_allDefault t t1 _ he h))

theorem insert_row_at_allDefault (t t' : DynamicTable) (idx : Nat) (res : Result Unit)
    (hop : t.insert_row_at idx = some (res, t')) (h : t._data.AllDefault) :
    t'._data.AllDefault := by
  unfold insert_row_at at hop
  by_cases hidx : idx > t._rows
  · rw [if_pos hidx] at hop
    cases hop
    exact h
  · rw [if_neg hidx] at hop
    cases he : t.ensure_row_capacity_for (t._rows + 1) with
    | none => rw [he] at hop; cases hop
    | some t1 =>
      rw [he] at hop
      cases hop
      refine shrink_rows_allDefault _ (init_row_allDefault _ _ ?_)
      exact forRange_induct (fun _ (s : DynamicTable) => s._data.AllDefault) _ _ t1
        (ensure_row_allDefault t t1 _ he h)
        (fun m x _ hx => copy_row_allDefault x _ _ hx)

theorem pop_row_allDefault (t t' : DynamicTable) (res : Result Unit)
    (hop : t.pop_row = some (res, t')) (h : t._data.AllDefault) : t'._data.AllDefault := by
  unfold pop_row at hop
  by_cases hz : t._rows = 0
  · rw [if_pos hz] at hop
    cases hop
    exact h
  · rw [if_neg hz] at hop
    cases hop
    refine shrink_rows_allDefault _ ?_
    show (t.count_destroys t._col_capacity)._data.AllDefault
    rw [count_destroys_data]
    exact h

theorem remove_row_at_allDefault (t t' : DynamicTable) (idx : Nat) (res : Result Unit)
    (hop : t.remove_row_at idx = some (res, t')) (h : t._data.AllDefault) :
    t'._data.AllDefault := by
  unfold remove_row_at at hop
  by_cases hidx : idx ≥ t._rows
  · rw [if_pos hidx] at hop
    cases hop
    exact h
  · rw [if_neg hidx] at hop
    cases hop
    refine shrink_rows_allDefault _ ?_
    show ((forRange (t._rows - 1 - idx)
      (fun m s => s.copy_row (idx + m) (idx + m + 1)) t).count_destroys _)._data.AllDefault
    rw [count_destroys_data]
    exact forRange_induct (fun _ (s : DynamicTable) => s._data.AllDefault) _ _ t h
      (fun m x _ hx => copy_row_allDefault x _ _ hx)

theorem push_col_allDefault (t t' : DynamicTable) (res : Result Unit)
    (hop : t.push_col = some (res, t')) (h : t._data.AllDefault) : t'._data.AllDefault := by
  unfold push_col at hop
  cases he : t.ensure_col_capacity_for (t._cols + 1) with
  | none => rw [he] at hop; cases hop
  | some t1 =>
    rw [he] at hop
    cases hop
    refine shrink_cols_allDefault _ ?_
    exact forRange_induct (fun _ (s : DynamicTable) => s._data.AllDefault) _ _ t1
      (ensure_col_allDefault t t1 _ he h)
      (fun r x _ hx => store_allDefault x r _ _ hx rfl)

theorem insert_col_at_allDefault (t t' : DynamicTable) (idx : Nat) (res : Result Unit)
    (hop : t.insert_col_at idx = some (res, t')) (h : t._data.AllDefault) :
    t'._data.AllDefault := by
  unfold insert_col_at at hop
  by_cases hidx : idx > t._cols
  · rw [if_pos hidx] at hop
    cases hop
    exact h
  · rw [if_neg hidx] at hop
    cases he : t.ensure_col_capacity_for (t._cols + 1) with
    | none => rw [he] at hop; cases hop
    | some t1 =>
      rw [he] at hop
      cases hop
      refine shrink_cols_allDefault _ ?_
      exact forRange_induct (fun _ (s : DynamicTable) => s._data.AllDefault) _ _ t1
        (ensure_col_allDefault t t1 _ he h)
        (fun r x _ hx => store_allDefault _ r idx _
          (forRange_induct (fun _ (s : DynamicTable) => s._data.AllDefault) _ _ x hx
            (fun m y _ hy => store_allDefault y r _ _ hy (hy r _))) rfl)

theorem pop_col_allDefault (t t' : DynamicTable) (res : Result Unit)
    (hop : t.pop_col = some (res, t')) (h : t._data.AllDefault) : t'._data.AllDefault := by
  unfold pop_col at hop
  by_cases hz : t._cols = 0
  · rw [if_pos hz] at hop
    cases hop
    exact h
  · rw [if_neg hz] at hop
    cases hop
    refine shrink_cols_allDefault _ ?_
    show (t.count_destroys t._row_capacity)._data.AllDefault
    rw [count_destroys_data]
    exact h

theorem remove_col_at_allDefault (t t' : DynamicTable) (idx : Nat) (res : Result Unit)
    (hop : t.remove_col_at idx = some (res, t')) (h : t._data.AllDefault) :
    t'._data.AllDefault := by
  unfold remove_col_at at hop
  by_cases hidx : idx ≥ t._cols
  · rw [if_pos hidx] at hop
    cases hop
    exact h
  · rw [if_neg hidx] at hop
    cases hop
    refine shrink_cols_allDefault _ ?_
    exact forRange_induct (fun _ (s : DynamicTable) => s._data.AllDefault) _ _ t h
      (fun r x _ hx =>
        forRange_induct (fun _ (s : DynamicTable) => s._data.AllDefault) _ _ x hx
          (fun m y _ hy => store_allDefault y r _ _ hy (hy r _)))

/-- Every call other than `set` keeps a grid of default values. -/
theorem apply_allDefault (t t' : DynamicTable) (op : Op) (res : Result Unit)
    (hop : t.apply op = some (res, t')) (hset : op.is_set = false)
    (h : t._data.AllDefault) : t'._data.AllDefault := by
  cases op with
  | push_row => exact push_row_allDefault t t' res hop h
  | insert_row_at idx => exact insert_row_at_allDefault t t' idx res hop h
  | pop_row => exact pop_row_allDefault t t' res hop h
  | remove_row_at idx => exact remove_row_at_allDefault t t' idx res hop h
  | push_col => exact push_col_allDefault t t' res hop h
  | insert_col_at idx => exact insert_col_at_allDefault t t' idx res hop h
  | pop_col => exact pop_col_allDefault t t' res hop h
  | remove_col_at idx => exact remove_col_at_allDefault t t' idx res hop h
  | set r c v => exact absurd hset (by simp [Op.is_set])
  | clear =>
    cases hop
    exact h

theorem run_allDefault (ops : List Op) (t : DynamicTable) (hinv : t.Inv)
    (hset : ∀ op, op ∈ ops → op.is_set = false) (h : t._data.AllDefault) :
    ∃ t', t.run ops = some t' ∧ t'._data.AllDefault := by
  induction ops generalizing t with
  | nil => exact ⟨t, rfl, h⟩
  | cons op ops ih =>
    obtain ⟨res, t1, h1, hinv1⟩ := apply_Inv t op hinv
    have hd1 := apply_allDefault t t1 op res h1 (hset op (List.mem_cons_self _ _)) h
    obtain ⟨t', h2, hd'⟩ := ih t1 hinv1
      (fun o ho => hset o (List.mem_cons_of_mem _ ho)) hd1
    exact ⟨t', by rw [run, h1]; exact h2, hd'⟩

end DynamicTable

/-! ## The counter does not influence the table -/

theorem forRange_map {σ τ : Type} (p : σ → τ) (n : Nat) (b1 : Nat → σ → σ) (b2 : Nat → τ → τ)
    (s : σ) (h : ∀ i x, p (b1 i x) = b2 i (p x)) :
    p (forRange n b1 s) = forRange n b2 (p s) := by
  induction n with
  | zero => rfl
  | succ m ih =>
    show p (b1 m (forRange m b1 s)) = b2 m (forRange m b2 (p s))
    rw [h, ih]

theorem forRange_comm {σ : Type} (p : σ → σ) (n : Nat) (body : Nat → σ → σ) (s : σ)
    (h : ∀ i x, p (body i x) = body i (p x)) :
    p (forRange n body s) = forRange n body (p s) :=
  forRange_map p n body body s h

namespace DynamicTable

theorem fill_default_detach (R C : Nat) (s : Grid × DynamicTable) :
    fill_default R C (detach_state s) = detach_state (fill_default R C s) := by
  unfold fill_default
  symm
  apply forRange_comm detach_state
  intro i x
  apply forRange_comm detach_state
  intro j y
  rfl

theorem copy_cells_detach (mr mc : Nat) (s : Grid × DynamicTable) :
    copy_cells mr mc (detach_state s) = detach_state (copy_cells mr mc s) := by
  unfold copy_cells
  symm
  apply forRange_comm detach_state
  intro r x
  apply forRange_comm detach_state
  intro c y
  rfl

theorem reallocate_detach (t : DynamicTable) (R C : Nat) :
    (t.with_counter none).reallocate R C = (t.reallocate R C).with_counter none := by
  have h1 : fill_default (if R < 1 then 1 else R) (if C < 1 then 1 else C)
      (List.replicate (if R < 1 then 1 else R) [], t.with_counter none)
      = detach_state (fill_default (if R < 1 then 1 else R) (if C < 1 then 1 else C)
        (List.replicate (if R < 1 then 1 else R) [], t)) :=
    fill_default_detach _ _ (List.replicate (if R < 1 then 1 else R) [], t)
  unfold reallocate
  simp only
  rw [h1, copy_cells_detach]
  rfl

theorem ensure_row_capacity_for_detach (t : DynamicTable) (n : Nat) :
    (t.with_counter none).ensure_row_capacity_for n
      = (t.ensure_row_capacity_for n).map (fun u => u.with_counter none) := by
  unfold ensure_row_capacity_for
  by_cases hn : n ≤ t._row_capacity
  · rw [if_pos hn, if_pos (show n ≤ (t.with_counter none)._row_capacity from hn)]
    rfl
  · rw [if_neg hn, if_neg (show ¬ n ≤ (t.with_counter none)._row_capacity from hn)]
    show (match double_until (n + 1) t._row_capacity n with
      | none => none
      | some c => some ((t.with_counter none).reallocate c t._col_capacity)) = _
    cases double_until (n + 1) t._row_capacity n with
    | none => rfl
    | some c => exact congrArg some (reallocate_detach t c _)

theorem ensure_col_capacity_for_detach (t : DynamicTable) (n : Nat) :
    (t.with_counter none).ensure_col_capacity_for n
      = (t.ensure_col_capacity_for n).map (fun u => u.with_counter none) := by
  unfold ensure_col_capacity_for
  by_cases hn : n ≤ t._col_capacity
  · rw [if_pos hn, if_pos (show n ≤ (t.with_counter none)._col_capacity from hn)]
    rfl
  · rw [if_neg hn, if_neg (show ¬ n ≤ (t.with_counter none)._col_capacity from hn)]
    show (match double_until (n + 1) t._col_capacity n with
      | none => none
      | some c => some ((t.with_counter none).reallocate t._row_capacity c)) = _
    cases double_until (n + 1) t._col_capacity n with
    | none => rfl
    | some c => exact congrArg some (reallocate_detach t _ c)

theorem shrink_rows_detach (t : DynamicTable) :
    (t.with_counter none).shrink_rows = t.shrink_rows.with_counter none := by
  unfold shrink_rows
  by_cases h : t._rows ≤ t._row_capacity / 4 ∧ t._row_capacity > 1
  · rw [if_pos h, if_pos (show (t.with_counter none)._rows ≤
      (t.with_counter none)._row_capacity / 4 ∧ (t.with_counter none)._row_capacity > 1 from h)]
    exact reallocate_detach t _ _
  · rw [if_neg h, if_neg (show ¬ ((t.with_counter none)._rows ≤
      (t.with_counter none)._row_capacity / 4 ∧ (t.with_counter none)._row_capacity > 1) from h)]

theorem shrink_cols_detach (t : DynamicTable) :
    (t.with_counter none).shrink_cols = t.shrink_cols.with_counter none := by
  unfold shrink_cols
  by_cases h : t._cols ≤ t._col_capacity / 4 ∧ t._col_capacity > 1
  · rw [if_pos h, if_pos (show (t.with_counter none)._cols ≤
      (t.with_counter none)._col_capacity / 4 ∧ (t.with_counter none)._col_capacity > 1 from h)]
    exact reallocate_detach t _ _
  · rw [if_neg h, if_neg (show ¬ ((t.with_counter none)._cols ≤
      (t.with_counter none)._col_capacity / 4 ∧ (t.with_counter none)._col_capacity > 1) from h)]

theorem init_row_detach (t : DynamicTable) (r : Nat) :
    (t.with_counter none).init_row r = (t.init_row r).with_counter none := by
  unfold init_row
  refine (forRange_comm (fun u => u.with_counter none) t._col_capacity _ t ?_).symm
  intro _ _
  rfl

theorem copy_row_detach (t : DynamicTable) (dst src : Nat) :
    (t.with_counter none).copy_row dst src = (t.copy_row dst src).with_counter none := by
  unfold copy_row
  refine (forRange_comm (fun u => u.with_counter none) t._col_capacity _ t ?_).symm
  intro _ _
  rfl

theorem count_destroys_detach (t : DynamicTable) (n : Nat) :
    (t.with_counter none).count_destroys n = (t.count_destroys n).with_counter none := by
  unfold count_destroys
  refine (forRange_comm (fun u => u.with_counter none) n _ t ?_).symm
  intro _ _
  rfl

theorem shift_down_detach (t : DynamicTable) (n : Nat) :
    forRange n (fun m s => s.copy_row (s._rows - m) (s._rows - m - 1)) (t.with_counter none)
      = (forRange n (fun m s => s.copy_row (s._rows - m) (s._rows - m - 1)) t).with_counter
        none := by
  refine (forRange_comm (fun u => u.with_counter none) n _ t ?_).symm
  intro _ x
  exact (copy_row_detach x _ _).symm

theorem shift_up_detach (t : DynamicTable) (idx n : Nat) :
    forRange n (fun m s => s.copy_row (idx + m) (idx + m + 1)) (t.with_counter none)
      = (forRange n (fun m s => s.copy_row (idx + m) (idx + m + 1)) t).with_counter none := by
  refine (forRange_comm (fun u => u.with_counter none) n _ t ?_).symm
  intro _ x
  exact (copy_row_detach x _ _).symm

end DynamicTable

/-! ## The counter does not influence the operations -/

namespace DynamicTable

theorem some_ok_congr {x y : DynamicTable} (h : x = y) :
    (some (Result.ok (), x) : Option (Result Unit × DynamicTable)) = some (Result.ok (), y) := by
  rw [h]

theorem push_col_loop_detach (t : DynamicTable) :
    forRange (t.with_counter none)._row_capacity
      (fun r s =>
        (s.store r s._cols DEFAULT_INIT_VALUE).tick
          (fun k => { k with element_writes := k.element_writes + 1 }))
      (t.with_counter none)
    = (forRange t._row_capacity
      (fun r s =>
        (s.store r s._cols DEFAULT_INIT_VALUE).tick
          (fun k => { k with element_writes := k.element_writes + 1 }))
      t).with_counter none := by
  refine (forRange_comm (fun u => u.with_counter none) t._row_capacity _ t ?_).symm
  intro _ _
  rfl

theorem insert_col_loop_detach (t : DynamicTable) (idx : Nat) :
    forRange (t.with_counter none)._row_capacity
      (fun r s =>
        ((forRange (s._cols - idx)
          (fun m s =>
            (s.store r (s._cols - m) (s._data.read r (s._cols - m - 1))).tick
              (fun k => { k with element_assignments := k.element_assignments + 1 }))
          s).store r idx DEFAULT_INIT_VALUE).tick
          (fun k => { k with element_writes := k.element_writes + 1 }))
      (t.with_counter none)
    = (forRange t._row_capacity
      (fun r s =>
        ((forRange (s._cols - idx)
          (fun m s =>
            (s.store r (s._cols - m) (s._data.read r (s._cols - m - 1))).tick
              (fun k => { k with element_assignments := k.element_assignments + 1 }))
          s).store r idx DEFAULT_INIT_VALUE).tick
          (fun k => { k with element_writes := k.element_writes + 1 }))
      t).with_counter none := by
  refine (forRange_comm (fun u => u.with_counter none) t._row_capacity _ t ?_).symm
  intro r x
  have inner := forRange_comm (fun u : DynamicTable => u.with_counter none) (x._cols - idx)
    (fun m s =>
      (s.store r (s._cols - m) (s._data.read r (s._cols - m - 1))).tick
        (fun k => { k with element_assignments := k.element_assignments + 1 }))
    x (fun _ _ => rfl)
  show (((forRange (x._cols - idx) _ x).store r idx DEFAULT_INIT_VALUE).tick _).with_counter none
    = ((forRange (x._cols - idx) _ (x.with_counter none)).store r idx DEFAULT_INIT_VALUE).tick _
  rw [← inner]
  rfl

theorem remove_col_loop_detach (t : DynamicTable) (idx : Nat) :
    forRange (t.with_counter none)._row_capacity
      (fun r s =>
        (forRange (s._cols - 1 - idx)
          (fun m s =>
            (s.store r (idx + m) (s._data.read r (idx + m + 1))).tick
              (fun k => { k with element_assignments := k.element_assignments + 1 }))
          s).tick (fun k => { k with element_destroys := k.element_destroys + 1 }))
      (t.with_counter none)
    = (forRange t._row_capacity
      (fun r s =>
        (forRange (s._cols - 1 - idx)
          (fun m s =>
            (s.store r (idx + m) (s._data.read r (idx + m + 1))).tick
              (fun k => { k with element_assignments := k.element_assignments + 1 }))
          s).tick (fun k => { k with element_destroys := k.element_destroys + 1 }))
      t).with_counter none := by
  refine (forRange_comm (fun u => u.with_counter none) t._row_capacity _ t ?_).symm
  intro r x
  have inner := forRange_comm (fun u : DynamicTable => u.with_counter none) (x._cols - 1 - idx)
    (fun m s =>
      (s.store r (idx + m) (s._data.read r (idx + m + 1))).tick
        (fun k => { k with element_assignments := k.element_assignments + 1 }))
    x (fun _ _ => rfl)
  show ((forRange (x._cols - 1 - idx) _ x).tick _).with_counter none
    = (forRange (x._cols - 1 - idx) _ (x.with_counter none)).tick _
  rw [← inner]
  rfl

theorem push_row_detach (t : DynamicTable) :
    (t.with_counter none).push_row = detach_outcome t.push_row := by
  unfold push_row
  rw [show (t.with_counter none)._rows = t._rows from rfl, ensure_row_capacity_for_detach]
  cases t.ensure_row_capacity_for (t._rows + 1) with
  | none => rfl
  | some t1 =>
    show some (Result.ok (), _) = some (Result.ok (), _)
    rw [show (t1.with_counter none)._rows = t1._rows from rfl, init_row_detach]
    refine some_ok_congr (Eq.trans ?_ (shrink_rows_detach _))
    rfl

theorem insert_row_at_detach (t : DynamicTable) (idx : Nat) :
    (t.with_counter none).insert_row_at idx = detach_outcome (t.insert_row_at idx) := by
  unfold insert_row_at
  rw [show (t.with_counter none)._rows = t._rows from rfl]
  by_cases hidx : idx > t._rows
  · rw [if_pos hidx, if_pos hidx]
    rfl
  · rw [if_neg hidx, if_neg hidx, ensure_row_capacity_for_detach]
    cases t.ensure_row_capacity_for (t._rows + 1) with
    | none => rfl
    | some t1 =>
      show some (Result.ok (), _) = some (Result.ok (), _)
      rw [show (t1.with_counter none)._rows = t1._rows from rfl, shift_down_detach,
        init_row_detach]
      refine some_ok_congr (Eq.trans ?_ (shrink_rows_detach _))
      rfl

theorem pop_row_detach (t : DynamicTable) :
    (t.with_counter none).pop_row = detach_outcome t.pop_row := by
  unfold pop_row
  rw [show (t.with_counter none)._rows = t._rows from rfl]
  by_cases hz : t._rows = 0
  · rw [if_pos hz, if_pos hz]
    rfl
  · rw [if_neg hz, if_neg hz]
    show some (Result.ok (), _) = some (Result.ok (), _)
    rw [show (t.with_counter none)._col_capacity = t._col_capacity from rfl,
      count_destroys_detach]
    refine some_ok_congr (Eq.trans ?_ (shrink_rows_detach _))
    rfl

theorem remove_row_at_detach (t : DynamicTable) (idx : Nat) :
    (t.with_counter none).remove_row_at idx = detach_outcome (t.remove_row_at idx) := by
  unfold remove_row_at
  rw [show (t.with_counter none)._rows = t._rows from rfl]
  by_cases hidx : idx ≥ t._rows
  · rw [if_pos hidx, if_pos hidx]
    rfl
  · rw [if_neg hidx, if_neg hidx]
    show some (Result.ok (), _) = some (Result.ok (), _)
    rw [shift_up_detach]
    rw [show ((forRange (t._rows - 1 - idx) (fun m s => s.copy_row (idx + m) (idx + m + 1))
      t).with_counter none)._col_capacity = (forRange (t._rows - 1 - idx)
        (fun m s => s.copy_row (idx + m) (idx + m + 1)) t)._col_capacity from rfl,
      count_destroys_detach]
    refine some_ok_congr (Eq.trans ?_ (shrink_rows_detach _))
    rfl

theorem push_col_detach (t : DynamicTable) :
    (t.with_counter none).push_col = detach_outcome t.push_col := by
  unfold push_col
  rw [show (t.with_counter none)._cols = t._cols from rfl, ensure_col_capacity_for_detach]
  cases t.ensure_col_capacity_for (t._cols + 1) with
  | none => rfl
  | some t1 =>
    show some (Result.ok (), _) = some (Result.ok (), _)
    rw [push_col_loop_detach]
    refine some_ok_congr (Eq.trans ?_ (shrink_cols_detach _))
    rfl

theorem insert_col_at_detach (t : DynamicTable) (idx : Nat) :
    (t.with_counter none).insert_col_at idx = detach_outcome (t.insert_col_at idx) := by
  unfold insert_col_at
  rw [show (t.with_counter none)._cols = t._cols from rfl]
  by_cases hidx : idx > t._cols
  · rw [if_pos hidx, if_pos hidx]
    rfl
  · rw [if_neg hidx, if_neg hidx, ensure_col_capacity_for_detach]
    cases t.ensure_col_capacity_for (t._cols + 1) with
    | none => rfl
    | some t1 =>
      show some (Result.ok (), _) = some (Result.ok (), _)
      simp only
      rw [insert_col_loop_detach]
      refine some_ok_congr (Eq.trans ?_ (shrink_cols_detach _))
      rfl

theorem pop_col_detach (t : DynamicTable) :
    (t.with_counter none).pop_col = detach_outcome t.pop_col := by
  unfold pop_col
  rw [show (t.with_counter none)._cols = t._cols from rfl]
  by_cases hz : t._cols = 0
  · rw [if_pos hz, if_pos hz]
    rfl
  · rw [if_neg hz, if_neg hz]
    show some (Result.ok (), _) = some (Result.ok (), _)
    rw [show (t.with_counter none)._row_capacity = t._row_capacity from rfl,
      count_destroys_detach]
    refine some_ok_congr (Eq.trans ?_ (shrink_cols_detach _))
    rfl

theorem remove_col_at_detach (t : DynamicTable) (idx : Nat) :
    (t.with_counter none).remove_col_at idx = detach_outcome (t.remove_col_at idx) := by
  unfold remove_col_at
  rw [show (t.with_counter none)._cols = t._cols from rfl]
  by_cases hidx : idx ≥ t._cols
  · rw [if_pos hidx, if_pos hidx]
    rfl
  · rw [if_neg hidx, if_neg hidx]
    show some (Result.ok (), _) = some (Result.ok (), _)
    simp only
    rw [remove_col_loop_detach]
    refine some_ok_congr (Eq.trans ?_ (shrink_cols_detach _))
    rfl

theorem set_detach (t : DynamicTable) (r c : Nat) (v : Int) :
    (t.with_counter none).set r c v = detach_outcome (t.set r c v) := by
  unfold set
  rw [show (t.with_counter none)._rows = t._rows from rfl,
    show (t.with_counter none)._cols = t._cols from rfl]
  by_cases hb : r ≥ t._rows ∨ c ≥ t._cols
  · rw [if_pos hb, if_pos hb]
    rfl
  · rw [if_neg hb, if_neg hb]
    rfl

/-- Every call on the table without its counter gives the outcome of the call on the table with
its counter, with the counter taken off. -/
theorem apply_detach (t : DynamicTable) (op : Op) :
    (t.with_counter none).apply op = detach_outcome (t.apply op) := by
  cases op with
  | push_row => exact push_row_detach t
  | insert_row_at idx => exact insert_row_at_detach t idx
  | pop_row => exact pop_row_detach t
  | remove_row_at idx => exact remove_row_at_detach t idx
  | push_col => exact push_col_detach t
  | insert_col_at idx => exact insert_col_at_detach t idx
  | pop_col => exact pop_col_detach t
  | remove_col_at idx => exact remove_col_at_detach t idx
  | set r c v => exact set_detach t r c v
  | clear => rfl

theorem new_detach (k : Option OperationCounter) (ir ic : Nat) :
    (new k ir ic).with_counter none = new none ir ic := by
  have h := fill_default_detach (max 1 ir) (max 1 ic)
    (List.replicate (max 1 ir) [],
      { _data := [], _rows := 0, _cols := 0, _row_capacity := max 1 ir,
        _col_capacity := max 1 ic, _counter := k })
  unfold new
  simp only
  show _ = ({ (fill_default (max 1 ir) (max 1 ic) (detach_state (List.replicate (max 1 ir) [],
      { _data := [], _rows := 0, _cols := 0, _row_capacity := max 1 ir,
        _col_capacity := max 1 ic, _counter := k }))).2 with
    _data := (fill_default (max 1 ir) (max 1 ic) (detach_state (List.replicate (max 1 ir) [],
      { _data := [], _rows := 0, _cols := 0, _row_capacity := max 1 ir,
        _col_capacity := max 1 ic, _counter := k }))).1 } : DynamicTable)
  rw [h]
  rfl

end DynamicTable

/-! ## Cells after the column loops -/

namespace DynamicTable

/-- The loop of `push_col` that sets column `_cols` of every storage row to the default. -/
theorem push_col_loop_read (t : DynamicTable) (hwf : t.WF)
    (hroom : t._cols + 1 ≤ t._col_capacity) :
    ∀ r c, (forRange t._row_capacity
        (fun r s =>
          (s.store r s._cols DEFAULT_INIT_VALUE).tick
            (fun k => { k with element_writes := k.element_writes + 1 }))
        t)._data.read r c =
      if r < t._row_capacity ∧ c = t._cols then 0 else t._data.read r c := by
  have key := forRange_induct
    (fun i (s : DynamicTable) =>
      s.frame = t.frame ∧
        ∀ r c, s._data.read r c = if r < i ∧ c = t._cols then 0 else t._data.read r c)
    t._row_capacity
    (fun r s =>
      (s.store r s._cols DEFAULT_INIT_VALUE).tick
        (fun k => { k with element_writes := k.element_writes + 1 }))
    t
    ⟨rfl, fun r c => by rw [if_neg (by omega)]⟩
    (by
      intro i s hi ⟨hf, hread⟩
      refine ⟨by simpa using hf, ?_⟩
      intro r c
      show (s._data.write i s._cols DEFAULT_INIT_VALUE).read r c = _
      rw [Grid.read_write, frame_length hf, frame_width hf, frame_cols hf, hwf.dim.1,
        hwf.dim.2 i hi, hread r c]
      by_cases h1 : r = i ∧ c = t._cols ∧ i < t._row_capacity ∧ t._cols < t._col_capacity
      · rw [if_pos h1, if_pos ⟨by omega, h1.2.1⟩]; rfl
      · rw [if_neg h1]
        by_cases h2 : r < i ∧ c = t._cols
        · rw [if_pos h2, if_pos ⟨by omega, h2.2⟩]
        · rw [if_neg h2, if_neg]
          intro h3
          have : r ≠ i := fun e => h1 ⟨e, h3.2, hi, by omega⟩
          exact h2 ⟨by omega, h3.2⟩)
  exact key.2

/-- The inner loop of `insert_col_at`: in row `r` the cells `idx .. _cols - 1` move one place to
the right. -/
theorem shift_right_read (x : DynamicTable) (r idx : Nat) (hr : r < x._data.length)
    (hw : x._data.width r = x._col_capacity) (hroom : x._cols + 1 ≤ x._col_capacity) :
    (forRange (x._cols - idx)
      (fun m s =>
        (s.store r (s._cols - m) (s._data.read r (s._cols - m - 1))).tick
          (fun k => { k with element_assignments := k.element_assignments + 1 }))
      x).frame = x.frame ∧
    ∀ r' c, (forRange (x._cols - idx)
        (fun m s =>
          (s.store r (s._cols - m) (s._data.read r (s._cols - m - 1))).tick
            (fun k => { k with element_assignments := k.element_assignments + 1 }))
        x)._data.read r' c =
      if r' = r ∧ idx < c ∧ c ≤ x._cols then x._data.read r (c - 1) else x._data.read r' c := by
  have key := forRange_induct
    (fun m (s : DynamicTable) =>
      s.frame = x.frame ∧
        ∀ r' c, s._data.read r' c =
          if r' = r ∧ x._cols - m < c ∧ c ≤ x._cols then x._data.read r (c - 1)
          else x._data.read r' c)
    (x._cols - idx)
    (fun m s =>
      (s.store r (s._cols - m) (s._data.read r (s._cols - m - 1))).tick
        (fun k => { k with element_assignments := k.element_assignments + 1 }))
    x
    ⟨rfl, fun r' c => by rw [if_neg (by omega)]⟩
    (by
      intro m s hm ⟨hf, hread⟩
      refine ⟨by simpa using hf, ?_⟩
      intro r' c
      show (s._data.write r (s._cols - m) (s._data.read r (s._cols - m - 1))).read r' c = _
      rw [Grid.read_write, frame_length hf, frame_width hf, frame_cols hf, hw, hread r' c,
        hread r (x._cols - m - 1)]
      rw [if_neg (show ¬ (r = r ∧ x._cols - m < x._cols - m - 1 ∧ x._cols - m - 1 ≤ x._cols)
        by omega)]
      by_cases h1 : r' = r ∧ c = x._cols - m ∧ r < x._data.length ∧
          x._cols - m < x._col_capacity
      · rw [if_pos h1, if_pos ⟨h1.1, by omega, by omega⟩, h1.2.1]
      · rw [if_neg h1]
        by_cases h2 : r' = r ∧ x._cols - m < c ∧ c ≤ x._cols
        · rw [if_pos h2, if_pos ⟨h2.1, by omega, h2.2.2⟩]
        · rw [if_neg h2, if_neg]
          intro h3
          have : c ≠ x._cols - m := fun e => h1 ⟨h3.1, e, hr, by omega⟩
          exact h2 ⟨h3.1, by omega, h3.2.2⟩)
  refine ⟨key.1, fun r' c => ?_⟩
  rw [key.2 r' c]
  by_cases h : r' = r ∧ idx < c ∧ c ≤ x._cols
  · rw [if_pos h, if_pos ⟨h.1, by omega, h.2.2⟩]
  · rw [if_neg h, if_neg]
    intro h3
    exact h ⟨h3.1, by omega, h3.2.2⟩

/-- The inner loop of `remove_col_at`: in row `r` the cells `idx + 1 .. _cols - 1` move one
place to the left. -/
theorem shift_left_read (x : DynamicTable) (r idx : Nat) (hr : r < x._data.length)
    (hw : x._data.width r = x._col_capacity) (hcols : x._cols ≤ x._col_capacity) :
    (forRange (x._cols - 1 - idx)
      (fun m s =>
        (s.store r (idx + m) (s._data.read r (idx + m + 1))).tick
          (fun k => { k with element_assignments := k.element_assignments + 1 }))
      x).frame = x.frame ∧
    ∀ r' c, (forRange (x._cols - 1 - idx)
        (fun m s =>
          (s.store r (idx + m) (s._data.read r (idx + m + 1))).tick
            (fun k => { k with element_assignments := k.element_assignments + 1 }))
        x)._data.read r' c =
      if r' = r ∧ idx ≤ c ∧ c + 1 < x._cols then x._data.read r (c + 1)
      else x._data.read r' c := by
  have key := forRange_induct
    (fun m (s : DynamicTable) =>
      s.frame = x.frame ∧
        ∀ r' c, s._data.read r' c =
          if r' = r ∧ idx ≤ c ∧ c < idx + m then x._data.read r (c + 1)
          else x._data.read r' c)
    (x._cols - 1 - idx)
    (fun m s =>
      (s.store r (idx + m) (s._data.read r (idx + m + 1))).tick
        (fun k => { k with element_assignments := k.element_assignments + 1 }))
    x
    ⟨rfl, fun r' c => by rw [if_neg (by omega)]⟩
    (by
      intro m s hm ⟨hf, hread⟩
      refine ⟨by simpa using hf, ?_⟩
      intro r' c
      show (s._data.write r (idx + m) (s._data.read r (idx + m + 1))).read r' c = _
      rw [Grid.read_write, frame_length hf, frame_width hf, hw, hread r' c,
        hread r (idx + m + 1)]
      rw [if_neg (show ¬ (r = r ∧ idx ≤ idx + m + 1 ∧ idx + m + 1 < idx + m) by omega)]
      by_cases h1 : r' = r ∧ c = idx + m ∧ r < x._data.length ∧ idx + m < x._col_capacity
      · rw [if_pos h1, if_pos ⟨h1.1, by omega, by omega⟩, h1.2.1]
      · rw [if_neg h1]
        by_cases h2 : r' = r ∧ idx ≤ c ∧ c < idx + m
        · rw [if_pos h2, if_pos ⟨h2.1, h2.2.1, by omega⟩]
        · rw [if_neg h2, if_neg]
          intro h3
          have : c ≠ idx + m := fun e => h1 ⟨h3.1, e, hr, by omega⟩
          exact h2 ⟨h3.1, h3.2.1, by omega⟩)
  refine ⟨key.1, fun r' c => ?_⟩
  rw [key.2 r' c]
  by_cases h : r' = r ∧ idx ≤ c ∧ c + 1 < x._cols
  · rw [if_pos h, if_pos ⟨h.1, h.2.1, by omega⟩]
  · rw [if_neg h, if_neg]
    intro h3
    exact h ⟨h3.1, h3.2.1, by omega⟩

end DynamicTable

/-! ## Cells after the column operations -/

namespace DynamicTable

/-- The loops of `insert_col_at`: in every storage row the cells `idx .. _cols - 1` move one
place to the right and cell `idx` becomes the default. -/
theorem insert_col_loop_read (t : DynamicTable) (idx : Nat) (hwf : t.WF)
    (hidx : idx ≤ t._cols) (hroom : t._cols + 1 ≤ t._col_capacity) :
    ∀ r c, (forRange t._row_capacity
        (fun r s =>
          ((forRange (s._cols - idx)
            (fun m s =>
              (s.store r (s._cols - m) (s._data.read r (s._cols - m - 1))).tick
                (fun k => { k with element_assignments := k.element_assignments + 1 }))
            s).store r idx DEFAULT_INIT_VALUE).tick
            (fun k => { k with element_writes := k.element_writes + 1 }))
        t)._data.read r c =
      if r < t._row_capacity then
        (if c = idx then 0
         else if idx < c ∧ c ≤ t._cols then t._data.read r (c - 1) else t._data.read r c)
      else t._data.read r c := by
  have key := forRange_induct
    (fun i (s : DynamicTable) =>
      s.frame = t.frame ∧
        ∀ r c, s._data.read r c =
          if r < i then
            (if c = idx then 0
             else if idx < c ∧ c ≤ t._cols then t._data.read r (c - 1) else t._data.read r c)
          else t._data.read r c)
    t._row_capacity
    (fun r s =>
      ((forRange (s._cols - idx)
        (fun m s =>
          (s.store r (s._cols - m) (s._data.read r (s._cols - m - 1))).tick
            (fun k => { k with element_assignments := k.element_assignments + 1 }))
        s).store r idx DEFAULT_INIT_VALUE).tick
        (fun k => { k with element_writes := k.element_writes + 1 }))
    t
    ⟨rfl, fun r c => by rw [if_neg (by omega)]⟩
    (by
      intro i s hi ⟨hf, hread⟩
      have hlen : s._data.length = t._row_capacity := (frame_length hf).trans hwf.dim.1
      have hwid : s._data.width i = s._col_capacity := by
        rw [frame_width hf, frame_col_capacity hf]; exact hwf.dim.2 i hi
      obtain ⟨hf1, hr1⟩ := shift_right_read s i idx (by omega) hwid
        (by rw [frame_cols hf, frame_col_capacity hf]; exact hroom)
      beta_reduce
      generalize forRange (s._cols - idx)
        (fun m s =>
          (s.store i (s._cols - m) (s._data.read i (s._cols - m - 1))).tick
            (fun k => { k with element_assignments := k.element_assignments + 1 }))
        s = s1 at hf1 hr1 ⊢
      refine ⟨by simpa using hf1.trans hf, ?_⟩
      intro r c
      show (s1._data.write i idx DEFAULT_INIT_VALUE).read r c = _
      have hlen1 : s1._data.length = t._row_capacity := (frame_length hf1).trans hlen
      have hwid1 : s1._data.width i = t._col_capacity := by
        rw [frame_width hf1, hwid, frame_col_capacity hf]
      have hold : ∀ c', s._data.read i c' = t._data.read i c' := by
        intro c'
        rw [hread i c', if_neg (Nat.lt_irrefl i)]
      rw [Grid.read_write, hlen1, hwid1]
      by_cases hri : r = i
      · subst hri
        by_cases hc : c = idx
        · rw [if_pos ⟨rfl, hc, hi, by omega⟩, if_pos (Nat.lt_succ_self r), if_pos hc]
          rfl
        · rw [if_neg (fun h => hc h.2.1), hr1 r c, frame_cols hf, if_pos (Nat.lt_succ_self r),
            if_neg hc]
          by_cases h2 : idx < c ∧ c ≤ t._cols
          · rw [if_pos ⟨rfl, h2⟩, if_pos h2, hold]
          · rw [if_neg (fun h => h2 h.2), if_neg h2, hold]
      · rw [if_neg (fun h => hri h.1), hr1 r c, if_neg (fun h => hri h.1), hread r c]
        by_cases h2 : r < i
        · rw [if_pos h2, if_pos (show r < i + 1 by omega)]
        · rw [if_neg h2, if_neg (show ¬ r < i + 1 by omega)])
  exact key.2

/-- The loops of `remove_col_at`: in every storage row the cells `idx + 1 .. _cols - 1` move
one place to the left. -/
theorem remove_col_loop_read (t : DynamicTable) (idx : Nat) (hwf : t.WF) :
    ∀ r c, (forRange t._row_capacity
        (fun r s =>
          (forRange (s._cols - 1 - idx)
            (fun m s =>
              (s.store r (idx + m) (s._data.read r (idx + m + 1))).tick
                (fun k => { k with element_assignments := k.element_assignments + 1 }))
            s).tick (fun k => { k with element_destroys := k.element_destroys + 1 }))
        t)._data.read r c =
      if r < t._row_capacity ∧ idx ≤ c ∧ c + 1 < t._cols then t._data.read r (c + 1)
      else t._data.read r c := by
  have key := forRange_induct
    (fun i (s : DynamicTable) =>
      s.frame = t.frame ∧
        ∀ r c, s._data.read r c =
          if r < i ∧ idx ≤ c ∧ c + 1 < t._cols then t._data.read r (c + 1)
          else t._data.read r c)
    t._row_capacity
    (fun r s =>
      (forRange (s._cols - 1 - idx)
        (fun m s =>
          (s.store r (idx + m) (s._data.read r (idx + m + 1))).tick
            (fun k => { k with element_assignments := k.element_assignments + 1 }))
        s).tick (fun k => { k with element_destroys := k.element_destroys + 1 }))
    t
    ⟨rfl, fun r c => by rw [if_neg (by omega)]⟩
    (by
      intro i s hi ⟨hf, hread⟩
      have hlen : s._data.length = t._row_capacity := (frame_length hf).trans hwf.dim.1
      have hwid : s._data.width i = s._col_capacity := by
        rw [frame_width hf, frame_col_capacity hf]; exact hwf.dim.2 i hi
      obtain ⟨hf1, hr1⟩ := shift_left_read s i idx (by omega) hwid
        (by rw [frame_cols hf, frame_col_capacity hf]; exact hwf.cols_le)
      beta_reduce
      generalize forRange (s._cols - 1 - idx)
        (fun m s =>
          (s.store i (idx + m) (s._data.read i (idx + m + 1))).tick
            (fun k => { k with element_assignments := k.element_assignments + 1 }))
        s = s1 at hf1 hr1 ⊢
      refine ⟨by simpa using hf1.trans hf, ?_⟩
      intro r c
      show s1._data.read r c = _
      rw [hr1 r c, frame_cols hf, hread r c, hread i (c + 1)]
      rw [if_neg (show ¬ (i < i ∧ idx ≤ c + 1 ∧ c + 1 + 1 < t._cols) by omega)]
      by_cases h1 : r = i ∧ idx ≤ c ∧ c + 1 < t._cols
      · rw [if_pos h1, if_pos ⟨by omega, h1.2⟩, h1.1]
      · rw [if_neg h1]
        by_cases h2 : r < i ∧ idx ≤ c ∧ c + 1 < t._cols
        · rw [if_pos h2, if_pos ⟨by omega, h2.2⟩]
        · rw [if_neg h2, if_neg]
          intro h3
          have : r ≠ i := fun e => h1 ⟨e, h3.2⟩
          exact h2 ⟨by omega, h3.2⟩)
  exact key.2

theorem push_col_cells (t : DynamicTable) (hwf : t.WF) :
    ∃ t', t.push_col = some (Result.ok (), t') ∧ t'.WF ∧
      t'._rows = t._rows ∧ t'._cols = t._cols + 1 ∧
      ∀ r c, r < t._rows → c ≤ t._cols →
        t'._data.read r c = if c < t._cols then t._data.read r c else 0 := by
  obtain ⟨t1, he, hwf1, hr1, hc1, hroom, hread1⟩ := ensure_col_next_WF t hwf
  have hroom1 : t1._cols + 1 ≤ t1._col_capacity := by omega
  have hf2 := push_col_loop_frame t1
  have hread2 := push_col_loop_read t1 hwf1 hroom1
  generalize hu2 : forRange t1._row_capacity
      (fun r s =>
        (s.store r s._cols DEFAULT_INIT_VALUE).tick
          (fun k => { k with element_writes := k.element_writes + 1 }))
      t1 = u2 at hf2 hread2
  have hwf4 := WF_bump_cols hf2 hwf1 hroom1
    (fun k => { k with col_inserts := k.col_inserts + 1 })
  obtain ⟨hwf', hread'⟩ := shrink_cols_WF _ hwf4
  have hsz := shrink_cols_sizes _ hwf4.row_cap_pos
  obtain ⟨s1, s2, _, _⟩ := sizes_fields hsz
  refine ⟨_, by unfold push_col; rw [he], ?_⟩
  simp only [hu2]
  refine ⟨hwf', ?_, ?_, ?_⟩
  · rw [s1]
    show u2._rows = _
    rw [frame_rows hf2, hr1]
  · rw [s2]
    show u2._cols + 1 = _
    rw [frame_cols hf2, hc1]
  · intro r c hr hc
    have hrr : r < t1._row_capacity := by have := hwf1.rows_le; omega
    rw [hread' r c (by show r < u2._rows; rw [frame_rows hf2, hr1]; exact hr)
      (by show c < u2._cols + 1; rw [frame_cols hf2, hc1]; omega)]
    show u2._data.read r c = _
    rw [hread2 r c, hc1]
    by_cases h1 : c < t._cols
    · rw [if_pos h1, if_neg (by omega)]
      exact hread1 r c hr h1
    · rw [if_neg h1, if_pos ⟨hrr, by omega⟩]

theorem insert_col_at_cells (t : DynamicTable) (hwf : t.WF) (idx : Nat)
    (hidx : idx ≤ t._cols) :
    ∃ t', t.insert_col_at idx = some (Result.ok (), t') ∧ t'.WF ∧
      t'._rows = t._rows ∧ t'._cols = t._cols + 1 ∧
      ∀ r c, r < t._rows → c ≤ t._cols →
        t'._data.read r c =
          if c < idx then t._data.read r c
          else if c = idx then 0 else t._data.read r (c - 1) := by
  obtain ⟨t1, he, hwf1, hr1, hc1, hroom, hread1⟩ := ensure_col_next_WF t hwf
  have hroom1 : t1._cols + 1 ≤ t1._col_capacity := by omega
  have hf2 := insert_col_loop_frame t1 idx
  have hread2 := insert_col_loop_read t1 idx hwf1 (by omega) hroom1
  simp only at hf2
  generalize hu2 : forRange t1._row_capacity
      (fun r s =>
        ((forRange (s._cols - idx)
          (fun m s =>
            (s.store r (s._cols - m) (s._data.read r (s._cols - m - 1))).tick
              (fun k => { k with element_assignments := k.element_assignments + 1 }))
          s).store r idx DEFAULT_INIT_VALUE).tick
          (fun k => { k with element_writes := k.element_writes + 1 }))
      t1 = u2 at hf2 hread2
  have hwf4 := WF_bump_cols hf2 hwf1 hroom1
    (fun k => { k with col_inserts := k.col_inserts + 1 })
  obtain ⟨hwf', hread'⟩ := shrink_cols_WF _ hwf4
  have hsz := shrink_cols_sizes _ hwf4.row_cap_pos
  obtain ⟨s1, s2, _, _⟩ := sizes_fields hsz
  refine ⟨_, by unfold insert_col_at; rw [if_neg (by omega), he], ?_⟩
  simp only [hu2]
  refine ⟨hwf', ?_, ?_, ?_⟩
  · rw [s1]
    show u2._rows = _
    rw [frame_rows hf2, hr1]
  · rw [s2]
    show u2._cols + 1 = _
    rw [frame_cols hf2, hc1]
  · intro r c hr hc
    have hrr : r < t1._row_capacity := by have := hwf1.rows_le; omega
    rw [hread' r c (by show r < u2._rows; rw [frame_rows hf2, hr1]; exact hr)
      (by show c < u2._cols + 1; rw [frame_cols hf2, hc1]; omega)]
    show u2._data.read r c = _
    rw [hread2 r c, if_pos hrr, hc1]
    by_cases h1 : c < idx
    · rw [if_pos h1, if_neg (by omega), if_neg (by omega)]
      exact hread1 r c hr (by omega)
    · rw [if_neg h1]
      by_cases h2 : c = idx
      · rw [if_pos h2, if_pos h2]
      · rw [if_neg h2, if_neg h2, if_pos ⟨by omega, hc⟩]
        exact hread1 r (c - 1) hr (by omega)

theorem pop_col_cells (t : DynamicTable) (hwf : t.WF) (hpos : t._cols ≠ 0) :
    ∃ t', t.pop_col = some (Result.ok (), t') ∧ t'.WF ∧
      t'._rows = t._rows ∧ t'._cols = t._cols - 1 ∧
      ∀ r c, r < t._rows → c + 1 < t._cols → t'._data.read r c = t._data.read r c := by
  have hc2 := count_destroys_core t t._row_capacity
  have hf2 := frame_of_core hc2
  have hd2 : (t.count_destroys t._row_capacity)._data = t._data := congrArg Prod.fst hc2
  generalize hu2 : t.count_destroys t._row_capacity = u2 at hf2 hd2
  have hwf4 := WF_drop_cols hf2 hwf (fun k => { k with col_removes := k.col_removes + 1 })
  obtain ⟨hwf', hread'⟩ := shrink_cols_WF _ hwf4
  have hsz := shrink_cols_sizes _ hwf4.row_cap_pos
  obtain ⟨s1, s2, _, _⟩ := sizes_fields hsz
  refine ⟨_, by unfold pop_col; rw [if_neg hpos], ?_⟩
  simp only [hu2]
  refine ⟨hwf', ?_, ?_, ?_⟩
  · rw [s1]
    show u2._rows = _
    rw [frame_rows hf2]
  · rw [s2]
    show u2._cols - 1 = _
    rw [frame_cols hf2]
  · intro r c hr hc
    rw [hread' r c (by show r < u2._rows; rw [frame_rows hf2]; exact hr)
      (by show c < u2._cols - 1; rw [frame_cols hf2]; omega)]
    show u2._data.read r c = _
    rw [hd2]

theorem remove_col_at_cells (t : DynamicTable) (hwf : t.WF) (idx : Nat)
    (hidx : idx < t._cols) :
    ∃ t', t.remove_col_at idx = some (Result.ok (), t') ∧ t'.WF ∧
      t'._rows = t._rows ∧ t'._cols = t._cols - 1 ∧
      ∀ r c, r < t._rows → c + 1 < t._cols →
        t'._data.read r c = if c < idx then t._data.read r c else t._data.read r (c + 1) := by
  have hf1 := remove_col_loop_frame t idx
  have hread1 := remove_col_loop_read t idx hwf
  simp only at hf1
  generalize hu1 : forRange t._row_capacity
      (fun r s =>
        (forRange (s._cols - 1 - idx)
          (fun m s =>
            (s.store r (idx + m) (s._data.read r (idx + m + 1))).tick
              (fun k => { k with element_assignments := k.element_assignments + 1 }))
          s).tick (fun k => { k with element_destroys := k.element_destroys + 1 }))
      t = u1 at hf1 hread1
  have hwf4 := WF_drop_cols hf1 hwf (fun k => { k with col_removes := k.col_removes + 1 })
  obtain ⟨hwf', hread'⟩ := shrink_cols_WF _ hwf4
  have hsz := shrink_cols_sizes _ hwf4.row_cap_pos
  obtain ⟨s1, s2, _, _⟩ := sizes_fields hsz
  refine ⟨_, by unfold remove_col_at; rw [if_neg (by omega)], ?_⟩
  simp only [hu1]
  refine ⟨hwf', ?_, ?_, ?_⟩
  · rw [s1]
    show u1._rows = _
    rw [frame_rows hf1]
  · rw [s2]
    show u1._cols - 1 = _
    rw [frame_cols hf1]
  · intro r c hr hc
    have hrr : r < t._row_capacity := by have := hwf.rows_le; omega
    rw [hread' r c (by show r < u1._rows; rw [frame_rows hf1]; exact hr)
      (by show c < u1._cols - 1; rw [frame_cols hf1]; omega)]
    show u1._data.read r c = _
    rw [hread1 r c]
    by_cases h1 : c < idx
    · rw [if_pos h1, if_neg (by omega)]
    · rw [if_neg h1, if_pos ⟨hrr, by omega, hc⟩]

end DynamicTable

/-! ## Transposition -/

namespace Grid

theorem getD_transpose (d : Grid) (R C c : Nat) (hc : c < C) :
    (d.transpose R C).getD c [] = (List.range R).map (fun r => d.read r c) := by
  unfold transpose
  rw [List.getD_eq_getElem?_getD, List.getElem?_map, List.getElem?_range hc]
  rfl

theorem length_transpose (d : Grid) (R C : Nat) : (d.transpose R C).length = C := by
  unfold transpose
  rw [List.length_map, List.length_range]

theorem width_transpose (d : Grid) (R C c : Nat) (hc : c < C) :
    (d.transpose R C).width c = R := by
  unfold width
  rw [getD_transpose d R C c hc, List.length_map, List.length_range]

theorem read_transpose (d : Grid) (R C c r : Nat) (hc : c < C) (hr : r < R) :
    (d.transpose R C).read c r = d.read r c := by
  unfold read
  rw [getD_transpose d R C c hc, List.getD_eq_getElem?_getD, List.getElem?_map,
    List.getElem?_range hr]
  rfl

end Grid

namespace DynamicTable

theorem wide_2x3_WF : wide_2x3.WF :=
  ⟨⟨by decide, by decide, by decide, by decide⟩, ⟨by decide, by decide⟩⟩

theorem transpose_WF (t : DynamicTable) (hwf : t.WF) : t.transpose.WF :=
  ⟨⟨hwf.cols_le, hwf.rows_le, hwf.col_cap_pos, hwf.row_cap_pos⟩,
    ⟨Grid.length_transpose _ _ _, fun c hc => Grid.width_transpose _ _ _ c hc⟩⟩

theorem transpose_read (t : DynamicTable) (r c : Nat) (hr : r < t._row_capacity)
    (hc : c < t._col_capacity) : t.transpose._data.read c r = t._data.read r c :=
  Grid.read_transpose _ _ _ c r hc hr

/-- The tables `a` and `b.transpose` agree when `a` has the sizes of `b` swapped and each logical
cell `(r, c)` of `a` is the cell `(c, r)` of `b`. -/
theorem agree_transposed (a b : DynamicTable) (res : Result Unit) (hb : b.WF)
    (hs : a.sizes = (b._cols, b._rows, b._col_capacity, b._row_capacity))
    (hcells : ∀ r c, r < a._rows → c < a._cols → a._data.read r c = b._data.read c r) :
    Agree (some (res, a)) (transpose_outcome (some (res, b))) := by
  obtain ⟨f1, f2, _, _⟩ := sizes_fields hs
  refine ⟨rfl, hs, fun r c hr hc => ?_⟩
  have hr' : r < b._cols := by omega
  have hc' : c < b._rows := by omega
  rw [get_eq_read a r c hr hc, get_eq_read b.transpose r c hr' hc', hcells r c hr hc]
  have := transpose_read b c r (by have := hb.rows_le; omega) (by have := hb.cols_le; omega)
  rw [this]

theorem push_row_full (t : DynamicTable) (hwf : t.WF) :
    ∃ t', t.push_row = some (Result.ok (), t') ∧ t'.WF ∧
      t'.sizes = (t._rows + 1, t._cols,
        shrunk (t._rows + 1) (grown t._rows t._row_capacity), t._col_capacity) ∧
      ∀ r c, r ≤ t._rows → c < t._cols →
        t'._data.read r c = if r < t._rows then t._data.read r c else 0 := by
  obtain ⟨t', h, hw, _, _, hread⟩ := push_row_cells t hwf
  obtain ⟨t'', h', hs⟩ := push_row_sizes t hwf.toInv
  rw [h] at h'
  cases h'
  exact ⟨t', h, hw, hs, hread⟩

theorem insert_row_at_full (t : DynamicTable) (hwf : t.WF) (idx : Nat) (hidx : idx ≤ t._rows) :
    ∃ t', t.insert_row_at idx = some (Result.ok (), t') ∧ t'.WF ∧
      t'.sizes = (t._rows + 1, t._cols,
        shrunk (t._rows + 1) (grown t._rows t._row_capacity), t._col_capacity) ∧
      ∀ r c, r ≤ t._rows → c < t._cols →
        t'._data.read r c =
          if r < idx then t._data.read r c
          else if r = idx then 0 else t._data.read (r - 1) c := by
  obtain ⟨t', h, hw, _, _, hread⟩ := insert_row_at_cells t hwf idx hidx
  obtain ⟨t'', h', hs⟩ := insert_row_at_sizes t hwf.toInv idx hidx
  rw [h] at h'
  cases h'
  exact ⟨t', h, hw, hs, hread⟩

theorem pop_row_full (t : DynamicTable) (hwf : t.WF) (hpos : t._rows ≠ 0) :
    ∃ t', t.pop_row = some (Result.ok (), t') ∧ t'.WF ∧
      t'.sizes = (t._rows - 1, t._cols, shrunk (t._rows - 1) t._row_capacity,
        t._col_capacity) ∧
      ∀ r c, r + 1 < t._rows → c < t._cols → t'._data.read r c = t._data.read r c := by
  obtain ⟨t', h, hw, _, _, hread⟩ := pop_row_cells t hwf hpos
  obtain ⟨t'', h', hs⟩ := pop_row_sizes t hwf.toInv hpos
  rw [h] at h'
  cases h'
  exact ⟨t', h, hw, hs, hread⟩

theorem remove_row_at_full (t : DynamicTable) (hwf : t.WF) (idx : Nat) (hidx : idx < t._rows) :
    ∃ t', t.remove_row_at idx = some (Result.ok (), t') ∧ t'.WF ∧
      t'.sizes = (t._rows - 1, t._cols, shrunk (t._rows - 1) t._row_capacity,
        t._col_capacity) ∧
      ∀ r c, r + 1 < t._rows → c < t._cols →
        t'._data.read r c = if r < idx then t._data.read r c else t._data.read (r + 1) c := by
  obtain ⟨t', h, hw, _, _, hread⟩ := remove_row_at_cells t hwf idx hidx
  obtain ⟨t'', h', hs⟩ := remove_row_at_sizes t hwf.toInv idx hidx
  rw [h] at h'
  cases h'
  exact ⟨t', h, hw, hs, hread⟩

theorem push_col_full (t : DynamicTable) (hwf : t.WF) :
    ∃ t', t.push_col = some (Result.ok (), t') ∧ t'.WF ∧
      t'.sizes = (t._rows, t._cols + 1, t._row_capacity,
        shrunk (t._cols + 1) (grown t._cols t._col_capacity)) ∧
      ∀ r c, r < t._rows → c ≤ t._cols →
        t'._data.read r c = if c < t._cols then t._data.read r c else 0 := by
  obtain ⟨t', h, hw, _, _, hread⟩ := push_col_cells t hwf
  obtain ⟨t'', h', hs⟩ := push_col_sizes t hwf.toInv
  rw [h] at h'
  cases h'
  exact ⟨t', h, hw, hs, hread⟩

theorem insert_col_at_full (t : DynamicTable) (hwf : t.WF) (idx : Nat) (hidx : idx ≤ t._cols) :
    ∃ t', t.insert_col_at idx = some (Result.ok (), t') ∧ t'.WF ∧
      t'.sizes = (t._rows, t._cols + 1, t._row_capacity,
        shrunk (t._cols + 1) (grown t._cols t._col_capacity)) ∧
      ∀ r c, r < t._rows → c ≤ t._cols →
        t'._data.read r c =
          if c < idx then t._data.read r c
          else if c = idx then 0 else t._data.read r (c - 1) := by
  obtain ⟨t', h, hw, _, _, hread⟩ := insert_col_at_cells t hwf idx hidx
  obtain ⟨t'', h', hs⟩ := insert_col_at_sizes t hwf.toInv idx hidx
  rw [h] at h'
  cases h'
  exact ⟨t', h, hw, hs, hread⟩

theorem pop_col_full (t : DynamicTable) (hwf : t.WF) (hpos : t._cols ≠ 0) :
    ∃ t', t.pop_col = some (Result.ok (), t') ∧ t'.WF ∧
      t'.sizes = (t._rows, t._cols - 1, t._row_capacity,
        shrunk (t._cols - 1) t._col_capacity) ∧
      ∀ r c, r < t._rows → c + 1 < t._cols → t'._data.read r c = t._data.read r c := by
  obtain ⟨t', h, hw, _, _, hread⟩ := pop_col_cells t hwf hpos
  obtain ⟨t'', h', hs⟩ := pop_col_sizes t hwf.toInv hpos
  rw [h] at h'
  cases h'
  exact ⟨t', h, hw, hs, hread⟩

theorem remove_col_at_full (t : DynamicTable) (hwf : t.WF) (idx : Nat) (hidx : idx < t._cols) :
    ∃ t', t.remove_col_at idx = some (Result.ok (), t') ∧ t'.WF ∧
      t'.sizes = (t._rows, t._cols - 1, t._row_capacity,
        shrunk (t._cols - 1) t._col_capacity) ∧
      ∀ r c, r < t._rows → c + 1 < t._cols →
        t'._data.read r c = if c < idx then t._data.read r c else t._data.read r (c + 1) := by
  obtain ⟨t', h, hw, _, _, hread⟩ := remove_col_at_cells t hwf idx hidx
  obtain ⟨t'', h', hs⟩ := remove_col_at_sizes t hwf.toInv idx hidx
  rw [h] at h'
  cases h'
  exact ⟨t', h, hw, hs, hread⟩

end DynamicTable

/-! ## Column operations as transposed row operations -/

namespace DynamicTable

theorem transpose_rows (t : DynamicTable) : t.transpose._rows = t._cols := rfl

theorem transpose_cols (t : DynamicTable) : t.transpose._cols = t._rows := rfl

theorem transpose_row_capacity (t : DynamicTable) :
    t.transpose._row_capacity = t._col_capacity := rfl

theorem transpose_col_capacity (t : DynamicTable) :
    t.transpose._col_capacity = t._row_capacity := rfl

/-- A rejected call leaves the table, and the table agrees with its double transpose. -/
theorem agree_rejected (t : DynamicTable) (hwf : t.WF) :
    Agree (some (Result.out_of_range, t))
      (transpose_outcome (some (Result.out_of_range, t.transpose))) :=
  agree_transposed t t.transpose _ (transpose_WF t hwf) rfl
    (fun r c hr hc => (transpose_read t r c (by have := hwf.rows_le; omega)
      (by have := hwf.cols_le; omega)).symm)

theorem push_col_mirror (t : DynamicTable) (hwf : t.WF) :
    Agree t.push_col (transpose_outcome t.transpose.push_row) := by
  obtain ⟨a, ha, _, hsa, hreada⟩ := push_col_full t hwf
  obtain ⟨b, hb, hwb, hsb, hreadb⟩ := push_row_full t.transpose (transpose_WF t hwf)
  simp only [transpose_rows, transpose_cols, transpose_row_capacity, transpose_col_capacity]
    at hsb hreadb
  obtain ⟨a1, a2, _, _⟩ := sizes_fields hsa
  obtain ⟨b1, b2, b3, b4⟩ := sizes_fields hsb
  have hrl := hwf.rows_le
  have hcl := hwf.cols_le
  rw [ha, hb]
  refine agree_transposed a b _ hwb (by rw [hsa, b1, b2, b3, b4]) ?_
  intro r c hr hc
  rw [hreada r c (by omega) (by omega), hreadb c r (by omega) (by omega)]
  by_cases h : c < t._cols
  · rw [if_pos h, if_pos h]
    exact (transpose_read t r c (by omega) (by omega)).symm
  · rw [if_neg h, if_neg h]

theorem insert_col_at_mirror (t : DynamicTable) (hwf : t.WF) (idx : Nat) :
    Agree (t.insert_col_at idx) (transpose_outcome (t.transpose.insert_row_at idx)) := by
  by_cases hidx : idx ≤ t._cols
  · obtain ⟨a, ha, _, hsa, hreada⟩ := insert_col_at_full t hwf idx hidx
    obtain ⟨b, hb, hwb, hsb, hreadb⟩ :=
      insert_row_at_full t.transpose (transpose_WF t hwf) idx hidx
    simp only [transpose_rows, transpose_cols, transpose_row_capacity, transpose_col_capacity]
      at hsb hreadb
    obtain ⟨a1, a2, _, _⟩ := sizes_fields hsa
    obtain ⟨b1, b2, b3, b4⟩ := sizes_fields hsb
    have hrl := hwf.rows_le
    have hcl := hwf.cols_le
    rw [ha, hb]
    refine agree_transposed a b _ hwb (by rw [hsa, b1, b2, b3, b4]) ?_
    intro r c hr hc
    rw [hreada r c (by omega) (by omega), hreadb c r (by omega) (by omega)]
    by_cases h1 : c < idx
    · rw [if_pos h1, if_pos h1]
      exact (transpose_read t r c (by omega) (by omega)).symm
    · rw [if_neg h1, if_neg h1]
      by_cases h2 : c = idx
      · rw [if_pos h2, if_pos h2]
      · rw [if_neg h2, if_neg h2]
        exact (transpose_read t r (c - 1) (by omega) (by omega)).symm
  · have h1 : t.insert_col_at idx = some (Result.out_of_range, t) := by
      unfold insert_col_at; rw [if_pos (by omega)]
    have h2 : t.transpose.insert_row_at idx = some (Result.out_of_range, t.transpose) := by
      unfold insert_row_at; rw [if_pos (show idx > t.transpose._rows by
        rw [transpose_rows]; omega)]
    rw [h1, h2]
    exact agree_rejected t hwf

theorem pop_col_mirror (t : DynamicTable) (hwf : t.WF) :
    Agree t.pop_col (transpose_outcome t.transpose.pop_row) := by
  by_cases hpos : t._cols = 0
  · have h1 : t.pop_col = some (Result.out_of_range, t) := by
      unfold pop_col; rw [if_pos hpos]
    have h2 : t.transpose.pop_row = some (Result.out_of_range, t.transpose) := by
      unfold pop_row; rw [if_pos (show t.transpose._rows = 0 from hpos)]
    rw [h1, h2]
    exact agree_rejected t hwf
  · obtain ⟨a, ha, _, hsa, hreada⟩ := pop_col_full t hwf hpos
    obtain ⟨b, hb, hwb, hsb, hreadb⟩ := pop_row_full t.transpose (transpose_WF t hwf) hpos
    simp only [transpose_rows, transpose_cols, transpose_row_capacity, transpose_col_capacity]
      at hsb hreadb
    obtain ⟨a1, a2, _, _⟩ := sizes_fields hsa
    obtain ⟨b1, b2, b3, b4⟩ := sizes_fields hsb
    have hrl := hwf.rows_le
    have hcl := hwf.cols_le
    rw [ha, hb]
    refine agree_transposed a b _ hwb (by rw [hsa, b1, b2, b3, b4]) ?_
    intro r c hr hc
    rw [hreada r c (by omega) (by omega), hreadb c r (by omega) (by omega)]
    exact (transpose_read t r c (by omega) (by omega)).symm

theorem remove_col_at_mirror (t : DynamicTable) (hwf : t.WF) (idx : Nat) :
    Agree (t.remove_col_at idx) (transpose_outcome (t.transpose.remove_row_at idx)) := by
  by_cases hidx : idx < t._cols
  · obtain ⟨a, ha, _, hsa, hreada⟩ := remove_col_at_full t hwf idx hidx
    obtain ⟨b, hb, hwb, hsb, hreadb⟩ :=
      remove_row_at_full t.transpose (transpose_WF t hwf) idx hidx
    simp only [transpose_rows, transpose_cols, transpose_row_capacity, transpose_col_capacity]
      at hsb hreadb
    obtain ⟨a1, a2, _, _⟩ := sizes_fields hsa
    obtain ⟨b1, b2, b3, b4⟩ := sizes_fields hsb
    have hrl := hwf.rows_le
    have hcl := hwf.cols_le
    rw [ha, hb]
    refine agree_transposed a b _ hwb (by rw [hsa, b1, b2, b3, b4]) ?_
    intro r c hr hc
    rw [hreada r c (by omega) (by omega), hreadb c r (by omega) (by omega)]
    by_cases h1 : c < idx
    · rw [if_pos h1, if_pos h1]
      exact (transpose_read t r c (by omega) (by omega)).symm
    · rw [if_neg h1, if_neg h1]
      exact (transpose_read t r (c + 1) (by omega) (by omega)).symm
  · have h1 : t.remove_col_at idx = some (Result.out_of_range, t) := by
      unfold remove_col_at; rw [if_pos (by omega)]
    have h2 : t.transpose.remove_row_at idx = some (Result.out_of_range, t.transpose) := by
      unfold remove_row_at; rw [if_pos (show idx ≥ t.transpose._rows by
        rw [transpose_rows]; omega)]
    rw [h1, h2]
    exact agree_rejected t hwf

end DynamicTable

/-! ## Tables that differ only outside the logical bounds -/

namespace DynamicTable

theorem wide_2x3_slack_WF : wide_2x3_slack.WF :=
  ⟨⟨by decide, by decide, by decide, by decide⟩, ⟨by decide, by decide⟩⟩

theorem wide_2x3_sameLogical : SameLogical wide_2x3 wide_2x3_slack := by
  refine ⟨rfl, ?_⟩
  intro r c hr hc
  have hr2 : r < 2 := hr
  have hc3 : c < 3 := hc
  interval_cases r <;> interval_cases c <;> rfl

theorem sameLogical_get (t u : DynamicTable) (h : SameLogical t u) (r c : Nat) :
    t.get r c = u.get r c := by
  obtain ⟨e1, e2, _, _⟩ := sizes_fields h.1
  unfold get
  by_cases hb : r ≥ t._rows ∨ c ≥ t._cols
  · rw [if_pos hb, if_pos (by omega)]
  · rw [if_neg hb, if_neg (by omega), h.2 r c (by omega) (by omega)]

theorem push_row_sameLogical (t u : DynamicTable) (ht : t.WF) (hu : u.WF)
    (h : SameLogical t u) :
    ∃ t' u', t.push_row = some (Result.ok (), t') ∧ u.push_row = some (Result.ok (), u') ∧
      t'.WF ∧ u'.WF ∧ SameLogical t' u' := by
  obtain ⟨e1, e2, e3, e4⟩ := sizes_fields h.1
  obtain ⟨a, ha, hwa, hsa, hra⟩ := push_row_full t ht
  obtain ⟨b, hb, hwb, hsb, hrb⟩ := push_row_full u hu
  obtain ⟨a1, a2, _, _⟩ := sizes_fields hsa
  refine ⟨a, b, ha, hb, hwa, hwb, ?_, ?_⟩
  · rw [hsa, hsb, e1, e2, e3, e4]
  · intro r c hr hc
    rw [a1] at hr
    rw [a2] at hc
    rw [hra r c (by omega) hc, hrb r c (by omega) (by omega)]
    by_cases h1 : r < t._rows
    · rw [if_pos h1, if_pos (show r < u._rows by omega)]
      exact h.2 r c h1 hc
    · rw [if_neg h1, if_neg (show ¬ r < u._rows by omega)]

theorem insert_row_at_sameLogical (t u : DynamicTable) (ht : t.WF) (hu : u.WF)
    (h : SameLogical t u) (idx : Nat) :
    ∃ res t' u', t.insert_row_at idx = some (res, t') ∧ u.insert_row_at idx = some (res, u') ∧
      t'.WF ∧ u'.WF ∧ SameLogical t' u' := by
  obtain ⟨e1, e2, e3, e4⟩ := sizes_fields h.1
  by_cases hidx : idx ≤ t._rows
  · obtain ⟨a, ha, hwa, hsa, hra⟩ := insert_row_at_full t ht idx hidx
    obtain ⟨b, hb, hwb, hsb, hrb⟩ := insert_row_at_full u hu idx (by omega)
    obtain ⟨a1, a2, _, _⟩ := sizes_fields hsa
    refine ⟨Result.ok (), a, b, ha, hb, hwa, hwb, ?_, ?_⟩
    · rw [hsa, hsb, e1, e2, e3, e4]
    · intro r c hr hc
      rw [a1] at hr
      rw [a2] at hc
      rw [hra r c (by omega) hc, hrb r c (by omega) (by omega)]
      by_cases h1 : r < idx
      · rw [if_pos h1, if_pos h1]
        exact h.2 r c (by omega) hc
      · rw [if_neg h1, if_neg h1]
        by_cases h2 : r = idx
        · rw [if_pos h2, if_pos h2]
        · rw [if_neg h2, if_neg h2]
          exact h.2 (r - 1) c (by omega) hc
  · refine ⟨Result.out_of_range, t, u, ?_, ?_, ht, hu, h⟩
    · unfold insert_row_at
      rw [if_pos (show idx > t._rows by omega)]
    · unfold insert_row_at
      rw [if_pos (show idx > u._rows by omega)]

theorem pop_row_sameLogical (t u : DynamicTable) (ht : t.WF) (hu : u.WF)
    (h : SameLogical t u) :
    ∃ res t' u', t.pop_row = some (res, t') ∧ u.pop_row = some (res, u') ∧
      t'.WF ∧ u'.WF ∧ SameLogical t' u' := by
  obtain ⟨e1, e2, e3, e4⟩ := sizes_fields h.1
  by_cases hpos : t._rows = 0
  · refine ⟨Result.out_of_range, t, u, ?_, ?_, ht, hu, h⟩
    · unfold pop_row
      rw [if_pos hpos]
    · unfold pop_row
      rw [if_pos (show u._rows = 0 by omega)]
  · obtain ⟨a, ha, hwa, hsa, hra⟩ := pop_row_full t ht hpos
    obtain ⟨b, hb, hwb, hsb, hrb⟩ := pop_row_full u hu (by omega)
    obtain ⟨a1, a2, _, _⟩ := sizes_fields hsa
    refine ⟨Result.ok (), a, b, ha, hb, hwa, hwb, ?_, ?_⟩
    · rw [hsa, hsb, e1, e2, e3, e4]
    · intro r c hr hc
      rw [a1] at hr
      rw [a2] at hc
      rw [hra r c (by omega) hc, hrb r c (by omega) (by omega)]
      exact h.2 r c (by omega) hc

theorem remove_row_at_sameLogical (t u : DynamicTable) (ht : t.WF) (hu : u.WF)
    (h : SameLogical t u) (idx : Nat) :
    ∃ res t' u', t.remove_row_at idx = some (res, t') ∧ u.remove_row_at idx = some (res, u') ∧
      t'.WF ∧ u'.WF ∧ SameLogical t' u' := by
  obtain ⟨e1, e2, e3, e4⟩ := sizes_fields h.1
  by_cases hidx : idx < t._rows
  · obtain ⟨a, ha, hwa, hsa, hra⟩ := remove_row_at_full t ht idx hidx
    obtain ⟨b, hb, hwb, hsb, hrb⟩ := remove_row_at_full u hu idx (by omega)
    obtain ⟨a1, a2, _, _⟩ := sizes_fields hsa
    refine ⟨Result.ok (), a, b, ha, hb, hwa, hwb, ?_, ?_⟩
    · rw [hsa, hsb, e1, e2, e3, e4]
    · intro r c hr hc
      rw [a1] at hr
      rw [a2] at hc
      rw [hra r c (by omega) hc, hrb r c (by omega) (by omega)]
      by_cases h1 : r < idx
      · rw [if_pos h1, if_pos h1]
        exact h.2 r c (by omega) hc
      · rw [if_neg h1, if_neg h1]
        exact h.2 (r + 1) c (by omega) hc
  · refine ⟨Result.out_of_range, t, u, ?_, ?_, ht, hu, h⟩
    · unfold remove_row_at
      rw [if_pos (show idx ≥ t._rows by omega)]
    · unfold remove_row_at
      rw [if_pos (show idx ≥ u._rows by omega)]

theorem push_col_sameLogical (t u : DynamicTable) (ht : t.WF) (hu : u.WF)
    (h : SameLogical t u) :
    ∃ t' u', t.push_col = some (Result.ok (), t') ∧ u.push_col = some (Result.ok (), u') ∧
      t'.WF ∧ u'.WF ∧ SameLogical t' u' := by
  obtain ⟨e1, e2, e3, e4⟩ := sizes_fields h.1
  obtain ⟨a, ha, hwa, hsa, hra⟩ := push_col_full t ht
  obtain ⟨b, hb, hwb, hsb, hrb⟩ := push_col_full u hu
  obtain ⟨a1, a2, _, _⟩ := sizes_fields hsa
  refine ⟨a, b, ha, hb, hwa, hwb, ?_, ?_⟩
  · rw [hsa, hsb, e1, e2, e3, e4]
  · intro r c hr hc
    rw [a1] at hr
    rw [a2] at hc
    rw [hra r c hr (by omega), hrb r c (by omega) (by omega)]
    by_cases h1 : c < t._cols
    · rw [if_pos h1, if_pos (show c < u._cols by omega)]
      exact h.2 r c hr h1
    · rw [if_neg h1, if_neg (show ¬ c < u._cols by omega)]

theorem insert_col_at_sameLogical (t u : DynamicTable) (ht : t.WF) (hu : u.WF)
    (h : SameLogical t u) (idx : Nat) :
    ∃ res t' u', t.insert_col_at idx = some (res, t') ∧ u.insert_col_at idx = some (res, u') ∧
      t'.WF ∧ u'.WF ∧ SameLogical t' u' := by
  obtain ⟨e1, e2, e3, e4⟩ := sizes_fields h.1
  by_cases hidx : idx ≤ t._cols
  · obtain ⟨a, ha, hwa, hsa, hra⟩ := insert_col_at_full t ht idx hidx
    obtain ⟨b, hb, hwb, hsb, hrb⟩ := insert_col_at_full u hu idx (by omega)
    obtain ⟨a1, a2, _, _⟩ := sizes_fields hsa
    refine ⟨Result.ok (), a, b, ha, hb, hwa, hwb, ?_, ?_⟩
    · rw [hsa, hsb, e1, e2, e3, e4]
    · intro r c hr hc
      rw [a1] at hr
      rw [a2] at hc
      rw [hra r c hr (by omega), hrb r c (by omega) (by omega)]
      by_cases h1 : c < idx
      · rw [if_pos h1, if_pos h1]
        exact h.2 r c hr (by omega)
      · rw [if_neg h1, if_neg h1]
        by_cases h2 : c = idx
        · rw [if_pos h2, if_pos h2]
        · rw [if_neg h2, if_neg h2]
          exact h.2 r (c - 1) hr (by omega)
  · refine ⟨Result.out_of_range, t, u, ?_, ?_, ht, hu, h⟩
    · unfold insert_col_at
      rw [if_pos (show idx > t._cols by omega)]
    · unfold insert_col_at
      rw [if_pos (show idx > u._cols by omega)]

theorem pop_col_sameLogical (t u : DynamicTable) (ht : t.WF) (hu : u.WF)
    (h : SameLogical t u) :
    ∃ res t' u', t.pop_col = some (res, t') ∧ u.pop_col = some (res, u') ∧
      t'.WF ∧ u'.WF ∧ SameLogical t' u' := by
  obtain ⟨e1, e2, e3, e4⟩ := sizes_fields h.1
  by_cases hpos : t._cols = 0
  · refine ⟨Result.out_of_range, t, u, ?_, ?_, ht, hu, h⟩
    · unfold pop_col
      rw [if_pos hpos]
    · unfold pop_col
      rw [if_pos (show u._cols = 0 by omega)]
  · obtain ⟨a, ha, hwa, hsa, hra⟩ := pop_col_full t ht hpos
    obtain ⟨b, hb, hwb, hsb, hrb⟩ := pop_col_full u hu (by omega)
    obtain ⟨a1, a2, _, _⟩ := sizes_fields hsa
    refine ⟨Result.ok (), a, b, ha, hb, hwa, hwb, ?_, ?_⟩
    · rw [hsa, hsb, e1, e2, e3, e4]
    · intro r c hr hc
      rw [a1] at hr
      rw [a2] at hc
      rw [hra r c hr (by omega), hrb r c (by omega) (by omega)]
      exact h.2 r c hr (by omega)

theorem remove_col_at_sameLogical (t u : DynamicTable) (ht : t.WF) (hu : u.WF)
    (h : SameLogical t u) (idx : Nat) :
    ∃ res t' u', t.remove_col_at idx = some (res, t') ∧ u.remove_col_at idx = some (res, u') ∧
      t'.WF ∧ u'.WF ∧ SameLogical t' u' := by
  obtain ⟨e1, e2, e3, e4⟩ := sizes_fields h.1
  by_cases hidx : idx < t._cols
  · obtain ⟨a, ha, hwa, hsa, hra⟩ := remove_col_at_full t ht idx hidx
    obtain ⟨b, hb, hwb, hsb, hrb⟩ := remove_col_at_full u hu idx (by omega)
    obtain ⟨a1, a2, _, _⟩ := sizes_fields hsa
    refine ⟨Result.ok (), a, b, ha, hb, hwa, hwb, ?_, ?_⟩
    · rw [hsa, hsb, e1, e2, e3, e4]
    · intro r c hr hc
      rw [a1] at hr
      rw [a2] at hc
      rw [hra r c hr (by omega), hrb r c (by omega) (by omega)]
      by_cases h1 : c < idx
      · rw [if_pos h1, if_pos h1]
        exact h.2 r c hr (by omega)
      · rw [if_neg h1, if_neg h1]
        exact h.2 r (c + 1) hr (by omega)
  · refine ⟨Result.out_of_range, t, u, ?_, ?_, ht, hu, h⟩
    · unfold remove_col_at
      rw [if_pos (show idx ≥ t._cols by omega)]
    · unfold remove_col_at
      rw [if_pos (show idx ≥ u._cols by omega)]

theorem set_sameLogical (t u : DynamicTable) (ht : t.WF) (hu : u.WF)
    (h : SameLogical t u) (r c : Nat) (v : Int) :
    ∃ res t' u', t.set r c v = some (res, t') ∧ u.set r c v = some (res, u') ∧
      t'.WF ∧ u'.WF ∧ SameLogical t' u' := by
  obtain ⟨e1, e2, e3, e4⟩ := sizes_fields h.1
  by_cases hb : r ≥ t._rows ∨ c ≥ t._cols
  · refine ⟨Result.out_of_range, t, u, ?_, ?_, ht, hu, h⟩
    · unfold set
      rw [if_pos hb]
    · unfold set
      rw [if_pos (show r ≥ u._rows ∨ c ≥ u._cols by omega)]
  · obtain ⟨a, ha, hwa, hsa, hra⟩ := set_cells t ht r c v (by omega) (by omega)
    obtain ⟨b, hb', hwb, hsb, hrb⟩ := set_cells u hu r c v (by omega) (by omega)
    obtain ⟨a1, a2, _, _⟩ := sizes_fields hsa
    refine ⟨Result.ok (), a, b, ha, hb', hwa, hwb, ?_, ?_⟩
    · rw [hsa, hsb]
      exact h.1
    · intro r' c' hr hc
      rw [a1] at hr
      rw [a2] at hc
      rw [hra r' c', hrb r' c']
      by_cases h1 : r' = r ∧ c' = c
      · rw [if_pos h1, if_pos h1]
      · rw [if_neg h1, if_neg h1]
        exact h.2 r' c' hr hc

theorem clear_sameLogical (t u : DynamicTable) (ht : t.WF) (hu : u.WF)
    (h : SameLogical t u) :
    ∃ t' u', t.clear = some (Result.ok (), t') ∧ u.clear = some (Result.ok (), u') ∧
      t'.WF ∧ u'.WF ∧ SameLogical t' u' := by
  obtain ⟨_, _, e3, e4⟩ := sizes_fields h.1
  refine ⟨_, _, rfl, rfl,
    ⟨⟨Nat.zero_le _, Nat.zero_le _, ht.row_cap_pos, ht.col_cap_pos⟩, ht.dim⟩,
    ⟨⟨Nat.zero_le _, Nat.zero_le _, hu.row_cap_pos, hu.col_cap_pos⟩, hu.dim⟩, ?_, ?_⟩
  · show (0, 0, t._row_capacity, t._col_capacity) = (0, 0, u._row_capacity, u._col_capacity)
    rw [e3, e4]
  · intro r c hr _
    exact absurd hr (Nat.not_lt_zero r)

/-- The same call on two tables that differ only outside the logical bounds ends the same way
on both and leaves two tables that again differ only outside the logical bounds. -/
theorem apply_sameLogical (t u : DynamicTable) (ht : t.WF) (hu : u.WF)
    (h : SameLogical t u) (op : Op) :
    ∃ res t' u', t.apply op = some (res, t') ∧ u.apply op = some (res, u') ∧
      t'.WF ∧ u'.WF ∧ SameLogical t' u' := by
  cases op with
  | push_row =>
    obtain ⟨a, b, x⟩ := push_row_sameLogical t u ht hu h
    exact ⟨_, a, b, x⟩
  | insert_row_at idx => exact insert_row_at_sameLogical t u ht hu h idx
  | pop_row => exact pop_row_sameLogical t u ht hu h
  | remove_row_at idx => exact remove_row_at_sameLogical t u ht hu h idx
  | push_col =>
    obtain ⟨a, b, x⟩ := push_col_sameLogical t u ht hu h
    exact ⟨_, a, b, x⟩
  | insert_col_at idx => exact insert_col_at_sameLogical t u ht hu h idx
  | pop_col => exact pop_col_sameLogical t u ht hu h
  | remove_col_at idx => exact remove_col_at_sameLogical t u ht hu h idx
  | set r c v => exact set_sameLogical t u ht hu h r c v
  | clear =>
    obtain ⟨a, b, x⟩ := clear_sameLogical t u ht hu h
    exact ⟨_, a, b, x⟩

end DynamicTable

/-! ## Cells inside the storage -/

namespace DynamicTable

/-- In a well-formed table every cell below the capacities exists. -/
theorem WF.allocated {t : DynamicTable} (hwf : t.WF) {r c : Nat} (hr : r < t._row_capacity)
    (hc : c < t._col_capacity) : t._data.Allocated r c :=
  ⟨by rw [hwf.dim.1]; exact hr, by rw [hwf.dim.2 r hr]; exact hc⟩

/-- In a well-formed table every logical cell exists. -/
theorem WF.allocated_logical {t : DynamicTable} (hwf : t.WF) {r c : Nat} (hr : r < t._rows)
    (hc : c < t._cols) : t._data.Allocated r c :=
  hwf.allocated (Nat.lt_of_lt_of_le hr hwf.rows_le) (Nat.lt_of_lt_of_le hc hwf.cols_le)

/-- A sequence of calls without `set` on a well-formed table that holds only defaults ends in a
well-formed table that holds only defaults. -/
theorem run_WF_allDefault (ops : List Op) (t : DynamicTable) (hwf : t.WF)
    (hset : ∀ op, op ∈ ops → op.is_set = false) (h : t._data.AllDefault) :
    ∃ t', t.run ops = some t' ∧ t'.WF ∧ t'._data.AllDefault := by
  obtain ⟨t', h1, hwf'⟩ := run_WF ops t hwf
  obtain ⟨t'', h2, hd⟩ := run_allDefault ops t hwf.toInv hset h
  rw [h1] at h2
  cases h2
  exact ⟨t', h1, hwf', hd⟩

end DynamicTable

/-! ## The exact capacity after filling a fresh table -/

namespace DynamicTable

/-- While the shrink test is true the capacity is halved by every push: from `a` rows and
capacity `c / 2 ^ a`, the next `m` pushes lead to `a + m` rows and capacity `c / 2 ^ (a + m)`
when `(a + m) * 2 ^ (a + m + 1) ≤ c`. -/
theorem cap_after_pushes_halving (c n m a : Nat) (h : (a + m) * 2 ^ (a + m + 1) ≤ c) :
    cap_after_pushes (m + n) a (c / 2 ^ a) = cap_after_pushes n (a + m) (c / 2 ^ (a + m)) := by
  induction m generalizing a with
  | zero => simp
  | succ m ih =>
    have hmono : (a + 1) * 2 ^ (a + 1 + 1) ≤ (a + (m + 1)) * 2 ^ (a + (m + 1) + 1) :=
      Nat.mul_le_mul (by omega) (Nat.pow_le_pow_right (by decide) (by omega))
    have h1 : (a + 1) * 2 ^ (a + 2) ≤ c := Nat.le_trans hmono h
    have hP : 0 < 2 ^ a := Nat.pow_pos (by decide)
    have h4 : (a + 1) * 4 ≤ c / 2 ^ a := by
      rw [Nat.le_div_iff_mul_le hP]
      calc (a + 1) * 4 * 2 ^ a = (a + 1) * 2 ^ (a + 2) := by rw [pow_add]; ring
        _ ≤ c := h1
    have hg : grown a (c / 2 ^ a) = c / 2 ^ a := by
      unfold grown
      rw [if_pos (by omega)]
    have hs : shrunk (a + 1) (c / 2 ^ a) = c / 2 ^ (a + 1) := by
      unfold shrunk
      rw [if_pos ⟨by omega, by omega⟩, pow_succ, ← Nat.div_div_eq_div_mul]
      omega
    have hstep : m + 1 + n = (m + n) + 1 := by omega
    rw [hstep, cap_after_pushes, hg, hs, ih (a + 1) (by
      have : a + 1 + m = a + (m + 1) := by omega
      rw [this]; exact h)]
    have : a + 1 + m = a + (m + 1) := by omega
    rw [this]

/-- Once the shrink test is false it stays false: from `a` rows and capacity `cap` with
`cap / 4 < a + 1`, `n` pushes lead to the least doubling of `cap` that holds `a + n` rows. -/
theorem cap_after_pushes_growing (n a cap e : Nat) (ha : a ≤ cap) (hc : 1 ≤ cap)
    (hq : cap < 4 * (a + 1)) (hle : a + n ≤ cap * 2 ^ e)
    (hmin : e = 0 ∨ cap * 2 ^ e < 2 * (a + n)) :
    cap_after_pushes n a cap = cap * 2 ^ e := by
  induction n generalizing a cap e with
  | zero =>
    rw [cap_after_pushes]
    rcases hmin with h0 | hlt
    · rw [h0]; simp
    · cases e with
      | zero => simp
      | succ d =>
        exfalso
        have hd : 1 ≤ 2 ^ d := Nat.pow_pos (by decide)
        have : cap * 2 ≤ cap * 2 ^ (d + 1) := by
          rw [pow_succ, ← Nat.mul_assoc]
          calc cap * 2 = cap * 1 * 2 := by ring
            _ ≤ cap * 2 ^ d * 2 :=
              Nat.mul_le_mul_right _ (Nat.mul_le_mul_left _ hd)
        omega
  | succ n ih =>
    rw [cap_after_pushes]
    by_cases hfull : a + 1 ≤ cap
    · have hg : grown a cap = cap := by unfold grown; rw [if_pos hfull]
      have hs : shrunk (a + 1) cap = cap := by
        unfold shrunk
        rw [if_neg (by omega)]
      rw [hg, hs]
      exact ih (a + 1) cap e hfull hc (by omega) (by omega)
        (by rcases hmin with h0 | hlt
            · exact Or.inl h0
            · exact Or.inr (by omega))
    · have hac : a = cap := by omega
      have hg : grown a cap = 2 * cap := by unfold grown; rw [if_neg hfull]
      have hs : shrunk (a + 1) (2 * cap) = 2 * cap := by
        unfold shrunk
        rw [if_neg (by omega)]
      rw [hg, hs]
      cases e with
      | zero =>
        exfalso
        simp at hle
        omega
      | succ d =>
        have heq : cap * 2 ^ (d + 1) = 2 * cap * 2 ^ d := by rw [pow_succ]; ring
        rw [heq]
        rw [heq] at hle
        refine ih (a + 1) (2 * cap) d (by omega) (by omega) (by omega) (by omega) ?_
        rcases hmin with h0 | hlt
        · omega
        · rw [heq] at hlt
          exact Or.inr (by omega)

/-- Some `j` counts the pushes that halve: `j * 2 ^ (j + 1) ≤ c < (j + 1) * 2 ^ (j + 2)`. -/
theorem exists_halvings (c : Nat) :
    ∃ j, j * 2 ^ (j + 1) ≤ c ∧ c < (j + 1) * 2 ^ (j + 2) := by
  refine ⟨Nat.findGreatest (fun m => m * 2 ^ (m + 1) ≤ c) c, ?_, ?_⟩
  · exact Nat.findGreatest_spec (P := fun m => m * 2 ^ (m + 1) ≤ c) (Nat.zero_le c) (by simp)
  · by_contra hnot
    have hle : (Nat.findGreatest (fun m => m * 2 ^ (m + 1) ≤ c) c + 1) *
        2 ^ (Nat.findGreatest (fun m => m * 2 ^ (m + 1) ≤ c) c + 1 + 1) ≤ c :=
      Nat.le_of_not_lt hnot
    have hbig : Nat.findGreatest (fun m => m * 2 ^ (m + 1) ≤ c) c + 1 ≤ c := by
      have h2 : 1 ≤ 2 ^ (Nat.findGreatest (fun m => m * 2 ^ (m + 1) ≤ c) c + 1 + 1) :=
        Nat.pow_pos (by decide)
      calc Nat.findGreatest (fun m => m * 2 ^ (m + 1) ≤ c) c + 1
          = (Nat.findGreatest (fun m => m * 2 ^ (m + 1) ≤ c) c + 1) * 1 := by ring
        _ ≤ (Nat.findGreatest (fun m => m * 2 ^ (m + 1) ≤ c) c + 1) *
            2 ^ (Nat.findGreatest (fun m => m * 2 ^ (m + 1) ≤ c) c + 1 + 1) :=
          Nat.mul_le_mul_left _ h2
        _ ≤ c := hle
    have := Nat.le_findGreatest (P := fun m => m * 2 ^ (m + 1) ≤ c) hbig hle
    omega

/-- The row capacity after `c + 1` pushes on a fresh table of row capacity `c`, when the first
`j` pushes halve the capacity and the next one does not: twice the greatest multiple of `2 ^ j`
that is at most `c`. -/
theorem cap_after_pushes_closed (c j : Nat) (hc : 1 ≤ c) (hj : j * 2 ^ (j + 1) ≤ c)
    (hj' : c < (j + 1) * 2 ^ (j + 2)) :
    cap_after_pushes (c + 1) 0 c = 2 * (c - c % 2 ^ j) := by
  have hP : 0 < 2 ^ j := Nat.pow_pos (by decide)
  have hdm := Nat.div_add_mod c (2 ^ j)
  have hmod := Nat.mod_lt c hP
  have hjP : j * 2 * 2 ^ j ≤ c := by
    calc j * 2 * 2 ^ j = j * 2 ^ (j + 1) := by rw [pow_succ]; ring
      _ ≤ c := hj
  have hjL : j * 2 ≤ c / 2 ^ j := (Nat.le_div_iff_mul_le hP).mpr hjP
  have hLq : c / 2 ^ j < 4 * (j + 1) := by
    rw [Nat.div_lt_iff_lt_mul hP]
    calc c < (j + 1) * 2 ^ (j + 2) := hj'
      _ = 4 * (j + 1) * 2 ^ j := by rw [pow_add]; ring
  have hL1 : 1 ≤ c / 2 ^ j := by
    rcases Nat.eq_zero_or_pos j with h0 | hpos
    · subst h0; simpa using hc
    · omega
  have hjc : j ≤ c := by
    have : j * 1 ≤ j * 2 * 2 ^ j := by
      calc j * 1 ≤ j * 2 := Nat.mul_le_mul_left _ (by decide)
        _ = j * 2 * 1 := by ring
        _ ≤ j * 2 * 2 ^ j := Nat.mul_le_mul_left _ hP
    omega
  have hsplit : c + 1 = j + (c + 1 - j) := by omega
  have hhalf := cap_after_pushes_halving c (c + 1 - j) j 0 (by simpa using hj)
  simp only [pow_zero, Nat.div_one, Nat.zero_add] at hhalf
  rw [hsplit, hhalf]
  have hLP : c / 2 ^ j * 2 ^ j = c - c % 2 ^ j := by
    have : 2 ^ j * (c / 2 ^ j) = c / 2 ^ j * 2 ^ j := Nat.mul_comm _ _
    omega
  have hK : c / 2 ^ j * 2 ^ (j + 1) = 2 * (c - c % 2 ^ j) := by
    rw [pow_succ, ← Nat.mul_assoc, hLP]; ring
  have h2P : 2 ^ (j + 1) ≤ c + 1 := by
    rcases Nat.eq_zero_or_pos j with h0 | hpos
    · subst h0; simp; omega
    · have : 1 * 2 ^ (j + 1) ≤ j * 2 ^ (j + 1) := Nat.mul_le_mul_right _ hpos
      omega
  have h2P' : 2 ^ (j + 1) = 2 * 2 ^ j := by rw [pow_succ]; ring
  rw [← hK]
  refine cap_after_pushes_growing (c + 1 - j) j (c / 2 ^ j) (j + 1) (by omega) hL1 hLq ?_ ?_
  · rw [hK]; omega
  · right
    rw [hK]; omega

end DynamicTable

/-! ## The doubling loop on `std::size_t` -/

/-- For a count of at most `2 ^ 63` the loop on `std::size_t` is the loop on natural
numbers. -/
theorem double_until_size_t_eq (fuel cap need : Nat) (h : need ≤ 2 ^ 63) :
    double_until_size_t fuel cap need = double_until fuel cap need := by
  induction fuel generalizing cap with
  | zero => rfl
  | succ f ih =>
    by_cases hlt : cap < need
    · rw [double_until_size_t, double_until, if_pos hlt, if_pos hlt,
        Nat.mod_eq_of_lt (by omega)]
      exact ih (cap * 2)
    · rw [double_until_size_t, double_until, if_neg hlt, if_neg hlt]

namespace DynamicTable

end DynamicTable

/-! # Main results -/

namespace DynamicTable

/-! ## Size invariants -/

/-- C1: a freshly constructed table has logical size 0x0 and capacities `max 1 initial_rows`
and `max 1 initial_cols`, so it satisfies `_rows ≤ _row_capacity`, `_cols ≤ _col_capacity`,
`1 ≤ _row_capacity` and `1 ≤ _col_capacity`; every public operation (`push_row`,
`insert_row_at`, `pop_row`, `remove_row_at`, `push_col`, `insert_col_at`, `pop_col`,
`remove_col_at`, `set`, `clear`), accepted or rejected, ends and keeps the four inequalities;
hence they hold after every sequence of calls on a fresh table. -/
theorem size_invariants_in_every_reachable_state :
    (∀ (k : Option OperationCounter) (ir ic : Nat),
      (new k ir ic).sizes = (0, 0, max 1 ir, max 1 ic) ∧ (new k ir ic).Inv) ∧
    (∀ (t : DynamicTable) (op : Op), t.Inv →
      ∃ res t', t.apply op = some (res, t') ∧ t'.Inv) ∧
    (∀ (k : Option OperationCounter) (ir ic : Nat) (ops : List Op),
      ∃ t, (new k ir ic).run ops = some t ∧ t.Inv) :=
  ⟨fun k ir ic => ⟨(new_core k ir ic).1, new_Inv k ir ic⟩,
    fun t op hinv => apply_Inv t op hinv,
    fun k ir ic ops => run_Inv ops _ (new_Inv k ir ic)⟩

theorem size_invariants_in_every_reachable_state_witness :
    (new none 0 3).Inv ∧
      ∃ res t', (new none 0 3).apply (Op.insert_row_at 5) = some (res, t') ∧ t'.Inv :=
  ⟨⟨by decide, by decide, by decide, by decide⟩,
    size_invariants_in_every_reachable_state.2.1 (new none 0 3) (Op.insert_row_at 5)
      ⟨by decide, by decide, by decide, by decide⟩⟩

/-! ## Element access -/

/-- C2: on a well-formed table (size invariants, and `_data` is a grid of `_row_capacity` by
`_col_capacity` cells), for every in-bounds `(r, c)` and every value `v`, `set(r, c, v)`
returns; afterwards `get(r, c)` returns `v`, `get(r', c')` is unchanged for every other
in-bounds cell, and `_rows`, `_cols`, `_row_capacity`, `_col_capacity` are unchanged. -/
theorem set_then_get (t : DynamicTable) (hwf : t.WF) (r c : Nat) (v : Int)
    (hr : r < t._rows) (hc : c < t._cols) :
    ∃ t', t.set r c v = some (Result.ok (), t') ∧
      t'.get r c = Result.ok v ∧
      (∀ r' c', r' < t._rows → c' < t._cols → (r', c') ≠ (r, c) →
        t'.get r' c' = t.get r' c') ∧
      t'._rows = t._rows ∧ t'._cols = t._cols ∧
      t'._row_capacity = t._row_capacity ∧ t'._col_capacity = t._col_capacity := by
  obtain ⟨t', h, _, hs, hread⟩ := set_cells t hwf r c v hr hc
  obtain ⟨s1, s2, s3, s4⟩ := sizes_fields (hs.trans rfl)
  refine ⟨t', h, ?_, ?_, s1, s2, s3, s4⟩
  · rw [get_eq_read t' r c (by omega) (by omega), hread r c, if_pos ⟨rfl, rfl⟩]
  · intro r' c' hr' hc' hne
    rw [get_eq_read t' r' c' (by omega) (by omega), get_eq_read t r' c' hr' hc', hread r' c',
      if_neg]
    intro h'
    exact hne (by rw [h'.1, h'.2])

theorem set_then_get_witness :
    full_2x2.WF ∧ 1 < full_2x2._rows ∧ 0 < full_2x2._cols ∧
      ∃ t', full_2x2.set 1 0 9 = some (Result.ok (), t') ∧
        t'.get 1 0 = Result.ok 9 ∧
        (∀ r' c', r' < full_2x2._rows → c' < full_2x2._cols → (r', c') ≠ (1, 0) →
          t'.get r' c' = full_2x2.get r' c') ∧
        t'._rows = full_2x2._rows ∧ t'._cols = full_2x2._cols ∧
        t'._row_capacity = full_2x2._row_capacity ∧
        t'._col_capacity = full_2x2._col_capacity :=
  ⟨full_2x2_WF, by decide, by decide,
    set_then_get full_2x2 full_2x2_WF 1 0 9 (by decide) (by decide)⟩

/-! ## Rejected calls -/

/-- C3: on a table that satisfies the size invariants each operation throws `out_of_range`
exactly when its index is outside the valid interval, and then the table is the one before the
call; otherwise it returns.  `get` and `set` throw iff `r ≥ _rows` or `c ≥ _cols`,
`insert_row_at` iff `idx > _rows`, `remove_row_at` iff `idx ≥ _rows`, `pop_row` iff
`_rows = 0`, the column operations under the mirrored conditions, and `push_row`, `push_col`
and `clear` never throw. -/
theorem out_of_range_exactly_outside_interval (t : DynamicTable) (hinv : t.Inv) :
    (∀ r c, (r ≥ t._rows ∨ c ≥ t._cols → t.get r c = Result.out_of_range) ∧
      (¬ (r ≥ t._rows ∨ c ≥ t._cols) → ∃ v, t.get r c = Result.ok v)) ∧
    (∀ r c v, (r ≥ t._rows ∨ c ≥ t._cols → t.set r c v = some (Result.out_of_range, t)) ∧
      (¬ (r ≥ t._rows ∨ c ≥ t._cols) → ∃ t', t.set r c v = some (Result.ok (), t'))) ∧
    (∀ idx, (idx > t._rows → t.insert_row_at idx = some (Result.out_of_range, t)) ∧
      (¬ idx > t._rows → ∃ t', t.insert_row_at idx = some (Result.ok (), t'))) ∧
    (∀ idx, (idx ≥ t._rows → t.remove_row_at idx = some (Result.out_of_range, t)) ∧
      (¬ idx ≥ t._rows → ∃ t', t.remove_row_at idx = some (Result.ok (), t'))) ∧
    ((t._rows = 0 → t.pop_row = some (Result.out_of_range, t)) ∧
      (¬ t._rows = 0 → ∃ t', t.pop_row = some (Result.ok (), t'))) ∧
    (∀ idx, (idx > t._cols → t.insert_col_at idx = some (Result.out_of_range, t)) ∧
      (¬ idx > t._cols → ∃ t', t.insert_col_at idx = some (Result.ok (), t'))) ∧
    (∀ idx, (idx ≥ t._cols → t.remove_col_at idx = some (Result.out_of_range, t)) ∧
      (¬ idx ≥ t._cols → ∃ t', t.remove_col_at idx = some (Result.ok (), t'))) ∧
    ((t._cols = 0 → t.pop_col = some (Result.out_of_range, t)) ∧
      (¬ t._cols = 0 → ∃ t', t.pop_col = some (Result.ok (), t'))) ∧
    (∃ t', t.push_row = some (Result.ok (), t')) ∧
    (∃ t', t.push_col = some (Result.ok (), t')) ∧
    (∃ t', t.clear = some (Result.ok (), t')) := by
  refine ⟨?_, ?_, ?_, ?_, ?_, ?_, ?_, ?_, ?_, ?_, ?_⟩
  · intro r c
    exact ⟨fun h => by unfold get; rw [if_pos h],
      fun h => ⟨_, by unfold get; rw [if_neg h]⟩⟩
  · intro r c v
    exact ⟨fun h => by unfold set; rw [if_pos h],
      fun h => ⟨_, by unfold set; rw [if_neg h]⟩⟩
  · intro idx
    refine ⟨fun h => by unfold insert_row_at; rw [if_pos h], fun h => ?_⟩
    obtain ⟨t', h', _⟩ := insert_row_at_sizes t hinv idx (by omega)
    exact ⟨t', h'⟩
  · intro idx
    refine ⟨fun h => by unfold remove_row_at; rw [if_pos h], fun h => ?_⟩
    obtain ⟨t', h', _⟩ := remove_row_at_sizes t hinv idx (by omega)
    exact ⟨t', h'⟩
  · refine ⟨fun h => by unfold pop_row; rw [if_pos h], fun h => ?_⟩
    obtain ⟨t', h', _⟩ := pop_row_sizes t hinv h
    exact ⟨t', h'⟩
  · intro idx
    refine ⟨fun h => by unfold insert_col_at; rw [if_pos h], fun h => ?_⟩
    obtain ⟨t', h', _⟩ := insert_col_at_sizes t hinv idx (by omega)
    exact ⟨t', h'⟩
  · intro idx
    refine ⟨fun h => by unfold remove_col_at; rw [if_pos h], fun h => ?_⟩
    obtain ⟨t', h', _⟩ := remove_col_at_sizes t hinv idx (by omega)
    exact ⟨t', h'⟩
  · refine ⟨fun h => by unfold pop_col; rw [if_pos h], fun h => ?_⟩
    obtain ⟨t', h', _⟩ := pop_col_sizes t hinv h
    exact ⟨t', h'⟩
  · obtain ⟨t', h', _⟩ := push_row_sizes t hinv
    exact ⟨t', h'⟩
  · obtain ⟨t', h', _⟩ := push_col_sizes t hinv
    exact ⟨t', h'⟩
  · exact ⟨_, rfl⟩

theorem out_of_range_exactly_outside_interval_witness :
    (new none 2 2).Inv ∧
      (new none 2 2).pop_row = some (Result.out_of_range, new none 2 2) ∧
      (new none 2 2).insert_row_at 1 = some (Result.out_of_range, new none 2 2) :=
  ⟨⟨by decide, by decide, by decide, by decide⟩,
    (out_of_range_exactly_outside_interval (new none 2 2)
      ⟨by decide, by decide, by decide, by decide⟩).2.2.2.2.1.1 (by decide),
    ((out_of_range_exactly_outside_interval (new none 2 2)
      ⟨by decide, by decide, by decide, by decide⟩).2.2.1 1).1 (by decide)⟩

/-! ## Pushing onto a fresh table -/

/-- C4 fails as stated: a fresh table of row capacity 5 has row capacity 8 after six
`push_row` calls (the first push halves the capacity to 2, later pushes double it to 4 and
8), and 8 is not `5 * 2 ^ k` for any `k`. -/
theorem push_until_full_not_always_doubled :
    Option.map (fun t => (t._rows, t._row_capacity)) (push_rows 6 (new none 5 1)) = some (6, 8) ∧
    ¬ ∃ t k, push_rows 6 (new none 5 1) = some t ∧ t._row_capacity = 5 * 2 ^ k ∧
      6 ≤ 5 * 2 ^ k ∧ ∀ j, j < k → 5 * 2 ^ j < 6 := by
  have hev : Option.map (fun t => (t._rows, t._row_capacity)) (push_rows 6 (new none 5 1))
      = some (6, 8) := by decide
  refine ⟨hev, ?_⟩
  rintro ⟨t, k, ht, hcap, -, hmin⟩
  rw [ht] at hev
  have h8 : t._row_capacity = 8 := by
    have := congrArg (Option.map Prod.snd) hev
    simpa using this
  have hk : k ≤ 1 := by
    by_contra hgt
    have := hmin 1 (by omega)
    omega
  interval_cases k <;> omega

/-- C4 (amended): for every initial row capacity `c ≥ 1`, every counter and every initial
column count, `c + 1` calls of `push_row` on the fresh table all return and leave `c + 1` rows
and a row capacity between `c + 1` and `2 c`.  Let `j` be the number with
`j * 2 ^ (j + 1) ≤ c < (j + 1) * 2 ^ (j + 2)` (there is one): the first `j` pushes halve the
capacity, to `c / 2 ^ j`, and the final row capacity is `2 * (c - c % 2 ^ j)`.  It is
`c * 2 ^ k` for the least `k` with `c + 1 ≤ c * 2 ^ k`, as the claim says, exactly when `2 ^ j`
divides `c`; this holds when `c ≤ 3` or `c` is a power of two (for example capacity 2 and
three pushes give capacity 4), and also for `c = 6, 10, 12, 14, 20, ...`. -/
theorem push_until_full_capacity (c : Nat) (hc : 1 ≤ c) (k : Option OperationCounter)
    (ic : Nat) :
    (new k c ic)._rows = 0 ∧ (new k c ic)._row_capacity = c ∧
    ∃ t, push_rows (c + 1) (new k c ic) = some t ∧ t._rows = c + 1 ∧
      c + 1 ≤ t._row_capacity ∧ t._row_capacity ≤ 2 * c ∧
      ((c ≤ 3 ∨ ∃ m, c = 2 ^ m) →
        ∃ e, t._row_capacity = c * 2 ^ e ∧ c + 1 ≤ c * 2 ^ e ∧
          ∀ j, j < e → c * 2 ^ j < c + 1) ∧
      (∃ j, j * 2 ^ (j + 1) ≤ c ∧ c < (j + 1) * 2 ^ (j + 2)) ∧
      ∀ j, j * 2 ^ (j + 1) ≤ c → c < (j + 1) * 2 ^ (j + 2) →
        (∃ tj, push_rows j (new k c ic) = some tj ∧ tj._rows = j ∧
          tj._row_capacity = c / 2 ^ j) ∧
        t._row_capacity = 2 * (c - c % 2 ^ j) ∧
        ((∃ e, t._row_capacity = c * 2 ^ e ∧ c + 1 ≤ c * 2 ^ e ∧
            ∀ i, i < e → c * 2 ^ i < c + 1) ↔ 2 ^ j ∣ c) := by
  obtain ⟨n1, _, n3, _⟩ := sizes_fields (new_core k c ic).1
  rw [Nat.max_eq_right hc] at n3
  obtain ⟨t, h, hs⟩ := push_rows_sizes (c + 1) (new k c ic) (new_Inv k c ic)
  obtain ⟨f1, _, f3, _⟩ := sizes_fields hs
  rw [n1, n3] at f3
  rw [n1] at f1
  have hlo := cap_after_pushes_lower (c + 1) 0 c (Nat.zero_le _) hc
  have hup := cap_after_pushes_upper (c + 1) 0 c
  refine ⟨n1, n3, t, h, by omega, by omega, by omega, ?_, exists_halvings c, ?_⟩
  · intro hex
    refine ⟨1, ?_, by omega, ?_⟩
    · rw [f3, cap_after_pushes_exact c hc hex]; omega
    · intro j hj
      have : j = 0 := by omega
      subst this
      omega
  · intro j hj hj'
    have hcap : t._row_capacity = 2 * (c - c % 2 ^ j) := by
      rw [f3, cap_after_pushes_closed c j hc hj hj']
    refine ⟨?_, hcap, ?_⟩
    · obtain ⟨tj, htj, hsj⟩ := push_rows_sizes j (new k c ic) (new_Inv k c ic)
      obtain ⟨g1, _, g3, _⟩ := sizes_fields hsj
      rw [n1, n3] at g3
      rw [n1] at g1
      have hhalf := cap_after_pushes_halving c 0 j 0 (by simpa using hj)
      simp only [pow_zero, Nat.div_one, Nat.zero_add, Nat.add_zero] at hhalf
      refine ⟨tj, htj, by omega, ?_⟩
      rw [g3, hhalf, cap_after_pushes]
    · have hmod := Nat.mod_le c (2 ^ j)
      constructor
      · rintro ⟨e, he, hle, hmin⟩
        have he1 : e = 1 := by
          rcases Nat.lt_trichotomy e 1 with h0 | h1 | h2
          · have : e = 0 := by omega
            subst this
            simp at hle
          · exact h1
          · have := hmin 1 h2
            omega
        subst he1
        apply Nat.dvd_of_mod_eq_zero
        omega
      · intro hdvd
        have hz : c % 2 ^ j = 0 := Nat.mod_eq_zero_of_dvd hdvd
        refine ⟨1, by omega, by omega, ?_⟩
        intro i hi
        have : i = 0 := by omega
        subst this
        omega

theorem push_until_full_capacity_witness :
    (1 : Nat) ≤ 6 ∧
      Option.map (fun t => t._row_capacity) (push_rows (2 + 1) (new none 2 2)) = some 4 ∧
      Option.map (fun t => t._row_capacity) (push_rows (6 + 1) (new none 6 2)) = some 12 ∧
      ∃ t, push_rows (6 + 1) (new none 6 2) = some t ∧ t._rows = 6 + 1 ∧
        ∀ j, j * 2 ^ (j + 1) ≤ 6 → 6 < (j + 1) * 2 ^ (j + 2) →
          (∃ tj, push_rows j (new none 6 2) = some tj ∧ tj._rows = j ∧
            tj._row_capacity = 6 / 2 ^ j) ∧
          t._row_capacity = 2 * (6 - 6 % 2 ^ j) ∧
          ((∃ e, t._row_capacity = 6 * 2 ^ e ∧ 6 + 1 ≤ 6 * 2 ^ e ∧
              ∀ i, i < e → 6 * 2 ^ i < 6 + 1) ↔ 2 ^ j ∣ 6) := by
  refine ⟨by decide, by decide, by decide, ?_⟩
  obtain ⟨t, h, hr, _, _, _, _, hex⟩ := (push_until_full_capacity 6 (by decide) none 2).2.2
  exact ⟨t, h, hr, hex⟩

/-! ## Growth -/

/-- C6: on a table that satisfies the size invariants, with `_rows ≥ 1` and row capacity `C`,
`pop_row` and `remove_row_at(idx)` with `idx < _rows` return and leave the row capacity
`max 1 (C / 2)` if `_rows - 1 ≤ C / 4` and `C > 1`, and exactly `C` otherwise.  The same holds
for `pop_col` and `remove_col_at` on the column axis. -/
theorem shrink_threshold_on_removal (t : DynamicTable) (hinv : t.Inv) :
    (1 ≤ t._rows →
      (∃ t', t.pop_row = some (Result.ok (), t') ∧
        t'._row_capacity =
          if t._rows - 1 ≤ t._row_capacity / 4 ∧ t._row_capacity > 1
          then max 1 (t._row_capacity / 2) else t._row_capacity) ∧
      ∀ idx, idx < t._rows →
        ∃ t', t.remove_row_at idx = some (Result.ok (), t') ∧
          t'._row_capacity =
            if t._rows - 1 ≤ t._row_capacity / 4 ∧ t._row_capacity > 1
            then max 1 (t._row_capacity / 2) else t._row_capacity) ∧
    (1 ≤ t._cols →
      (∃ t', t.pop_col = some (Result.ok (), t') ∧
        t'._col_capacity =
          if t._cols - 1 ≤ t._col_capacity / 4 ∧ t._col_capacity > 1
          then max 1 (t._col_capacity / 2) else t._col_capacity) ∧
      ∀ idx, idx < t._cols →
        ∃ t', t.remove_col_at idx = some (Result.ok (), t') ∧
          t'._col_capacity =
            if t._cols - 1 ≤ t._col_capacity / 4 ∧ t._col_capacity > 1
            then max 1 (t._col_capacity / 2) else t._col_capacity) := by
  refine ⟨fun hpos => ⟨?_, fun idx hidx => ?_⟩, fun hpos => ⟨?_, fun idx hidx => ?_⟩⟩
  · obtain ⟨t', h, hs⟩ := pop_row_sizes t hinv (by omega)
    exact ⟨t', h, (sizes_fields hs).2.2.1⟩
  · obtain ⟨t', h, hs⟩ := remove_row_at_sizes t hinv idx hidx
    exact ⟨t', h, (sizes_fields hs).2.2.1⟩
  · obtain ⟨t', h, hs⟩ := pop_col_sizes t hinv (by omega)
    exact ⟨t', h, (sizes_fields hs).2.2.2⟩
  · obtain ⟨t', h, hs⟩ := remove_col_at_sizes t hinv idx hidx
    exact ⟨t', h, (sizes_fields hs).2.2.2⟩

theorem shrink_threshold_on_removal_witness :
    sparse_3x2.Inv ∧ 1 ≤ sparse_3x2._rows ∧
      ∃ t', sparse_3x2.pop_row = some (Result.ok (), t') ∧
        t'._row_capacity =
          if sparse_3x2._rows - 1 ≤ sparse_3x2._row_capacity / 4 ∧ sparse_3x2._row_capacity > 1
          then max 1 (sparse_3x2._row_capacity / 2) else sparse_3x2._row_capacity :=
  ⟨sparse_3x2_WF.toInv, by decide,
    ((shrink_threshold_on_removal sparse_3x2 sparse_3x2_WF.toInv).1 (by decide)).1⟩

/-! ## Insertion of a row -/

/-- C7: on a well-formed table, for every `idx ≤ _rows`, `insert_row_at(idx)` returns; after it
`_rows` is one more, `_cols` is unchanged, and for every `c < _cols`: `get(r, c)` is the old
`get(r, c)` for `r < idx`, `get(idx, c)` is the default `0`, and `get(r + 1, c)` is the old
`get(r, c)` for `idx ≤ r < _rows` (old row count).  No case is made on whether the call
reallocates, so this holds with and without growth or shrink. -/
theorem insert_row_at_keeps_order (t : DynamicTable) (hwf : t.WF) (idx : Nat)
    (hidx : idx ≤ t._rows) :
    ∃ t', t.insert_row_at idx = some (Result.ok (), t') ∧
      t'._rows = t._rows + 1 ∧ t'._cols = t._cols ∧
      ∀ c, c < t._cols →
        (∀ r, r < idx → t'.get r c = t.get r c) ∧
        t'.get idx c = Result.ok 0 ∧
        (∀ r, idx ≤ r → r < t._rows → t'.get (r + 1) c = t.get r c) := by
  obtain ⟨t', h, _, hr', hc', hread⟩ := insert_row_at_cells t hwf idx hidx
  refine ⟨t', h, hr', hc', fun c hc => ⟨?_, ?_, ?_⟩⟩
  · intro r hr
    rw [get_eq_read t' r c (by omega) (by omega), get_eq_read t r c (by omega) hc,
      hread r c (by omega) hc, if_pos hr]
  · rw [get_eq_read t' idx c (by omega) (by omega), hread idx c hidx hc,
      if_neg (Nat.lt_irrefl _), if_pos rfl]
  · intro r hr1 hr2
    rw [get_eq_read t' (r + 1) c (by omega) (by omega), get_eq_read t r c hr2 hc,
      hread (r + 1) c (by omega) hc, if_neg (by omega), if_neg (by omega)]
    rfl

theorem insert_row_at_keeps_order_witness :
    full_2x2.WF ∧ 1 ≤ full_2x2._rows ∧
      ∃ t', full_2x2.insert_row_at 1 = some (Result.ok (), t') ∧
        t'._rows = full_2x2._rows + 1 ∧ t'._cols = full_2x2._cols ∧
        ∀ c, c < full_2x2._cols →
          (∀ r, r < 1 → t'.get r c = full_2x2.get r c) ∧
          t'.get 1 c = Result.ok 0 ∧
          (∀ r, 1 ≤ r → r < full_2x2._rows → t'.get (r + 1) c = full_2x2.get r c) :=
  ⟨full_2x2_WF, by decide, insert_row_at_keeps_order full_2x2 full_2x2_WF 1 (by decide)⟩

/-! ## Removal of a row -/

/-- C8: on a well-formed table, for every `idx < _rows`, `remove_row_at(idx)` returns; after it
`_rows` is one less, `_cols` is unchanged, and for every `c < _cols`: `get(r, c)` is the old
`get(r, c)` for `r < idx` and the old `get(r + 1, c)` for `idx ≤ r < _rows - 1`.  No case is
made on whether the call shrinks the row capacity. -/
theorem remove_row_at_keeps_order (t : DynamicTable) (hwf : t.WF) (idx : Nat)
    (hidx : idx < t._rows) :
    ∃ t', t.remove_row_at idx = some (Result.ok (), t') ∧
      t'._rows = t._rows - 1 ∧ t'._cols = t._cols ∧
      ∀ c, c < t._cols →
        (∀ r, r < idx → t'.get r c = t.get r c) ∧
        (∀ r, idx ≤ r → r < t._rows - 1 → t'.get r c = t.get (r + 1) c) := by
  obtain ⟨t', h, _, hr', hc', hread⟩ := remove_row_at_cells t hwf idx hidx
  refine ⟨t', h, hr', hc', fun c hc => ⟨?_, ?_⟩⟩
  · intro r hr
    rw [get_eq_read t' r c (by omega) (by omega), get_eq_read t r c (by omega) hc,
      hread r c (by omega) hc, if_pos hr]
  · intro r hr1 hr2
    rw [get_eq_read t' r c (by omega) (by omega), get_eq_read t (r + 1) c (by omega) hc,
      hread r c (by omega) hc, if_neg (by omega)]

theorem remove_row_at_keeps_order_witness :
    sparse_3x2.WF ∧ 1 < sparse_3x2._rows ∧
      ∃ t', sparse_3x2.remove_row_at 1 = some (Result.ok (), t') ∧
        t'._rows = sparse_3x2._rows - 1 ∧ t'._cols = sparse_3x2._cols ∧
        ∀ c, c < sparse_3x2._cols →
          (∀ r, r < 1 → t'.get r c = sparse_3x2.get r c) ∧
          (∀ r, 1 ≤ r → r < sparse_3x2._rows - 1 → t'.get r c = sparse_3x2.get (r + 1) c) :=
  ⟨sparse_3x2_WF, by decide, remove_row_at_keeps_order sparse_3x2 sparse_3x2_WF 1 (by decide)⟩

/-! ## Insertion followed by removal -/

/-- C9: on a well-formed table, for every `idx ≤ _rows`, `insert_row_at(idx)` followed by
`remove_row_at(idx)` both return, and leave `_rows`, `_cols` and `get(r, c)` for every
in-bounds `(r, c)` as they were before the two calls. -/
theorem remove_row_at_undoes_insert_row_at (t : DynamicTable) (hwf : t.WF) (idx : Nat)
    (hidx : idx ≤ t._rows) :
    ∃ t1 t2, t.insert_row_at idx = some (Result.ok (), t1) ∧
      t1.remove_row_at idx = some (Result.ok (), t2) ∧
      t2._rows = t._rows ∧ t2._cols = t._cols ∧
      ∀ r c, r < t._rows → c < t._cols → t2.get r c = t.get r c := by
  obtain ⟨t1, h1, hwf1, hr1, hc1, hread1⟩ := insert_row_at_cells t hwf idx hidx
  obtain ⟨t2, h2, _, hr2, hc2, hread2⟩ := remove_row_at_cells t1 hwf1 idx (by omega)
  refine ⟨t1, t2, h1, h2, by omega, by omega, ?_⟩
  intro r c hr hc
  rw [get_eq_read t2 r c (by omega) (by omega), get_eq_read t r c hr hc,
    hread2 r c (by omega) (by omega)]
  by_cases h : r < idx
  · rw [if_pos h, hread1 r c (by omega) hc, if_pos h]
  · rw [if_neg h, hread1 (r + 1) c (by omega) hc, if_neg (by omega), if_neg (by omega)]
    rfl

theorem remove_row_at_undoes_insert_row_at_witness :
    full_2x2.WF ∧ 0 ≤ full_2x2._rows ∧
      ∃ t1 t2, full_2x2.insert_row_at 0 = some (Result.ok (), t1) ∧
        t1.remove_row_at 0 = some (Result.ok (), t2) ∧
        t2._rows = full_2x2._rows ∧ t2._cols = full_2x2._cols ∧
        ∀ r c, r < full_2x2._rows → c < full_2x2._cols → t2.get r c = full_2x2.get r c :=
  ⟨full_2x2_WF, by decide,
    remove_row_at_undoes_insert_row_at full_2x2 full_2x2_WF 0 (by decide)⟩

/-! ## A worked scenario -/

/-- C10: for the table constructed with initial rows 2 and columns 2 (and any counter), three
`push_row` calls give `(_rows, _row_capacity)` equal to `(1, 2)`, `(2, 2)`, `(3, 4)`, and three
`pop_row` calls after them give `(2, 4)`, `(1, 2)`, `(0, 1)`; `_cols` stays `0` and
`_col_capacity` stays `2` throughout.  The sizes are listed as
`(_rows, _cols, _row_capacity, _col_capacity)`. -/
theorem end_to_end_scenario (k : Option OperationCounter) :
    (new k 2 2).sizes = (0, 0, 2, 2) ∧
    ∃ t1 t2 t3 t4 t5 t6,
      (new k 2 2).push_row = some (Result.ok (), t1) ∧ t1.sizes = (1, 0, 2, 2) ∧
      t1.push_row = some (Result.ok (), t2) ∧ t2.sizes = (2, 0, 2, 2) ∧
      t2.push_row = some (Result.ok (), t3) ∧ t3.sizes = (3, 0, 4, 2) ∧
      t3.pop_row = some (Result.ok (), t4) ∧ t4.sizes = (2, 0, 4, 2) ∧
      t4.pop_row = some (Result.ok (), t5) ∧ t5.sizes = (1, 0, 2, 2) ∧
      t5.pop_row = some (Result.ok (), t6) ∧ t6.sizes = (0, 0, 1, 2) := by
  have s0 : (new k 2 2).sizes = (0, 0, 2, 2) := (new_core k 2 2).1
  obtain ⟨t1, h1, s1⟩ := push_row_step _ 0 0 2 2 s0 (by decide) (by decide) (by decide) (by decide)
  replace s1 : t1.sizes = (1, 0, 2, 2) := s1.trans (by decide)
  obtain ⟨t2, h2, s2⟩ := push_row_step _ 1 0 2 2 s1 (by decide) (by decide) (by decide) (by decide)
  replace s2 : t2.sizes = (2, 0, 2, 2) := s2.trans (by decide)
  obtain ⟨t3, h3, s3⟩ := push_row_step _ 2 0 2 2 s2 (by decide) (by decide) (by decide) (by decide)
  replace s3 : t3.sizes = (3, 0, 4, 2) := s3.trans (by decide)
  obtain ⟨t4, h4, s4⟩ := pop_row_step _ 3 0 4 2 s3 (by decide) (by decide) (by decide)
    (by decide) (by decide)
  replace s4 : t4.sizes = (2, 0, 4, 2) := s4.trans (by decide)
  obtain ⟨t5, h5, s5⟩ := pop_row_step _ 2 0 4 2 s4 (by decide) (by decide) (by decide)
    (by decide) (by decide)
  replace s5 : t5.sizes = (1, 0, 2, 2) := s5.trans (by decide)
  obtain ⟨t6, h6, s6⟩ := pop_row_step _ 1 0 2 2 s5 (by decide) (by decide) (by decide)
    (by decide) (by decide)
  replace s6 : t6.sizes = (0, 0, 1, 2) := s6.trans (by decide)
  exact ⟨s0, t1, t2, t3, t4, t5, t6, h1, s1, h2, s2, h3, s3, h4, s4, h5, s5, h6, s6⟩

end DynamicTable

namespace DynamicTable

/-! ## Clear -/

/-- C11: for every table `clear()` returns; afterwards `_rows = 0` and `_cols = 0`, while
`_row_capacity` and `_col_capacity` (and the storage) are what they were before the call: no
shrink is applied, whatever the capacities. -/
theorem clear_keeps_capacities (t : DynamicTable) :
    ∃ t', t.clear = some (Result.ok (), t') ∧ t'._rows = 0 ∧ t'._cols = 0 ∧
      t'._row_capacity = t._row_capacity ∧ t'._col_capacity = t._col_capacity ∧
      t'._data = t._data :=
  ⟨_, rfl, rfl, rfl, rfl, rfl, rfl⟩

/-! ## The two axes are independent -/

/-- C12: on a table that satisfies the size invariants each row operation (`push_row`,
`insert_row_at`, `pop_row`, `remove_row_at`) returns or is rejected with `_cols` and
`_col_capacity` unchanged, and each column operation (`push_col`, `insert_col_at`, `pop_col`,
`remove_col_at`) with `_rows` and `_row_capacity` unchanged; no case is made on whether the
call grows or shrinks the capacity of its own axis. -/
theorem operations_leave_other_axis (t : DynamicTable) (hinv : t.Inv) :
    (∃ res t', t.push_row = some (res, t') ∧
      t'._cols = t._cols ∧ t'._col_capacity = t._col_capacity) ∧
    (∀ idx, ∃ res t', t.insert_row_at idx = some (res, t') ∧
      t'._cols = t._cols ∧ t'._col_capacity = t._col_capacity) ∧
    (∃ res t', t.pop_row = some (res, t') ∧
      t'._cols = t._cols ∧ t'._col_capacity = t._col_capacity) ∧
    (∀ idx, ∃ res t', t.remove_row_at idx = some (res, t') ∧
      t'._cols = t._cols ∧ t'._col_capacity = t._col_capacity) ∧
    (∃ res t', t.push_col = some (res, t') ∧
      t'._rows = t._rows ∧ t'._row_capacity = t._row_capacity) ∧
    (∀ idx, ∃ res t', t.insert_col_at idx = some (res, t') ∧
      t'._rows = t._rows ∧ t'._row_capacity = t._row_capacity) ∧
    (∃ res t', t.pop_col = some (res, t') ∧
      t'._rows = t._rows ∧ t'._row_capacity = t._row_capacity) ∧
    (∀ idx, ∃ res t', t.remove_col_at idx = some (res, t') ∧
      t'._rows = t._rows ∧ t'._row_capacity = t._row_capacity) := by
  refine ⟨?_, fun idx => ?_, ?_, fun idx => ?_, ?_, fun idx => ?_, ?_, fun idx => ?_⟩
  · obtain ⟨t', h, hs⟩ := push_row_sizes t hinv
    exact ⟨_, t', h, (sizes_fields hs).2.1, (sizes_fields hs).2.2.2⟩
  · by_cases hidx : idx ≤ t._rows
    · obtain ⟨t', h, hs⟩ := insert_row_at_sizes t hinv idx hidx
      exact ⟨_, t', h, (sizes_fields hs).2.1, (sizes_fields hs).2.2.2⟩
    · exact ⟨Result.out_of_range, t, by unfold insert_row_at; rw [if_pos (by omega)], rfl, rfl⟩
  · by_cases hpos : t._rows = 0
    · exact ⟨Result.out_of_range, t, by unfold pop_row; rw [if_pos hpos], rfl, rfl⟩
    · obtain ⟨t', h, hs⟩ := pop_row_sizes t hinv hpos
      exact ⟨_, t', h, (sizes_fields hs).2.1, (sizes_fields hs).2.2.2⟩
  · by_cases hidx : idx < t._rows
    · obtain ⟨t', h, hs⟩ := remove_row_at_sizes t hinv idx hidx
      exact ⟨_, t', h, (sizes_fields hs).2.1, (sizes_fields hs).2.2.2⟩
    · exact ⟨Result.out_of_range, t, by unfold remove_row_at; rw [if_pos (by omega)], rfl, rfl⟩
  · obtain ⟨t', h, hs⟩ := push_col_sizes t hinv
    exact ⟨_, t', h, (sizes_fields hs).1, (sizes_fields hs).2.2.1⟩
  · by_cases hidx : idx ≤ t._cols
    · obtain ⟨t', h, hs⟩ := insert_col_at_sizes t hinv idx hidx
      exact ⟨_, t', h, (sizes_fields hs).1, (sizes_fields hs).2.2.1⟩
    · exact ⟨Result.out_of_range, t, by unfold insert_col_at; rw [if_pos (by omega)], rfl, rfl⟩
  · by_cases hpos : t._cols = 0
    · exact ⟨Result.out_of_range, t, by unfold pop_col; rw [if_pos hpos], rfl, rfl⟩
    · obtain ⟨t', h, hs⟩ := pop_col_sizes t hinv hpos
      exact ⟨_, t', h, (sizes_fields hs).1, (sizes_fields hs).2.2.1⟩
  · by_cases hidx : idx < t._cols
    · obtain ⟨t', h, hs⟩ := remove_col_at_sizes t hinv idx hidx
      exact ⟨_, t', h, (sizes_fields hs).1, (sizes_fields hs).2.2.1⟩
    · exact ⟨Result.out_of_range, t, by unfold remove_col_at; rw [if_pos (by omega)], rfl, rfl⟩

theorem operations_leave_other_axis_witness :
    full_2x2.Inv ∧
      (∃ res t', full_2x2.push_row = some (res, t') ∧
        t'._cols = full_2x2._cols ∧ t'._col_capacity = full_2x2._col_capacity) ∧
      (∃ res t', full_2x2.push_col = some (res, t') ∧
        t'._rows = full_2x2._rows ∧ t'._row_capacity = full_2x2._row_capacity) :=
  ⟨full_2x2_WF.toInv, (operations_leave_other_axis full_2x2 full_2x2_WF.toInv).1,
    (operations_leave_other_axis full_2x2 full_2x2_WF.toInv).2.2.2.2.1⟩

/-! ## Cells after a push and after a pop -/

/-- C13: on a well-formed table `push_row` returns and leaves a well-formed table; afterwards
`_rows` is one more and `_cols` is as before, the appended row `_rows - 1` is a row of the
storage with a cell for every column `c < _cols`, `get` of that row is the default `0` in
every such column (whatever the storage row held before), and `get(r, c)` is the old
`get(r, c)` for every `r` below the old row count and `c < _cols`, in cells that exist as well.
No case is made on whether the call reallocates. -/
theorem push_row_appends_default_row (t : DynamicTable) (hwf : t.WF) :
    ∃ t', t.push_row = some (Result.ok (), t') ∧ t'.WF ∧
      t'._rows = t._rows + 1 ∧ t'._cols = t._cols ∧
      ∀ c, c < t._cols →
        t'._data.Allocated t._rows c ∧
        t'.get t._rows c = Result.ok 0 ∧
        ∀ r, r < t._rows → t'._data.Allocated r c ∧ t'.get r c = t.get r c := by
  obtain ⟨t', h, hwf', hr', hc', hread⟩ := push_row_cells t hwf
  refine ⟨t', h, hwf', hr', hc', fun c hc => ⟨?_, ?_, fun r hr => ⟨?_, ?_⟩⟩⟩
  · exact hwf'.allocated_logical (by omega) (by omega)
  · rw [get_eq_read t' t._rows c (by omega) (by omega), hread t._rows c (Nat.le_refl _) hc,
      if_neg (Nat.lt_irrefl _)]
  · exact hwf'.allocated_logical (by omega) (by omega)
  · rw [get_eq_read t' r c (by omega) (by omega), get_eq_read t r c hr hc,
      hread r c (by omega) hc, if_pos hr]

theorem push_row_appends_default_row_witness :
    (popped_1x2.WF ∧ popped_1x2._data.read 1 0 = 8 ∧
      ∃ t', popped_1x2.push_row = some (Result.ok (), t') ∧ t'.WF ∧
        t'._rows = popped_1x2._rows + 1 ∧ t'._cols = popped_1x2._cols ∧
        ∀ c, c < popped_1x2._cols →
          t'._data.Allocated popped_1x2._rows c ∧
          t'.get popped_1x2._rows c = Result.ok 0 ∧
          ∀ r, r < popped_1x2._rows →
            t'._data.Allocated r c ∧ t'.get r c = popped_1x2.get r c) ∧
    (full_2x2.WF ∧ full_2x2._rows = full_2x2._row_capacity ∧
      ∃ t', full_2x2.push_row = some (Result.ok (), t') ∧ t'.WF ∧
        t'._rows = full_2x2._rows + 1 ∧ t'._cols = full_2x2._cols ∧
        ∀ c, c < full_2x2._cols →
          t'._data.Allocated full_2x2._rows c ∧
          t'.get full_2x2._rows c = Result.ok 0 ∧
          ∀ r, r < full_2x2._rows →
            t'._data.Allocated r c ∧ t'.get r c = full_2x2.get r c) :=
  ⟨⟨popped_1x2_WF, by decide, push_row_appends_default_row popped_1x2 popped_1x2_WF⟩,
    ⟨full_2x2_WF, rfl, push_row_appends_default_row full_2x2 full_2x2_WF⟩⟩

/-- C14: on a well-formed table with `_rows ≥ 1`, `pop_row` returns; afterwards `_rows` is one
less and `get(r, c)` is the old `get(r, c)` for every `r` below the new row count and
`c < _cols`.  No case is made on whether the shrink block reallocates the grid, so no cell inside
both the old and the new logical bounds is lost. -/
theorem pop_row_keeps_remaining_cells (t : DynamicTable) (hwf : t.WF) (hpos : 1 ≤ t._rows) :
    ∃ t', t.pop_row = some (Result.ok (), t') ∧ t'._rows = t._rows - 1 ∧
      t'._cols = t._cols ∧
      ∀ r c, r < t._rows - 1 → c < t._cols → t'.get r c = t.get r c := by
  obtain ⟨t', h, _, hr', hc', hread⟩ := pop_row_cells t hwf (by omega)
  refine ⟨t', h, hr', hc', fun r c hr hc => ?_⟩
  rw [get_eq_read t' r c (by omega) (by omega), get_eq_read t r c (by omega) hc,
    hread r c (by omega) hc]

theorem pop_row_keeps_remaining_cells_witness :
    sparse_3x2.WF ∧ 1 ≤ sparse_3x2._rows ∧
      sparse_3x2._rows - 1 ≤ sparse_3x2._row_capacity / 4 ∧
      ∃ t', sparse_3x2.pop_row = some (Result.ok (), t') ∧
        t'._rows = sparse_3x2._rows - 1 ∧ t'._cols = sparse_3x2._cols ∧
        ∀ r c, r < sparse_3x2._rows - 1 → c < sparse_3x2._cols →
          t'.get r c = sparse_3x2.get r c :=
  ⟨sparse_3x2_WF, by decide, by decide,
    pop_row_keeps_remaining_cells sparse_3x2 sparse_3x2_WF (by decide)⟩

/-! ## Column operations mirror row operations -/

/-- C15: write `transpose` for the table with `_rows` and `_cols` swapped, the two capacities
swapped and the grid transposed.  On a well-formed table `t`, for every index `idx`, the calls
`push_col`, `insert_col_at(idx)`, `pop_col` and `remove_col_at(idx)` on `t` agree with the
transposed outcome of `push_row`, `insert_row_at(idx)`, `pop_row` and `remove_row_at(idx)` on
`t.transpose`: both calls end, both return or both throw `out_of_range`, and the two tables have
the same `_rows`, `_cols`, `_row_capacity`, `_col_capacity` and the same `get(r, c)` in every
logical cell. -/
theorem column_operations_mirror_row_operations (t : DynamicTable) (hwf : t.WF) :
    Agree t.push_col (transpose_outcome t.transpose.push_row) ∧
    (∀ idx, Agree (t.insert_col_at idx) (transpose_outcome (t.transpose.insert_row_at idx))) ∧
    Agree t.pop_col (transpose_outcome t.transpose.pop_row) ∧
    (∀ idx, Agree (t.remove_col_at idx) (transpose_outcome (t.transpose.remove_row_at idx))) :=
  ⟨push_col_mirror t hwf, insert_col_at_mirror t hwf, pop_col_mirror t hwf,
    remove_col_at_mirror t hwf⟩

theorem column_operations_mirror_row_operations_witness :
    wide_2x3.WF ∧
      Agree (wide_2x3.insert_col_at 1)
        (transpose_outcome (wide_2x3.transpose.insert_row_at 1)) ∧
      Agree (wide_2x3.remove_col_at 0)
        (transpose_outcome (wide_2x3.transpose.remove_row_at 0)) :=
  ⟨wide_2x3_WF, (column_operations_mirror_row_operations wide_2x3 wide_2x3_WF).2.1 1,
    (column_operations_mirror_row_operations wide_2x3 wide_2x3_WF).2.2.2 0⟩

/-! ## Insertion at the end is a push -/

/-- C16: on a table that satisfies the size invariants `push_row()` and
`insert_row_at(_rows)` both return and give exactly the same table (sizes, capacities, storage
and counter), and so do `push_col()` and `insert_col_at(_cols)`. -/
theorem insert_at_end_is_push (t : DynamicTable) (hinv : t.Inv) :
    (∃ t', t.push_row = some (Result.ok (), t') ∧
      t.insert_row_at t._rows = some (Result.ok (), t')) ∧
    (∃ t', t.push_col = some (Result.ok (), t') ∧
      t.insert_col_at t._cols = some (Result.ok (), t')) := by
  obtain ⟨t1, h1, _⟩ := push_row_sizes t hinv
  obtain ⟨t2, h2, _⟩ := push_col_sizes t hinv
  exact ⟨⟨t1, h1, by rw [insert_row_at_end, h1]⟩, ⟨t2, h2, by rw [insert_col_at_end, h2]⟩⟩

theorem insert_at_end_is_push_witness :
    full_2x2.Inv ∧
      (∃ t', full_2x2.push_row = some (Result.ok (), t') ∧
        full_2x2.insert_row_at full_2x2._rows = some (Result.ok (), t')) ∧
      (∃ t', full_2x2.push_col = some (Result.ok (), t') ∧
        full_2x2.insert_col_at full_2x2._cols = some (Result.ok (), t')) :=
  ⟨full_2x2_WF.toInv, insert_at_end_is_push full_2x2 full_2x2_WF.toInv⟩

/-! ## The counter is only an observer -/

/-- C17: for every table, every counter state `k` (also no counter) and every operation, the
call on the table with the counter `k` attached and the call on the table with no counter end
the same way (both return, both throw `out_of_range`, or neither terminates) and leave the same
storage, `_rows`, `_cols`, `_row_capacity` and `_col_capacity`: the outcome without counter is
the outcome with counter, the counter taken off.  `get` returns the same value or throws in
both, and the constructor builds the same table up to the counter. -/
theorem counter_never_affects_table (t : DynamicTable) (k : Option OperationCounter) :
    (∀ op, (t.with_counter none).apply op = detach_outcome ((t.with_counter k).apply op)) ∧
    (∀ op, Option.map (fun p => (p.1, p.2.core)) ((t.with_counter none).apply op)
      = Option.map (fun p => (p.1, p.2.core)) ((t.with_counter k).apply op)) ∧
    (∀ r c, (t.with_counter none).get r c = (t.with_counter k).get r c) ∧
    (∀ ir ic, new none ir ic = (new k ir ic).with_counter none) := by
  refine ⟨fun op => apply_detach (t.with_counter k) op, fun op => ?_, fun _ _ => rfl,
    fun ir ic => (new_detach k ir ic).symm⟩
  have h : (t.with_counter none).apply op = detach_outcome ((t.with_counter k).apply op) :=
    apply_detach (t.with_counter k) op
  rw [h]
  cases (t.with_counter k).apply op with
  | none => rfl
  | some p => rfl

/-! ## The shrink test after an insertion -/

/-- C18: on a table that satisfies the size invariants, let `C'` be the row capacity after the
step `ensure_row_capacity_for(_rows + 1)`; then `push_row` and `insert_row_at(idx)` with
`idx ≤ _rows` return with row capacity `max 1 (C' / 2)` if `_rows + 1 ≤ C' / 4` and `C' > 1`,
and `C'` otherwise.  The same holds for `push_col` and `insert_col_at` on the column axis.
So a push can reduce the capacity: a fresh table of initial row capacity 8 has row capacity 4
after one `push_row`. -/
theorem shrink_test_after_insertion :
    (∀ t : DynamicTable, t.Inv →
      (∃ t1, t.ensure_row_capacity_for (t._rows + 1) = some t1 ∧
        (∃ t', t.push_row = some (Result.ok (), t') ∧
          t'._row_capacity =
            if t._rows + 1 ≤ t1._row_capacity / 4 ∧ t1._row_capacity > 1
            then max 1 (t1._row_capacity / 2) else t1._row_capacity) ∧
        ∀ idx, idx ≤ t._rows →
          ∃ t', t.insert_row_at idx = some (Result.ok (), t') ∧
            t'._row_capacity =
              if t._rows + 1 ≤ t1._row_capacity / 4 ∧ t1._row_capacity > 1
              then max 1 (t1._row_capacity / 2) else t1._row_capacity) ∧
      (∃ t1, t.ensure_col_capacity_for (t._cols + 1) = some t1 ∧
        (∃ t', t.push_col = some (Result.ok (), t') ∧
          t'._col_capacity =
            if t._cols + 1 ≤ t1._col_capacity / 4 ∧ t1._col_capacity > 1
            then max 1 (t1._col_capacity / 2) else t1._col_capacity) ∧
        ∀ idx, idx ≤ t._cols →
          ∃ t', t.insert_col_at idx = some (Result.ok (), t') ∧
            t'._col_capacity =
              if t._cols + 1 ≤ t1._col_capacity / 4 ∧ t1._col_capacity > 1
              then max 1 (t1._col_capacity / 2) else t1._col_capacity)) ∧
    (∀ (k : Option OperationCounter) (ic : Nat),
      (new k 8 ic)._row_capacity = 8 ∧
      ∃ t', (new k 8 ic).push_row = some (Result.ok (), t') ∧ t'._row_capacity = 4) := by
  refine ⟨fun t hinv => ⟨?_, ?_⟩, fun k ic => ?_⟩
  · obtain ⟨t1, he, hs1⟩ := ensure_row_next_sizes t hinv
    have hc1 := (sizes_fields hs1).2.2.1
    refine ⟨t1, he, ?_, fun idx hidx => ?_⟩
    · obtain ⟨t', h, hs⟩ := push_row_sizes t hinv
      exact ⟨t', h, by rw [(sizes_fields hs).2.2.1, hc1]; rfl⟩
    · obtain ⟨t', h, hs⟩ := insert_row_at_sizes t hinv idx hidx
      exact ⟨t', h, by rw [(sizes_fields hs).2.2.1, hc1]; rfl⟩
  · obtain ⟨t1, he, hs1⟩ := ensure_col_next_sizes t hinv
    have hc1 := (sizes_fields hs1).2.2.2
    refine ⟨t1, he, ?_, fun idx hidx => ?_⟩
    · obtain ⟨t', h, hs⟩ := push_col_sizes t hinv
      exact ⟨t', h, by rw [(sizes_fields hs).2.2.2, hc1]; rfl⟩
    · obtain ⟨t', h, hs⟩ := insert_col_at_sizes t hinv idx hidx
      exact ⟨t', h, by rw [(sizes_fields hs).2.2.2, hc1]; rfl⟩
  · obtain ⟨n1, _, n3, _⟩ := sizes_fields (new_core k 8 ic).1
    obtain ⟨t', h, hs⟩ := push_row_sizes (new k 8 ic) (new_Inv k 8 ic)
    refine ⟨n3, t', h, ?_⟩
    rw [(sizes_fields hs).2.2.1, n1, n3]
    decide

theorem shrink_test_after_insertion_witness :
    (new none 8 2).Inv ∧
      ∃ t1, (new none 8 2).ensure_row_capacity_for ((new none 8 2)._rows + 1) = some t1 ∧
        (∃ t', (new none 8 2).push_row = some (Result.ok (), t') ∧
          t'._row_capacity =
            if (new none 8 2)._rows + 1 ≤ t1._row_capacity / 4 ∧ t1._row_capacity > 1
            then max 1 (t1._row_capacity / 2) else t1._row_capacity) ∧
        ∀ idx, idx ≤ (new none 8 2)._rows →
          ∃ t', (new none 8 2).insert_row_at idx = some (Result.ok (), t') ∧
            t'._row_capacity =
              if (new none 8 2)._rows + 1 ≤ t1._row_capacity / 4 ∧ t1._row_capacity > 1
              then max 1 (t1._row_capacity / 2) else t1._row_capacity :=
  ⟨⟨by decide, by decide, by decide, by decide⟩,
    (shrink_test_after_insertion.1 (new none 8 2)
      ⟨by decide, by decide, by decide, by decide⟩).1⟩

/-! ## Growth and shrink in one call -/

/-- C19: on a table that satisfies the size invariants, if the step
`ensure_row_capacity_for(_rows + 1)` of `push_row` or `insert_row_at` grows the row capacity,
then the shrink test `_rows ≤ _row_capacity / 4 && _row_capacity > 1` evaluated afterwards in
the same call (on `_rows + 1` and the grown capacity) is false, and the call ends with the grown
capacity; so the call reallocates at most once: the number of reallocations the counter has
recorded is unchanged or one more.  The same holds for `push_col` and `insert_col_at`. -/
theorem growth_and_shrink_never_both (t : DynamicTable) (hinv : t.Inv) :
    (∃ t1, t.ensure_row_capacity_for (t._rows + 1) = some t1 ∧
      (t._row_capacity < t1._row_capacity →
        ¬ (t._rows + 1 ≤ t1._row_capacity / 4 ∧ t1._row_capacity > 1)) ∧
      (∃ t', t.push_row = some (Result.ok (), t') ∧
        (t._row_capacity < t1._row_capacity → t'._row_capacity = t1._row_capacity) ∧
        (t'.reallocations = t.reallocations ∨
          t'.reallocations = t.reallocations.map (· + 1))) ∧
      ∀ idx, idx ≤ t._rows →
        ∃ t', t.insert_row_at idx = some (Result.ok (), t') ∧
          (t._row_capacity < t1._row_capacity → t'._row_capacity = t1._row_capacity) ∧
          (t'.reallocations = t.reallocations ∨
            t'.reallocations = t.reallocations.map (· + 1))) ∧
    (∃ t1, t.ensure_col_capacity_for (t._cols + 1) = some t1 ∧
      (t._col_capacity < t1._col_capacity →
        ¬ (t._cols + 1 ≤ t1._col_capacity / 4 ∧ t1._col_capacity > 1)) ∧
      (∃ t', t.push_col = some (Result.ok (), t') ∧
        (t._col_capacity < t1._col_capacity → t'._col_capacity = t1._col_capacity) ∧
        (t'.reallocations = t.reallocations ∨
          t'.reallocations = t.reallocations.map (· + 1))) ∧
      ∀ idx, idx ≤ t._cols →
        ∃ t', t.insert_col_at idx = some (Result.ok (), t') ∧
          (t._col_capacity < t1._col_capacity → t'._col_capacity = t1._col_capacity) ∧
          (t'.reallocations = t.reallocations ∨
            t'.reallocations = t.reallocations.map (· + 1))) := by
  refine ⟨?_, ?_⟩
  · obtain ⟨t1, t', he, h, hcap, hre⟩ := push_row_once t hinv
    refine ⟨t1, he, no_shrink_after_row_growth t t1 hinv he, ⟨t', h, hcap, hre⟩, ?_⟩
    intro idx hidx
    obtain ⟨t2, t'', he2, h2, hcap2, hre2⟩ := insert_row_at_once t hinv idx hidx
    rw [he] at he2
    cases he2
    exact ⟨t'', h2, hcap2, hre2⟩
  · obtain ⟨t1, t', he, h, hcap, hre⟩ := push_col_once t hinv
    refine ⟨t1, he, no_shrink_after_col_growth t t1 hinv he, ⟨t', h, hcap, hre⟩, ?_⟩
    intro idx hidx
    obtain ⟨t2, t'', he2, h2, hcap2, hre2⟩ := insert_col_at_once t hinv idx hidx
    rw [he] at he2
    cases he2
    exact ⟨t'', h2, hcap2, hre2⟩

theorem growth_and_shrink_never_both_witness :
    counted_2x2.Inv ∧ counted_2x2.reallocations = some 0 ∧
      ∃ t1, counted_2x2.ensure_row_capacity_for (counted_2x2._rows + 1) = some t1 ∧
        (counted_2x2._row_capacity < t1._row_capacity →
          ¬ (counted_2x2._rows + 1 ≤ t1._row_capacity / 4 ∧ t1._row_capacity > 1)) ∧
        (∃ t', counted_2x2.push_row = some (Result.ok (), t') ∧
          (counted_2x2._row_capacity < t1._row_capacity →
            t'._row_capacity = t1._row_capacity) ∧
          (t'.reallocations = counted_2x2.reallocations ∨
            t'.reallocations = counted_2x2.reallocations.map (· + 1))) ∧
        ∀ idx, idx ≤ counted_2x2._rows →
          ∃ t', counted_2x2.insert_row_at idx = some (Result.ok (), t') ∧
            (counted_2x2._row_capacity < t1._row_capacity →
              t'._row_capacity = t1._row_capacity) ∧
            (t'.reallocations = counted_2x2.reallocations ∨
              t'.reallocations = counted_2x2.reallocations.map (· + 1)) :=
  ⟨counted_2x2_WF.toInv, by decide,
    (growth_and_shrink_never_both counted_2x2 counted_2x2_WF.toInv).1⟩

/-! ## Cells never set hold the default -/

/-- C20: start from a freshly constructed table (any counter, any initial sizes) and make any
sequence of calls of `push_row`, `insert_row_at`, `pop_row`, `remove_row_at`, `push_col`,
`insert_col_at`, `pop_col`, `remove_col_at` and `clear`, with no call of `set`; every call
ends, the resulting table is well-formed, and for every in-bounds `(r, c)` the cell
`_data[r][c]` exists in the storage and `get(r, c)` returns the default `0`.  A fresh block
holds `INDETERMINATE`, not the default: the default in a cell comes from the fill loops of the
constructor and of `reallocate`. -/
theorem cells_never_set_are_default (k : Option OperationCounter) (ir ic : Nat)
    (ops : List Op) (hset : ∀ op, op ∈ ops → op.is_set = false) :
    ∃ t, (new k ir ic).run ops = some t ∧ t.WF ∧
      ∀ r c, r < t._rows → c < t._cols →
        t._data.Allocated r c ∧ t.get r c = Result.ok 0 := by
  obtain ⟨t, h, hwf, hd⟩ := run_WF_allDefault ops (new k ir ic) (new_WF k ir ic) hset
    (new_allDefault k ir ic)
  refine ⟨t, h, hwf, fun r c hr hc => ⟨hwf.allocated_logical hr hc, ?_⟩⟩
  rw [get_eq_read t r c hr hc, hd r c]
  rfl

theorem cells_never_set_are_default_witness :
    (∀ op, op ∈ [Op.push_row, Op.push_col, Op.push_col, Op.insert_row_at 0, Op.pop_col,
        Op.insert_col_at 1, Op.remove_row_at 1, Op.push_row] → op.is_set = false) ∧
      ∃ t, (new none 1 1).run [Op.push_row, Op.push_col, Op.push_col, Op.insert_row_at 0,
          Op.pop_col, Op.insert_col_at 1, Op.remove_row_at 1, Op.push_row] = some t ∧ t.WF ∧
        ∀ r c, r < t._rows → c < t._cols →
          t._data.Allocated r c ∧ t.get r c = Result.ok 0 :=
  ⟨by decide, cells_never_set_are_default none 1 1 _ (by decide)⟩

/-! ## Slack cells are never observable -/

/-- C21: let `t` and `u` be two well-formed tables with the same `_rows`, `_cols`,
`_row_capacity` and `_col_capacity` and the same value in every cell inside the logical bounds;
their cells outside the logical bounds, and their counters, are arbitrary.  Then `get(r, c)`
gives the same result on both for every `(r, c)` (the same value, or `out_of_range` on both),
and every call of `push_row`, `insert_row_at`, `pop_row`, `remove_row_at`, `push_col`,
`insert_col_at`, `pop_col`, `remove_col_at`, `set` and `clear` ends on both, ends the same way
(both return or both throw `out_of_range`), and leaves two well-formed tables that again have
the same sizes and capacities and the same value in every cell inside the logical bounds. -/
theorem slack_cells_never_observable (t u : DynamicTable) (ht : t.WF) (hu : u.WF)
    (h : SameLogical t u) :
    (∀ r c, t.get r c = u.get r c) ∧
    ∀ op, ∃ res t' u', t.apply op = some (res, t') ∧ u.apply op = some (res, u') ∧
      t'.WF ∧ u'.WF ∧ SameLogical t' u' ∧ ∀ r c, t'.get r c = u'.get r c := by
  refine ⟨sameLogical_get t u h, fun op => ?_⟩
  obtain ⟨res, a, b, ha, hb, hwa, hwb, hab⟩ := apply_sameLogical t u ht hu h op
  exact ⟨res, a, b, ha, hb, hwa, hwb, hab, sameLogical_get a b hab⟩

theorem slack_cells_never_observable_witness :
    wide_2x3.WF ∧ wide_2x3_slack.WF ∧ SameLogical wide_2x3 wide_2x3_slack ∧
      wide_2x3._data ≠ wide_2x3_slack._data ∧
      ∃ res t' u', wide_2x3.apply Op.push_col = some (res, t') ∧
        wide_2x3_slack.apply Op.push_col = some (res, u') ∧
        t'.WF ∧ u'.WF ∧ SameLogical t' u' ∧ ∀ r c, t'.get r c = u'.get r c :=
  ⟨wide_2x3_WF, wide_2x3_slack_WF, wide_2x3_sameLogical, by decide,
    (slack_cells_never_observable wide_2x3 wide_2x3_slack wide_2x3_WF wide_2x3_slack_WF
      wide_2x3_sameLogical).2 Op.push_col⟩

end DynamicTable
